import Mathlib

/-!
# grpcclient: pooled short calls with retry, and a reconnecting stream

A shallow embedding of `grpcclient.go` (package `grpcclient`).

Modelling conventions.

* The program is single-threaded here; the two mutexes are not represented,
  except `poolMu` in the section on the pool mutex, where a panic inside
  `getPoolConn` leaves it locked.
* Go `int` and `time.Duration` values are `Int`; loop counters never leave the
  range `0 .. MaxRetries + 1` (resp. `StreamRetry + 1`, `PoolSize`).
* A `*grpc.ClientConn` is `Option Conn`: `none` is the nil pointer and
  `some h` the connection object with identity `h`.
* Effects are recorded as a chronological list of `Event`s produced by each
  operation.  Collaborators (the dialer, the caller supplied logic) are
  arbitrary deterministic state machines passed as arguments.
* A panic of the Go runtime is an explicit `Result.panic`.
-/

namespace GrpcClient

/-! ## Basic types -/

/-- A `time.Duration`: a signed count of nanoseconds. -/
abbrev Duration := Int

/-- The constant `time.Millisecond`. -/
def Millisecond : Duration := 1000000

/-- A `codes.Code` (an unsigned 32 bit number). -/
abbrev Code := Nat

/-- The constant `codes.DeadlineExceeded`. -/
def codes.DeadlineExceeded : Code := 4

/-- The constant `codes.ResourceExhausted`. -/
def codes.ResourceExhausted : Code := 8

/-- The constant `codes.Unavailable`. -/
def codes.Unavailable : Code := 14

/-- Identity of a connection object returned by `grpc.DialContext`. -/
abbrev Conn := Nat

/-- An error value produced by a collaborator (caller logic or the dialer).
`status` is what `status.FromError` reports for it: `some code` when the error
carries a gRPC status (`ok = true`), `none` when it does not (`ok = false`). -/
structure ExtError where
  status : Option Code
  msg : String
deriving DecidableEq, Repr

/-- Error values handled by the package: collaborator errors and the wrappers
built with `fmt.Errorf(format, arg)` where `format` ends in the verb `%w`.
`errorfNil` is the value built when the wrapped argument is the nil error. -/
inductive GoError where
  | ext (e : ExtError)
  | errorf (format : String) (cause : GoError)
  | errorfNil (format : String)
deriving DecidableEq, Repr

/-- The call `fmt.Errorf(format, arg)` for a possibly nil `arg`. -/
def Errorf (format : String) : Option GoError → GoError
  | some cause => GoError.errorf format cause
  | none => GoError.errorfNil format

/-- The function `errors.Unwrap`. -/
def GoError.unwrap : GoError → Option GoError
  | GoError.errorf _ cause => some cause
  | _ => none

/-! ## Floating point scaling of the backoff

`BackoffFactor` is a `float64`.  A finite `float64` is the dyadic rational
`mant * 2 ^ exp`; the statement `time.Duration(float64(backoff) * factor)` is
evaluated with IEEE-754 round-to-nearest-even on 53 significant bits and the
truncating conversion to `int64`.  A conversion whose value does not fit in an
`int64` yields `-2^63`, which is what the Go compiler produces on amd64. -/

/-- A `float64` value. -/
inductive Float64 where
  | finite (mant : Int) (exp : Int)
  | nonFinite
deriving DecidableEq, Repr

/-- Number of binary digits of `n` beyond the first 53 (`fuel` bounds the search). -/
def excessBits : Nat → Nat → Nat
  | 0, _ => 0
  | fuel + 1, n => if n < 2 ^ 53 then 0 else excessBits fuel (n / 2) + 1

/-- Round a natural number to 53 significant binary digits, ties to even. -/
def roundSig53 (n : Nat) : Nat :=
  let s := excessBits n n
  if s = 0 then n
  else
    let q := n / 2 ^ s
    let r := n % 2 ^ s
    let half := 2 ^ (s - 1)
    (if half < r ∨ (r = half ∧ q % 2 = 1) then q + 1 else q) * 2 ^ s

/-- Round an integer to 53 significant binary digits, ties to even. -/
def roundInt (z : Int) : Int := z.sign * (roundSig53 z.natAbs : Int)

/-- Conversion `int64(x)` of the float with value `m * 2 ^ e`. -/
def truncToInt64 (m e : Int) : Int :=
  let v := if 0 ≤ e then m * 2 ^ e.toNat else Int.tdiv m (2 ^ (-e).toNat)
  if -2 ^ 63 ≤ v ∧ v < 2 ^ 63 then v else -2 ^ 63

/-- The expression `time.Duration(float64(backoff) * factor)`. -/
def scaleBackoff (backoff : Duration) : Float64 → Duration
  | Float64.finite m e => truncToInt64 (roundInt (roundInt backoff * m)) e
  | Float64.nonFinite => -2 ^ 63

/-! ## Configuration, client and events -/

/-- The struct `Config`. -/
structure Config where
  DialTimeout : Duration
  CallTimeout : Duration
  MaxRetries : Int
  BackoffFactor : Float64
  PoolSize : Int
  StreamRetry : Int
  StreamBackoff : Duration
deriving DecidableEq, Repr

/-- A `grpc.DialOption`, kept abstract. -/
abbrev DialOption := String

/-- The struct `WrapperClient` (without its two mutexes). -/
structure WrapperClient where
  pool : List (Option Conn)
  poolCfg : Config
  streamConn : Option Conn
  next : Int
  serverURL : String
  opts : List DialOption
deriving DecidableEq, Repr

/-- Observable effects, in the order in which they happen. -/
inductive Event where
  /-- `grpc.DialContext` returned connection `conn`; `timeout` is the deadline of
  its context (`none` for a context without deadline). -/
  | dialOk (timeout : Option Duration) (conn : Conn)
  /-- `grpc.DialContext` returned the error `err`. -/
  | dialFail (timeout : Option Duration) (err : ExtError)
  /-- `conn.Close()`. -/
  | close (conn : Conn)
  /-- `time.Sleep(d)`. -/
  | sleep (d : Duration)
  /-- One invocation of the caller logic of `ShortCall`, with the timeout of its
  context, the connection passed and the error returned. -/
  | call (timeout : Duration) (conn : Option Conn) (err : Option ExtError)
  /-- One invocation of the caller logic of `StreamCall`. -/
  | stream (conn : Option Conn) (err : Option ExtError)
deriving DecidableEq, Repr

/-- How a Go function ends: `(value, nil)`, `(nil, err)` or a runtime panic. -/
inductive Result (α : Type) where
  | ok (value : α)
  | fail (err : GoError)
  | panic (reason : String)
deriving DecidableEq, Repr

/-- What a method run on the client leaves behind. -/
structure Run (α σ : Type) where
  result : Result α
  client : WrapperClient
  user : σ
  events : List Event

/-- Caller logic of `ShortCall`: from its own state, the timeout of the call
context and the connection, it returns `(resp, err)` and its new state. -/
abbrev ShortLogic (ρ σ : Type) := σ → Duration → Option Conn → (ρ × Option ExtError) × σ

/-- Caller logic of `StreamCall`. -/
abbrev StreamLogic (σ : Type) := σ → Option Conn → Option ExtError × σ

/-- The dialer: outcome of the `i`-th call of `grpc.DialContext` (counted from
the start of the program); a successful `i`-th dial returns the fresh
connection object `i`. -/
abbrev Dialer := Nat → Option ExtError

/-! ## Short calls -/

/-- The function `isRetryable`. -/
def isRetryable (code : Code) : Bool :=
  if code = codes.Unavailable ∨ code = codes.DeadlineExceeded ∨ code = codes.ResourceExhausted then
    true
  else
    false

/-- The method `getPoolConn`, entered with `poolMu` free (`getPoolConnMu` below
adds the mutex); `none` is the index-out-of-range panic of `c.pool[c.next]`
(after a successful index the pool is non-empty, so the modulo cannot divide
by zero). -/
def getPoolConn (c : WrapperClient) : Option (Option Conn × WrapperClient) :=
  if 0 ≤ c.next then
    match c.pool.get? c.next.toNat with
    | none => none
    | some conn => some (conn, { c with next := Int.tmod (c.next + 1) c.pool.length })
  else
    none

/-- The test `!ok || !isRetryable(st.Code())` on the error of an attempt. -/
def breaksLoop (err : ExtError) : Bool :=
  match err.status with
  | none => true
  | some code => !isRetryable code

/-- The return statement after the loop of `ShortCall`. -/
def shortCallExit (lastErr : Option GoError) : GoError :=
  Errorf "ShortCall failed after retries: %w" lastErr

/-- The loop of `ShortCall`; the first argument is the number of values of
`attempt` for which the guard `attempt <= MaxRetries` still holds. -/
def shortLoop {ρ σ : Type} (rpcFunc : ShortLogic ρ σ) :
    Nat → WrapperClient → σ → Option GoError → Duration → Run ρ σ
  | 0, c, s, lastErr, _ => ⟨Result.fail (shortCallExit lastErr), c, s, []⟩
  | n + 1, c, s, _, backoff =>
    match getPoolConn c with
    | none => ⟨Result.panic "index out of range", c, s, []⟩
    | some (conn, c1) =>
      let timeout := c.poolCfg.CallTimeout
      match rpcFunc s timeout conn with
      | ((resp, none), s1) => ⟨Result.ok resp, c1, s1, [Event.call timeout conn none]⟩
      | ((_, some err), s1) =>
        if breaksLoop err then
          ⟨Result.fail (shortCallExit (some (GoError.ext err))), c1, s1,
            [Event.call timeout conn (some err)]⟩
        else
          let r := shortLoop rpcFunc n c1 s1 (some (GoError.ext err))
            (scaleBackoff backoff c.poolCfg.BackoffFactor)
          { r with events := Event.call timeout conn (some err) :: Event.sleep backoff :: r.events }

/-- The method `ShortCall`. -/
def ShortCall {ρ σ : Type} (c : WrapperClient) (rpcFunc : ShortLogic ρ σ) (s : σ) : Run ρ σ :=
  shortLoop rpcFunc (c.poolCfg.MaxRetries + 1).toNat c s none (100 * Millisecond)

/-! ## Construction -/

/-- What the constructor leaves behind: its result, the events and the number
of `grpc.DialContext` calls made so far in the program. -/
structure NewRun where
  result : Result WrapperClient
  events : List Event
  dials : Nat

/-- The loop `for i := 0; i < cfg.PoolSize; i++` of `NewWrapperClient`; the
first argument is the number of values of `i` for which the guard still
holds, `d` is the number of dials made so far.  It returns the dial error that
aborted it, or the filled pool. -/
def dialPool (dial : Dialer) (cfg : Config) :
    Nat → Nat → List (Option Conn) → Nat → Except ExtError (List (Option Conn)) × List Event × Nat
  | 0, _, pool, d => (Except.ok pool, [], d)
  | n + 1, i, pool, d =>
    match dial d with
    | some err => (Except.error err, [Event.dialFail (some cfg.DialTimeout) err], d + 1)
    | none =>
      let r := dialPool dial cfg n (i + 1) (pool.set i (some d)) (d + 1)
      (r.1, Event.dialOk (some cfg.DialTimeout) d :: r.2.1, r.2.2)

/-- The function `NewWrapperClient`; `d` is the number of dials made before it
is called.  A negative `PoolSize` makes `make` panic. -/
def NewWrapperClient (dial : Dialer) (d : Nat) (serverURL : String) (cfg : Config)
    (opts : List DialOption) : NewRun :=
  let opts := if opts.length = 0 then ["WithTransportCredentials(insecure.NewCredentials())"] else opts
  if cfg.PoolSize < 0 then
    ⟨Result.panic "makeslice: len out of range", [], d⟩
  else
    let client : WrapperClient :=
      { serverURL := serverURL, opts := opts, poolCfg := cfg,
        pool := List.replicate cfg.PoolSize.toNat none, streamConn := none, next := 0 }
    match dialPool dial cfg cfg.PoolSize.toNat 0 client.pool d with
    | (Except.error err, evs, d1) =>
      ⟨Result.fail (Errorf "failed to dial short RPC connection: %w" (some (GoError.ext err))), evs, d1⟩
    | (Except.ok pool, evs, d1) =>
      match dial d1 with
      | some err =>
        ⟨Result.fail (Errorf "failed to dial streaming connection: %w" (some (GoError.ext err))),
          evs ++ [Event.dialFail (some cfg.DialTimeout) err], d1 + 1⟩
      | none =>
        ⟨Result.ok { client with pool := pool, streamConn := some d1 },
          evs ++ [Event.dialOk (some cfg.DialTimeout) d1], d1 + 1⟩

/-! ## The managed stream -/

/-- What `StreamCall` leaves behind (`dials` as in `NewRun`). -/
structure StreamRun (σ : Type) where
  result : Result Unit
  client : WrapperClient
  user : σ
  events : List Event
  dials : Nat

/-- The return statement after the loop of `StreamCall`. -/
def streamCallExit (err : Option GoError) : GoError :=
  Errorf "StreamCall failed after reconnects: %w" err

/-- The loop of `StreamCall`; the first argument is the number of values of
`attempt` for which the guard `attempt <= StreamRetry` still holds, `err` is
the variable `err` and `d` the number of dials made so far.  Closing a nil
`streamConn` is a nil-pointer panic. -/
def streamLoop {σ : Type} (dial : Dialer) (rpcFunc : StreamLogic σ) :
    Nat → WrapperClient → σ → Option GoError → Nat → StreamRun σ
  | 0, c, s, err, d => ⟨Result.fail (streamCallExit err), c, s, [], d⟩
  | n + 1, c, s, _, d =>
    let conn := c.streamConn
    match rpcFunc s conn with
    | (none, s1) => ⟨Result.ok (), c, s1, [Event.stream conn none], d⟩
    | (some e, s1) =>
      match dial d with
      | some dialErr =>
        let r := streamLoop dial rpcFunc n c s1
          (some (Errorf "stream reconnect failed: %w" (some (GoError.ext dialErr)))) (d + 1)
        { r with events := Event.stream conn (some e) :: Event.sleep c.poolCfg.StreamBackoff ::
                   Event.dialFail none dialErr :: r.events }
      | none =>
        match c.streamConn with
        | none =>
          ⟨Result.panic "nil pointer dereference", c, s1,
            [Event.stream conn (some e), Event.sleep c.poolCfg.StreamBackoff, Event.dialOk none d],
            d + 1⟩
        | some old =>
          let r := streamLoop dial rpcFunc n { c with streamConn := some d } s1
            (some (GoError.ext e)) (d + 1)
          { r with events := Event.stream conn (some e) :: Event.sleep c.poolCfg.StreamBackoff ::
                     Event.dialOk none d :: Event.close old :: r.events }

/-- The method `StreamCall`. -/
def StreamCall {σ : Type} (dial : Dialer) (d : Nat) (c : WrapperClient) (rpcFunc : StreamLogic σ)
    (s : σ) : StreamRun σ :=
  streamLoop dial rpcFunc (c.poolCfg.StreamRetry + 1).toNat c s none d

/-! ## Shutdown -/

/-- The loop `for _, conn := range c.pool` of `Close`. -/
def closePool : List (Option Conn) → List Event
  | [] => []
  | none :: rest => closePool rest
  | some conn :: rest => Event.close conn :: closePool rest

/-- The method `Close`: the events it produces. -/
def Close (c : WrapperClient) : List Event :=
  closePool c.pool ++
    (match c.streamConn with
     | some conn => [Event.close conn]
     | none => [])

/-! ## Reading event lists -/

/-- The errors returned by the invocations of the caller logic of `ShortCall`. -/
def callErrs : List Event → List (Option ExtError)
  | [] => []
  | Event.call _ _ err :: rest => err :: callErrs rest
  | _ :: rest => callErrs rest

/-- The connections passed to the invocations of the caller logic of `ShortCall`. -/
def callConns : List Event → List (Option Conn)
  | [] => []
  | Event.call _ conn _ :: rest => conn :: callConns rest
  | _ :: rest => callConns rest

/-- The durations slept. -/
def sleeps : List Event → List Duration
  | [] => []
  | Event.sleep d :: rest => d :: sleeps rest
  | _ :: rest => sleeps rest

/-- The connections passed to the invocations of the caller logic of `StreamCall`. -/
def streamConns : List Event → List (Option Conn)
  | [] => []
  | Event.stream conn _ :: rest => conn :: streamConns rest
  | _ :: rest => streamConns rest

/-- The number of calls of `grpc.DialContext`. -/
def dialCount : List Event → Nat
  | [] => 0
  | Event.dialOk _ _ :: rest => dialCount rest + 1
  | Event.dialFail _ _ :: rest => dialCount rest + 1
  | _ :: rest => dialCount rest

/-- The connections closed. -/
def closes : List Event → List Conn
  | [] => []
  | Event.close conn :: rest => conn :: closes rest
  | _ :: rest => closes rest

/-- The connections returned by successful dials. -/
def dialed : List Event → List Conn
  | [] => []
  | Event.dialOk _ conn :: rest => conn :: dialed rest
  | _ :: rest => dialed rest

/-! ## Vocabulary of the properties -/

/-- An error that carries no status code, or a status code other than
`Unavailable`, `DeadlineExceeded` and `ResourceExhausted`. -/
def NonRetryable (e : ExtError) : Prop :=
  e.status = none ∨
    ∃ code, e.status = some code ∧ code ≠ codes.Unavailable ∧ code ≠ codes.DeadlineExceeded ∧
      code ≠ codes.ResourceExhausted

/-- An error that carries one of the status codes `Unavailable`,
`DeadlineExceeded`, `ResourceExhausted`. -/
def Retryable (e : ExtError) : Prop :=
  e.status = some codes.Unavailable ∨ e.status = some codes.DeadlineExceeded ∨
    e.status = some codes.ResourceExhausted

/-- Caller logic that returns a non-retryable error at every invocation. -/
def AlwaysNonRetryable {ρ σ : Type} (rpcFunc : ShortLogic ρ σ) : Prop :=
  ∀ s t conn, ∃ e, (rpcFunc s t conn).1.2 = some e ∧ NonRetryable e

/-- Caller logic that returns a retryable error at every invocation. -/
def AlwaysRetryable {ρ σ : Type} (rpcFunc : ShortLogic ρ σ) : Prop :=
  ∀ s t conn, ∃ e, (rpcFunc s t conn).1.2 = some e ∧ Retryable e

/-- Caller logic that returns no error at every invocation. -/
def AlwaysSucceeds {ρ σ : Type} (rpcFunc : ShortLogic ρ σ) : Prop :=
  ∀ s t conn, (rpcFunc s t conn).1.2 = none

/-- From state `s` the caller logic returns retryable errors on its next `j`
invocations and then succeeds with the result `v`. -/
def FailsThenSucceeds {ρ σ : Type} (rpcFunc : ShortLogic ρ σ) (v : ρ) : Nat → σ → Prop
  | 0, s => ∀ t conn, (rpcFunc s t conn).1 = (v, none)
  | j + 1, s => ∀ t conn, (∃ e, (rpcFunc s t conn).1.2 = some e ∧ Retryable e) ∧
      FailsThenSucceeds rpcFunc v j (rpcFunc s t conn).2

/-- The cursor `next` indexes a slot of the pool. -/
def InRange (c : WrapperClient) : Prop := 0 ≤ c.next ∧ c.next < c.pool.length

/-- The client after one `getPoolConn`. -/
def advance (c : WrapperClient) : WrapperClient :=
  { c with next := (c.next + 1) % c.pool.length }

/-- The backoff in force at the `i`-th sleep of a `ShortCall`, for factor `f`. -/
def backoffAt (f : Float64) (i : Nat) : Duration :=
  (fun b => scaleBackoff b f)^[i] (100 * Millisecond)

/-- Being retryable is decidable. -/
instance decidableRetryable : DecidablePred Retryable := fun e => by
  unfold Retryable
  infer_instance

/-- The number of invocations of the caller logic of `ShortCall` that returned a
retryable error. -/
def retryableFailures : List Event → Nat
  | [] => 0
  | Event.call _ _ (some e) :: rest => (if Retryable e then 1 else 0) + retryableFailures rest
  | _ :: rest => retryableFailures rest

/-- A run of `m` consecutive `ShortCall`s on the same client (it stops at a panic):
the events of the whole run, the final client and the final caller state. -/
def shortCallSeq {ρ σ : Type} (rpcFunc : ShortLogic ρ σ) :
    Nat → WrapperClient → σ → List Event × WrapperClient × σ
  | 0, c, s => ([], c, s)
  | m + 1, c, s =>
    let r := ShortCall c rpcFunc s
    match r.result with
    | Result.panic _ => (r.events, r.client, r.user)
    | _ =>
      let rest := shortCallSeq rpcFunc m r.client r.user
      (r.events ++ rest.1, rest.2)

/-! ## Concrete scenarios -/

/-- A dialer whose dials all succeed. -/
def dialAlwaysOk : Dialer := fun _ => none

/-- A configuration with the given retry bound, pool size and backoff factor. -/
def sampleConfig (maxRetries poolSize : Int) (factor : Float64) : Config :=
  { DialTimeout := 5000 * Millisecond, CallTimeout := 1000 * Millisecond, MaxRetries := maxRetries,
    BackoffFactor := factor, PoolSize := poolSize, StreamRetry := 2,
    StreamBackoff := 50 * Millisecond }

/-- The client that `NewWrapperClient` builds for `sampleConfig` when it makes
the first dials of the program and they all succeed: connections `0 .. n-1` in
the pool, stream connection `n`, cursor 0. -/
def sampleClient (maxRetries : Int) (n : Nat) (factor : Float64) : WrapperClient :=
  { pool := (List.range n).map some, poolCfg := sampleConfig maxRetries n factor,
    streamConn := some n, next := 0, serverURL := "localhost:50051",
    opts := ["WithTransportCredentials(insecure.NewCredentials())"] }

/-- The float `2.0`. -/
def two : Float64 := Float64.finite 2 0

/-- The float `1.5`. -/
def oneAndHalf : Float64 := Float64.finite 3 (-1)

/-- A status error with code `Unavailable`. -/
def errUnavailable : ExtError := ⟨some codes.Unavailable, "unavailable"⟩

/-- A status error with code `NotFound` (5). -/
def errNotFound : ExtError := ⟨some 5, "not found"⟩

/-- An error without status. -/
def errPlain : ExtError := ⟨none, "boom"⟩

/-- Caller logic that always fails with `Unavailable`. -/
def rpcUnavailable : ShortLogic Nat Unit := fun s _ _ => ((0, some errUnavailable), s)

/-- Caller logic that always fails with `NotFound`. -/
def rpcNotFound : ShortLogic Nat Unit := fun s _ _ => ((0, some errNotFound), s)

/-- Caller logic that always fails with an error without status. -/
def rpcPlain : ShortLogic Nat Unit := fun s _ _ => ((0, some errPlain), s)

/-- Caller logic that always succeeds with the result 7. -/
def rpcOk : ShortLogic Nat Unit := fun s _ _ => ((7, none), s)

/-- Caller logic that fails with `Unavailable` on its first `j` invocations and
then returns 7; its state counts the invocations. -/
def rpcFailsFirst (j : Nat) : ShortLogic Nat Nat :=
  fun s _ _ => if s < j then ((0, some errUnavailable), s + 1) else ((7, none), s + 1)

/-- The pool slot that the `i`-th next `getPoolConn` reads, counted from the
current cursor. -/
def slotAt (c : WrapperClient) (i : Nat) : Option Conn :=
  c.pool.getD ((c.next.toNat + i) % c.pool.length) none

/-- Stream caller logic that returns an error at every invocation. -/
def AlwaysErrors {σ : Type} (rpcFunc : StreamLogic σ) : Prop :=
  ∀ s conn, ∃ e, (rpcFunc s conn).1 = some e

/-- The sample client with three pool connections, stream connection 3 and the
given `StreamRetry`. -/
def sampleStreamClient (streamRetry : Int) : WrapperClient :=
  { sampleClient 2 3 two with
    poolCfg := { sampleConfig 2 3 two with StreamRetry := streamRetry } }

/-- Stream caller logic that always fails. -/
def streamAlwaysFails : StreamLogic Unit := fun s _ => (some errPlain, s)

/-- Stream caller logic that returns without error. -/
def streamOk : StreamLogic Unit := fun s _ => (none, s)

/-- The timeouts of the contexts passed to `grpc.DialContext`, in order. -/
def dialTimeouts : List Event → List (Option Duration)
  | [] => []
  | Event.dialOk t _ :: rest => t :: dialTimeouts rest
  | Event.dialFail t _ :: rest => t :: dialTimeouts rest
  | _ :: rest => dialTimeouts rest

/-- Single-threaded use of a client: the states `(client, events, dials)` reached
from a starting state by any sequence of `ShortCall`s and `StreamCall`s, with
the events produced and the number of dials made since the start of the program. -/
inductive Reach (dial : Dialer) (c0 : WrapperClient) (evs0 : List Event) (d0 : Nat) :
    WrapperClient → List Event → Nat → Prop where
  | start : Reach dial c0 evs0 d0 c0 evs0 d0
  | shortCall {ρ σ : Type} (c : WrapperClient) (evs : List Event) (d : Nat)
      (rpcFunc : ShortLogic ρ σ) (s : σ) :
      Reach dial c0 evs0 d0 c evs d →
      Reach dial c0 evs0 d0 (ShortCall c rpcFunc s).client
        (evs ++ (ShortCall c rpcFunc s).events) d
  | streamCall {σ : Type} (c : WrapperClient) (evs : List Event) (d : Nat)
      (rpcFunc : StreamLogic σ) (s : σ) :
      Reach dial c0 evs0 d0 c evs d →
      Reach dial c0 evs0 d0 (StreamCall dial d c rpcFunc s).client
        (evs ++ (StreamCall dial d c rpcFunc s).events) (StreamCall dial d c rpcFunc s).dials

/-- The error of a failed dial. -/
def errDial : ExtError := ⟨some codes.Unavailable, "connection refused"⟩

/-- A dialer whose dial number `j` fails and whose other dials succeed. -/
def dialFailsAt (j : Nat) : Dialer := fun i => if i = j then some errDial else none

/-- The float `0.5`. -/
def half : Float64 := Float64.finite 1 (-1)

/-! ## The pool mutex

The definitions above describe runs in which `poolMu` is free whenever
`getPoolConn` is entered, which is the case as long as no `getPoolConn` has
panicked.  The definitions below make `poolMu` explicit: `locked` tells whether
the mutex is held. -/

/-- How a call of `getPoolConn` ends. -/
inductive PoolConnOutcome where
  /-- It returned `conn`, leaving the client `c` and `poolMu` released. -/
  | returned (conn : Option Conn) (c : WrapperClient)
  /-- The index read `c.pool[c.next]` panicked, after `poolMu.Lock()` and with
  no deferred `Unlock()`: `poolMu` stays locked. -/
  | panicked
  /-- The call `poolMu.Lock()` never returns, `poolMu` being held already. -/
  | blocked
deriving DecidableEq, Repr

/-- The method `getPoolConn` with its mutex: `c.poolMu.Lock()`, the index read
and the update of the cursor, `c.poolMu.Unlock()`. -/
def getPoolConnMu (locked : Bool) (c : WrapperClient) : PoolConnOutcome :=
  if locked then
    PoolConnOutcome.blocked
  else
    match getPoolConn c with
    | none => PoolConnOutcome.panicked
    | some (conn, c1) => PoolConnOutcome.returned conn c1

/-- What a `ShortCall` leaves behind when `poolMu` is taken into account:
`outcome` is `none` when the call never returns (it is blocked in
`poolMu.Lock()`), and `locked` is the state of `poolMu` afterwards. -/
structure MuRun (α σ : Type) where
  outcome : Option (Result α)
  client : WrapperClient
  user : σ
  events : List Event
  locked : Bool

/-- The loop of `ShortCall` with `poolMu` made explicit (see `shortLoop`). -/
def shortLoopMu {ρ σ : Type} (rpcFunc : ShortLogic ρ σ) :
    Nat → Bool → WrapperClient → σ → Option GoError → Duration → MuRun ρ σ
  | 0, locked, c, s, lastErr, _ =>
    ⟨some (Result.fail (shortCallExit lastErr)), c, s, [], locked⟩
  | n + 1, locked, c, s, _, backoff =>
    match getPoolConnMu locked c with
    | PoolConnOutcome.blocked => ⟨none, c, s, [], true⟩
    | PoolConnOutcome.panicked => ⟨some (Result.panic "index out of range"), c, s, [], true⟩
    | PoolConnOutcome.returned conn c1 =>
      let timeout := c.poolCfg.CallTimeout
      match rpcFunc s timeout conn with
      | ((resp, none), s1) =>
        ⟨some (Result.ok resp), c1, s1, [Event.call timeout conn none], false⟩
      | ((_, some err), s1) =>
        if breaksLoop err then
          ⟨some (Result.fail (shortCallExit (some (GoError.ext err)))), c1, s1,
            [Event.call timeout conn (some err)], false⟩
        else
          let r := shortLoopMu rpcFunc n false c1 s1 (some (GoError.ext err))
            (scaleBackoff backoff c.poolCfg.BackoffFactor)
          { r with events := Event.call timeout conn (some err) :: Event.sleep backoff :: r.events }

/-- The method `ShortCall` with `poolMu` made explicit. -/
def ShortCallMu {ρ σ : Type} (locked : Bool) (c : WrapperClient) (rpcFunc : ShortLogic ρ σ)
    (s : σ) : MuRun ρ σ :=
  shortLoopMu rpcFunc (c.poolCfg.MaxRetries + 1).toNat locked c s none (100 * Millisecond)

/-- Single-threaded use of a client with `poolMu` made explicit: the states
`(client, events, dials, locked)` reached from a starting state with `poolMu`
free by `ShortCall`s that come back to their caller (by returning, or by a
panic that the caller recovers) and by `StreamCall`s.  A `ShortCall` that
blocks never comes back, so nothing follows it. -/
inductive ReachMu (dial : Dialer) (c0 : WrapperClient) (evs0 : List Event) (d0 : Nat) :
    WrapperClient → List Event → Nat → Bool → Prop where
  | start : ReachMu dial c0 evs0 d0 c0 evs0 d0 false
  | shortCall {ρ σ : Type} (c : WrapperClient) (evs : List Event) (d : Nat) (locked : Bool)
      (rpcFunc : ShortLogic ρ σ) (s : σ) (res : Result ρ) :
      ReachMu dial c0 evs0 d0 c evs d locked →
      (ShortCallMu locked c rpcFunc s).outcome = some res →
      ReachMu dial c0 evs0 d0 (ShortCallMu locked c rpcFunc s).client
        (evs ++ (ShortCallMu locked c rpcFunc s).events) d (ShortCallMu locked c rpcFunc s).locked
  | streamCall {σ : Type} (c : WrapperClient) (evs : List Event) (d : Nat) (locked : Bool)
      (rpcFunc : StreamLogic σ) (s : σ) :
      ReachMu dial c0 evs0 d0 c evs d locked →
      ReachMu dial c0 evs0 d0 (StreamCall dial d c rpcFunc s).client
        (evs ++ (StreamCall dial d c rpcFunc s).events) (StreamCall dial d c rpcFunc s).dials
        locked

/-! ## The failure classifier -/

theorem isRetryable_iff (code : Code) :
    isRetryable code = true ↔
      code = codes.Unavailable ∨ code = codes.DeadlineExceeded ∨ code = codes.ResourceExhausted := by
  unfold isRetryable
  split <;> simp_all

theorem breaksLoop_eq_false_iff (e : ExtError) : breaksLoop e = false ↔ Retryable e := by
  unfold breaksLoop Retryable
  cases h : e.status with
  | none => simp
  | some code =>
    have hiff := isRetryable_iff code
    by_cases hr : isRetryable code = true
    · simp [hr]
      simpa using hiff.mp hr
    · have h3 : ¬ (code = codes.Unavailable ∨ code = codes.DeadlineExceeded ∨
          code = codes.ResourceExhausted) := fun h => hr (hiff.mpr h)
      simp [hr]
      simpa using h3

theorem nonRetryable_iff_not_retryable (e : ExtError) : NonRetryable e ↔ ¬ Retryable e := by
  unfold NonRetryable Retryable
  cases h : e.status with
  | none => simp
  | some code => simp

theorem breaksLoop_iff_nonRetryable (e : ExtError) : breaksLoop e = true ↔ NonRetryable e := by
  rw [nonRetryable_iff_not_retryable, ← breaksLoop_eq_false_iff]
  simp

/-! ## The pool cursor -/

theorem getPoolConn_of_inRange (c : WrapperClient) (h : InRange c) :
    ∃ conn, c.pool.get? c.next.toNat = some conn ∧ getPoolConn c = some (conn, advance c) := by
  obtain ⟨h0, h1⟩ := h
  have hlt : c.next.toNat < c.pool.length := by omega
  refine ⟨c.pool.get ⟨c.next.toNat, hlt⟩, List.get?_eq_get hlt, ?_⟩
  unfold getPoolConn advance
  rw [if_pos h0, List.get?_eq_get hlt]
  simp only
  congr 2
  rw [Int.tmod_eq_emod (by omega) (by omega)]

theorem inRange_advance (c : WrapperClient) (h : InRange c) : InRange (advance c) := by
  obtain ⟨h0, h1⟩ := h
  constructor
  · exact Int.emod_nonneg _ (by omega)
  · exact Int.emod_lt_of_pos _ (by omega)

/-! ## One iteration of the loop of `ShortCall` -/

theorem shortLoop_step_ok {ρ σ : Type} (rpcFunc : ShortLogic ρ σ) (n : Nat) (c c1 : WrapperClient)
    (s s1 : σ) (lastErr : Option GoError) (backoff : Duration) (conn : Option Conn) (resp : ρ)
    (hg : getPoolConn c = some (conn, c1))
    (hr : rpcFunc s c.poolCfg.CallTimeout conn = ((resp, none), s1)) :
    shortLoop rpcFunc (n + 1) c s lastErr backoff =
      ⟨Result.ok resp, c1, s1, [Event.call c.poolCfg.CallTimeout conn none]⟩ := by
  rw [shortLoop]
  simp [hg, hr]

theorem shortLoop_step_break {ρ σ : Type} (rpcFunc : ShortLogic ρ σ) (n : Nat)
    (c c1 : WrapperClient) (s s1 : σ) (lastErr : Option GoError) (backoff : Duration)
    (conn : Option Conn) (resp : ρ) (e : ExtError)
    (hg : getPoolConn c = some (conn, c1))
    (hr : rpcFunc s c.poolCfg.CallTimeout conn = ((resp, some e), s1))
    (hb : breaksLoop e = true) :
    shortLoop rpcFunc (n + 1) c s lastErr backoff =
      ⟨Result.fail (shortCallExit (some (GoError.ext e))), c1, s1,
        [Event.call c.poolCfg.CallTimeout conn (some e)]⟩ := by
  rw [shortLoop]
  simp [hg, hr, hb]

theorem shortLoop_step_retry {ρ σ : Type} (rpcFunc : ShortLogic ρ σ) (n : Nat)
    (c c1 : WrapperClient) (s s1 : σ) (lastErr : Option GoError) (backoff : Duration)
    (conn : Option Conn) (resp : ρ) (e : ExtError)
    (hg : getPoolConn c = some (conn, c1))
    (hr : rpcFunc s c.poolCfg.CallTimeout conn = ((resp, some e), s1))
    (hb : breaksLoop e = false) :
    shortLoop rpcFunc (n + 1) c s lastErr backoff =
      { shortLoop rpcFunc n c1 s1 (some (GoError.ext e))
          (scaleBackoff backoff c.poolCfg.BackoffFactor) with
        events := Event.call c.poolCfg.CallTimeout conn (some e) :: Event.sleep backoff ::
          (shortLoop rpcFunc n c1 s1 (some (GoError.ext e))
            (scaleBackoff backoff c.poolCfg.BackoffFactor)).events } := by
  rw [shortLoop]
  simp [hg, hr, hb]

theorem shortLoop_step_panic {ρ σ : Type} (rpcFunc : ShortLogic ρ σ) (n : Nat)
    (c : WrapperClient) (s : σ) (lastErr : Option GoError) (backoff : Duration)
    (hg : getPoolConn c = none) :
    shortLoop rpcFunc (n + 1) c s lastErr backoff =
      ⟨Result.panic "index out of range", c, s, []⟩ := by
  rw [shortLoop]
  simp [hg]

/-- Shape of the events of the loop around an invocation that returned an error:
a loop-breaking error ends the run and is the one wrapped in the result, any
other error is followed by a sleep. -/
theorem shortLoop_after_error {ρ σ : Type} (rpcFunc : ShortLogic ρ σ) (n : Nat) :
    ∀ (c : WrapperClient) (s : σ) (lastErr : Option GoError) (backoff : Duration)
      (pre post : List Event) (t : Duration) (conn : Option Conn) (e : ExtError),
      (shortLoop rpcFunc n c s lastErr backoff).events = pre ++ Event.call t conn (some e) :: post →
      (breaksLoop e = true ∧ post = [] ∧
          (shortLoop rpcFunc n c s lastErr backoff).result =
            Result.fail (shortCallExit (some (GoError.ext e)))) ∨
        (breaksLoop e = false ∧ ∃ d rest, post = Event.sleep d :: rest) := by
  induction n with
  | zero =>
    intro c s lastErr backoff pre post t conn e h
    simp [shortLoop] at h
  | succ n ih =>
    intro c s lastErr backoff pre post t conn e h
    cases hg : getPoolConn c with
    | none =>
      rw [shortLoop_step_panic rpcFunc n c s lastErr backoff hg] at h
      simp at h
    | some p =>
      obtain ⟨conn1, c1⟩ := p
      rcases hr : rpcFunc s c.poolCfg.CallTimeout conn1 with ⟨⟨resp, _ | err⟩, s1⟩
      · rw [shortLoop_step_ok rpcFunc n c c1 s s1 lastErr backoff conn1 resp hg hr] at h
        cases pre with
        | nil => simp at h
        | cons x pre => simp at h
      · by_cases hb : breaksLoop err = true
        · rw [shortLoop_step_break rpcFunc n c c1 s s1 lastErr backoff conn1 resp err hg hr hb] at h ⊢
          cases pre with
          | nil =>
            simp at h
            obtain ⟨⟨-, -, rfl⟩, hpost⟩ := h
            exact Or.inl ⟨hb, hpost, rfl⟩
          | cons x pre => simp at h
        · have hb2 : breaksLoop err = false := by simpa using hb
          rw [shortLoop_step_retry rpcFunc n c c1 s s1 lastErr backoff conn1 resp err hg hr hb2]
            at h ⊢
          cases pre with
          | nil =>
            simp at h
            obtain ⟨⟨-, -, rfl⟩, hpost⟩ := h
            exact Or.inr ⟨hb2, backoff, _, hpost.symm⟩
          | cons x pre =>
            simp at h
            obtain ⟨-, h⟩ := h
            cases pre with
            | nil => simp at h
            | cons y pre =>
              simp at h
              exact ih _ _ _ _ _ _ _ _ _ h.2

theorem toNat_succ_of_nonneg (k : Int) (hk : 0 ≤ k) : (k + 1).toNat = k.toNat + 1 := by
  omega

theorem shortLoop_nonRetryable_once {ρ σ : Type} (rpcFunc : ShortLogic ρ σ)
    (hall : AlwaysNonRetryable rpcFunc) (n : Nat) (c : WrapperClient) (s : σ)
    (lastErr : Option GoError) (backoff : Duration) (hc : InRange c) :
    ∃ t conn e, (shortLoop rpcFunc (n + 1) c s lastErr backoff).events =
        [Event.call t conn (some e)] := by
  obtain ⟨conn1, -, hg⟩ := getPoolConn_of_inRange c hc
  obtain ⟨e, he, hne⟩ := hall s c.poolCfg.CallTimeout conn1
  rcases hr : rpcFunc s c.poolCfg.CallTimeout conn1 with ⟨⟨resp, err⟩, s1⟩
  rw [hr] at he
  simp only at he
  subst he
  have hb := (breaksLoop_iff_nonRetryable e).mpr hne
  exact ⟨c.poolCfg.CallTimeout, conn1, e, by
    rw [shortLoop_step_break rpcFunc n c _ s s1 lastErr backoff conn1 resp e hg hr hb]⟩

/-- With caller logic that always fails retryably the loop makes one invocation
per remaining attempt and wraps the error of the last one. -/
theorem shortLoop_allRetryable {ρ σ : Type} (rpcFunc : ShortLogic ρ σ)
    (hall : AlwaysRetryable rpcFunc) (n : Nat) :
    ∀ (c : WrapperClient) (s : σ) (lastErr : Option GoError) (backoff : Duration), InRange c →
      (callErrs (shortLoop rpcFunc (n + 1) c s lastErr backoff).events).length = n + 1 ∧
      ∃ pre t conn e d,
        (shortLoop rpcFunc (n + 1) c s lastErr backoff).events =
          pre ++ [Event.call t conn (some e), Event.sleep d] ∧
        (shortLoop rpcFunc (n + 1) c s lastErr backoff).result =
          Result.fail (shortCallExit (some (GoError.ext e))) := by
  induction n with
  | zero =>
    intro c s lastErr backoff hc
    obtain ⟨conn1, -, hg⟩ := getPoolConn_of_inRange c hc
    obtain ⟨e, he, hre⟩ := hall s c.poolCfg.CallTimeout conn1
    rcases hr : rpcFunc s c.poolCfg.CallTimeout conn1 with ⟨⟨resp, err⟩, s1⟩
    rw [hr] at he
    simp only at he
    subst he
    have hb := (breaksLoop_eq_false_iff e).mpr hre
    rw [shortLoop_step_retry rpcFunc 0 c _ s s1 lastErr backoff conn1 resp e hg hr hb]
    constructor
    · simp [shortLoop, callErrs]
    · exact ⟨[], c.poolCfg.CallTimeout, conn1, e, backoff, by simp [shortLoop],
        by simp [shortLoop]⟩
  | succ n ih =>
    intro c s lastErr backoff hc
    obtain ⟨conn1, -, hg⟩ := getPoolConn_of_inRange c hc
    obtain ⟨e, he, hre⟩ := hall s c.poolCfg.CallTimeout conn1
    rcases hr : rpcFunc s c.poolCfg.CallTimeout conn1 with ⟨⟨resp, err⟩, s1⟩
    rw [hr] at he
    simp only at he
    subst he
    have hb := (breaksLoop_eq_false_iff e).mpr hre
    obtain ⟨hlen, pre, t, conn, e2, d, hev, hres⟩ :=
      ih (advance c) s1 (some (GoError.ext e))
        (scaleBackoff backoff c.poolCfg.BackoffFactor) (inRange_advance c hc)
    rw [shortLoop_step_retry rpcFunc (n + 1) c _ s s1 lastErr backoff conn1 resp e hg hr hb]
    refine ⟨by simp [callErrs, hlen], ?_⟩
    exact ⟨Event.call c.poolCfg.CallTimeout conn1 (some e) :: Event.sleep backoff :: pre, t, conn,
      e2, d, by simp [hev], hres⟩

/-! ## Claims about the retry loop of `ShortCall` -/

/-- C1: with `MaxRetries >= 0` and a cursor that indexes the (hence non-empty)
pool, an invocation of the caller logic that returns a non-retryable error is
the last event of the `ShortCall` (no further invocation, no sleep); and when
the caller logic always returns a non-retryable error it is invoked exactly
once and nothing is slept. -/
theorem C1_shortCall_stops_at_non_retryable {ρ σ : Type} (c : WrapperClient)
    (rpcFunc : ShortLogic ρ σ) (s : σ) (hk : 0 ≤ c.poolCfg.MaxRetries) (hnext : InRange c) :
    (∀ pre post t conn e,
        (ShortCall c rpcFunc s).events = pre ++ Event.call t conn (some e) :: post →
        NonRetryable e → post = []) ∧
    (AlwaysNonRetryable rpcFunc →
        (callErrs (ShortCall c rpcFunc s).events).length = 1 ∧
        sleeps (ShortCall c rpcFunc s).events = []) := by
  constructor
  · intro pre post t conn e h hne
    rcases shortLoop_after_error rpcFunc _ c s none _ pre post t conn e h with h1 | h1
    · exact h1.2.1
    · exact absurd ((breaksLoop_iff_nonRetryable e).mpr hne) (by simp [h1.1])
  · intro hall
    unfold ShortCall
    rw [toNat_succ_of_nonneg _ hk]
    obtain ⟨t, conn, e, hev⟩ :=
      shortLoop_nonRetryable_once rpcFunc hall c.poolCfg.MaxRetries.toNat c s none
        (100 * Millisecond) hnext
    rw [hev]
    simp [callErrs, sleeps]

theorem sampleClient_inRange (k : Int) (n : Nat) (f : Float64) :
    InRange (sampleClient k (n + 1) f) := by
  unfold InRange sampleClient
  simp

theorem rpcNotFound_alwaysNonRetryable : AlwaysNonRetryable rpcNotFound := by
  intro s t conn
  exact ⟨errNotFound, rfl, Or.inr ⟨5, rfl, by decide, by decide, by decide⟩⟩

theorem rpcUnavailable_alwaysRetryable : AlwaysRetryable rpcUnavailable := by
  intro s t conn
  exact ⟨errUnavailable, rfl, Or.inl rfl⟩

/-- C1, instance: a client with three connections and `MaxRetries = 2` whose
caller logic always fails with `NotFound` invokes it once and never sleeps, and
nothing follows that invocation. -/
theorem C1_witness :
    ([] : List Event) = [] ∧
    (callErrs (ShortCall (sampleClient 2 3 two) rpcNotFound ()).events).length = 1 ∧
      sleeps (ShortCall (sampleClient 2 3 two) rpcNotFound ()).events = [] :=
  have hthm := C1_shortCall_stops_at_non_retryable (sampleClient 2 3 two) rpcNotFound ()
    (by decide) (sampleClient_inRange 2 2 two)
  ⟨hthm.1 [] [] (1000 * Millisecond) (some 0) errNotFound (by decide)
      (Or.inr ⟨5, rfl, by decide, by decide, by decide⟩),
    hthm.2 rpcNotFound_alwaysNonRetryable⟩

/-- C2 fails for a negative retry bound and for an empty pool.  With
`MaxRetries = -2` and caller logic that always fails with `Unavailable`, the
caller logic is never invoked (so not `MaxRetries + 1` times) and the
exhaustion error wraps no error.  With `MaxRetries = 2` on the client that the
constructor returns for `PoolSize = 0`, `ShortCall` panics in `getPoolConn`:
the caller logic is not invoked `MaxRetries + 1 = 3` times but never, and no
error is returned. -/
theorem C2_counterexample_bounds :
    AlwaysRetryable rpcUnavailable ∧ InRange (sampleClient (-2) 3 two) ∧
    ((callErrs (ShortCall (sampleClient (-2) 3 two) rpcUnavailable ()).events).length : Int) ≠
      (sampleClient (-2) 3 two).poolCfg.MaxRetries + 1 ∧
    (ShortCall (sampleClient (-2) 3 two) rpcUnavailable ()).events = [] ∧
    (ShortCall (sampleClient (-2) 3 two) rpcUnavailable ()).result =
      Result.fail (GoError.errorfNil "ShortCall failed after retries: %w") ∧
    (NewWrapperClient dialAlwaysOk 0 "localhost:50051" (sampleConfig 2 0 two) []).result =
      Result.ok (sampleClient 2 0 two) ∧
    ((callErrs (ShortCall (sampleClient 2 0 two) rpcUnavailable ()).events).length : Int) ≠
      (sampleClient 2 0 two).poolCfg.MaxRetries + 1 ∧
    (ShortCall (sampleClient 2 0 two) rpcUnavailable ()).events = [] ∧
    (ShortCall (sampleClient 2 0 two) rpcUnavailable ()).result =
      Result.panic "index out of range" := by
  refine ⟨rpcUnavailable_alwaysRetryable, sampleClient_inRange (-2) 2 two, ?_, ?_, ?_, ?_, ?_,
    ?_, ?_⟩ <;> decide

/-- C2 (amended): for every `MaxRetries = k >= 0` and every client with a
non-empty pool whose cursor indexes it (`InRange`, which holds in every state
reached from a construction with `PoolSize >= 1`), a `ShortCall` whose caller
logic always returns a retryable error invokes it exactly `k + 1` times and
returns no result together with the error "ShortCall failed after retries"
wrapping the error of the last invocation (which is followed only by its
backoff sleep). -/
theorem C2_shortCall_exhausts_retries {ρ σ : Type} (c : WrapperClient)
    (rpcFunc : ShortLogic ρ σ) (s : σ) (hk : 0 ≤ c.poolCfg.MaxRetries) (hnext : InRange c)
    (hall : AlwaysRetryable rpcFunc) :
    ((callErrs (ShortCall c rpcFunc s).events).length : Int) = c.poolCfg.MaxRetries + 1 ∧
    ∃ pre t conn e d,
      (ShortCall c rpcFunc s).events = pre ++ [Event.call t conn (some e), Event.sleep d] ∧
      (ShortCall c rpcFunc s).result =
        Result.fail (GoError.errorf "ShortCall failed after retries: %w" (GoError.ext e)) := by
  unfold ShortCall
  rw [toNat_succ_of_nonneg _ hk]
  obtain ⟨hlen, hex⟩ := shortLoop_allRetryable rpcFunc hall c.poolCfg.MaxRetries.toNat c s none
    (100 * Millisecond) hnext
  refine ⟨?_, hex⟩
  rw [hlen]
  omega

/-- C2, instance: `MaxRetries = 2` and caller logic that always fails with `Unavailable`. -/
theorem C2_witness :
    ((callErrs (ShortCall (sampleClient 2 3 two) rpcUnavailable ()).events).length : Int) =
      (sampleClient 2 3 two).poolCfg.MaxRetries + 1 ∧
    ∃ pre t conn e d,
      (ShortCall (sampleClient 2 3 two) rpcUnavailable ()).events =
        pre ++ [Event.call t conn (some e), Event.sleep d] ∧
      (ShortCall (sampleClient 2 3 two) rpcUnavailable ()).result =
        Result.fail (GoError.errorf "ShortCall failed after retries: %w" (GoError.ext e)) :=
  C2_shortCall_exhausts_retries (sampleClient 2 3 two) rpcUnavailable () (by decide)
    (sampleClient_inRange 2 2 two) rpcUnavailable_alwaysRetryable

/-- C9: `isRetryable` is true exactly for `Unavailable`, `DeadlineExceeded` and
`ResourceExhausted`; and `ShortCall` treats an error returned by the caller
logic as retryable (it sleeps and goes on) exactly when the error carries one
of these three codes, and as final (nothing follows) exactly when it carries
another code or no status code. -/
theorem C9_failure_classifier {ρ σ : Type} (c : WrapperClient) (rpcFunc : ShortLogic ρ σ) (s : σ)
    (pre post : List Event) (t : Duration) (conn : Option Conn) (e : ExtError)
    (h : (ShortCall c rpcFunc s).events = pre ++ Event.call t conn (some e) :: post) :
    (∀ code, isRetryable code = true ↔
      code = codes.Unavailable ∨ code = codes.DeadlineExceeded ∨ code = codes.ResourceExhausted) ∧
    ((∃ d rest, post = Event.sleep d :: rest) ↔ Retryable e) ∧
    (post = [] ↔ NonRetryable e) := by
  refine ⟨isRetryable_iff, ?_, ?_⟩
  · rcases shortLoop_after_error rpcFunc _ c s none _ pre post t conn e h with h1 | h1
    · constructor
      · rintro ⟨d, rest, hp⟩
        rw [h1.2.1] at hp
        cases hp
      · intro hr
        exact absurd ((breaksLoop_eq_false_iff e).mpr hr) (by simp [h1.1])
    · exact ⟨fun _ => (breaksLoop_eq_false_iff e).mp h1.1, fun _ => h1.2⟩
  · rcases shortLoop_after_error rpcFunc _ c s none _ pre post t conn e h with h1 | h1
    · exact ⟨fun _ => (breaksLoop_iff_nonRetryable e).mp h1.1, fun _ => h1.2.1⟩
    · constructor
      · intro hp
        obtain ⟨d, rest, hq⟩ := h1.2
        rw [hp] at hq
        cases hq
      · intro hne
        exact absurd ((breaksLoop_iff_nonRetryable e).mpr hne) (by simp [h1.1])

/-- C9, instance: the `NotFound` error of the only invocation ends the run. -/
theorem C9_witness :
    (∀ code, isRetryable code = true ↔
      code = codes.Unavailable ∨ code = codes.DeadlineExceeded ∨ code = codes.ResourceExhausted) ∧
    ((∃ d rest, ([] : List Event) = Event.sleep d :: rest) ↔ Retryable errNotFound) ∧
    (([] : List Event) = [] ↔ NonRetryable errNotFound) :=
  C9_failure_classifier (sampleClient 2 3 two) rpcNotFound () [] [] (1000 * Millisecond) (some 0)
    errNotFound (by decide)

/-- C10 fails: the error returned by `ShortCall` after a non-retryable error
`errPlain` (an error without status) is not `errPlain` itself but a new error
value that wraps it. -/
theorem C10_counterexample_wrapped :
    (ShortCall (sampleClient 2 3 two) rpcPlain ()).events =
      [Event.call (1000 * Millisecond) (some 0) (some errPlain)] ∧
    NonRetryable errPlain ∧
    (ShortCall (sampleClient 2 3 two) rpcPlain ()).result ≠ Result.fail (GoError.ext errPlain) ∧
    (ShortCall (sampleClient 2 3 two) rpcPlain ()).result =
      Result.fail (GoError.errorf "ShortCall failed after retries: %w" (GoError.ext errPlain)) := by
  refine ⟨by decide, Or.inl rfl, by decide, by decide⟩

/-- C10 (amended): when an invocation of the caller logic inside `ShortCall`
returns a non-retryable error `e` (including an error with no status code),
`ShortCall` returns no result and the error "ShortCall failed after retries"
built by `fmt.Errorf` with `%w`, whose wrapped cause (`errors.Unwrap`) is `e`. -/
theorem C10_non_retryable_error_is_wrapped {ρ σ : Type} (c : WrapperClient)
    (rpcFunc : ShortLogic ρ σ) (s : σ) (pre post : List Event) (t : Duration)
    (conn : Option Conn) (e : ExtError)
    (h : (ShortCall c rpcFunc s).events = pre ++ Event.call t conn (some e) :: post)
    (hne : NonRetryable e) :
    ∃ err, (ShortCall c rpcFunc s).result = Result.fail err ∧
      err = GoError.errorf "ShortCall failed after retries: %w" (GoError.ext e) ∧
      err.unwrap = some (GoError.ext e) := by
  rcases shortLoop_after_error rpcFunc _ c s none _ pre post t conn e h with h1 | h1
  · exact ⟨_, h1.2.2, rfl, rfl⟩
  · exact absurd ((breaksLoop_iff_nonRetryable e).mpr hne) (by simp [h1.1])

/-- C10, instance: caller logic failing with an error without status. -/
theorem C10_witness :
    ∃ err, (ShortCall (sampleClient 2 3 two) rpcPlain ()).result = Result.fail err ∧
      err = GoError.errorf "ShortCall failed after retries: %w" (GoError.ext errPlain) ∧
      err.unwrap = some (GoError.ext errPlain) :=
  C10_non_retryable_error_is_wrapped (sampleClient 2 3 two) rpcPlain () [] []
    (1000 * Millisecond) (some 0) errPlain (by decide) (Or.inl rfl)

/-! ## Construction -/

theorem dialPool_all_ok (dial : Dialer) (cfg : Config) (n : Nat) :
    ∀ (i : Nat) (pre : List (Option Conn)) (d : Nat), pre.length = i →
      (∀ j, j < n → dial (d + j) = none) →
      dialPool dial cfg n i (pre ++ List.replicate n none) d =
        (Except.ok (pre ++ (List.range' d n).map some),
          (List.range' d n).map (Event.dialOk (some cfg.DialTimeout)), d + n) := by
  induction n with
  | zero =>
    intro i pre d _ _
    simp [dialPool]
  | succ n ih =>
    intro i pre d hlen hall
    have h0 : dial d = none := by simpa using hall 0 (Nat.succ_pos n)
    have hset : (pre ++ List.replicate (n + 1) none).set i (some d) =
        (pre ++ [some d]) ++ List.replicate n none := by
      subst hlen
      rw [List.replicate_succ, List.set_append_right _ _ (le_refl _)]
      simp
    have hrec := ih (i + 1) (pre ++ [some d]) (d + 1) (by simp [hlen])
      (fun j hj => by rw [Nat.add_assoc, Nat.add_comm 1 j]; exact hall (j + 1) (by omega))
    rw [dialPool]
    simp only [h0]
    rw [hset, hrec]
    simp [List.range'_succ, Nat.add_assoc, Nat.add_comm 1 n]

theorem dialPool_ok_inv (dial : Dialer) (cfg : Config) (n : Nat) :
    ∀ (i : Nat) (pool pool1 : List (Option Conn)) (d d1 : Nat) (evs : List Event),
      dialPool dial cfg n i pool d = (Except.ok pool1, evs, d1) →
      ∀ j, j < n → dial (d + j) = none := by
  induction n with
  | zero =>
    intro i pool pool1 d d1 evs _ j hj
    omega
  | succ n ih =>
    intro i pool pool1 d d1 evs h j hj
    rw [dialPool] at h
    cases h0 : dial d with
    | some err => simp [h0] at h
    | none =>
      simp only [h0] at h
      cases j with
      | zero => simpa using h0
      | succ j =>
        have hrec : dialPool dial cfg n (i + 1) (pool.set i (some d)) (d + 1) =
            (Except.ok pool1, (dialPool dial cfg n (i + 1) (pool.set i (some d)) (d + 1)).2.1,
              (dialPool dial cfg n (i + 1) (pool.set i (some d)) (d + 1)).2.2) := by
          have h1 := congrArg Prod.fst h
          simp only at h1
          exact Prod.ext h1 rfl
        have := ih _ _ _ _ _ _ hrec j (by omega)
        rw [Nat.add_assoc, Nat.add_comm 1 j] at this
        exact this

/-- A constructor call whose `PoolSize + 1` dials succeed. -/
theorem NewWrapperClient_all_ok (dial : Dialer) (d : Nat) (serverURL : String) (cfg : Config)
    (opts : List DialOption) (hn : 0 ≤ cfg.PoolSize)
    (hall : ∀ j, j < cfg.PoolSize.toNat + 1 → dial (d + j) = none) :
    NewWrapperClient dial d serverURL cfg opts =
      ⟨Result.ok
        { pool := (List.range' d cfg.PoolSize.toNat).map some, poolCfg := cfg,
          streamConn := some (d + cfg.PoolSize.toNat), next := 0, serverURL := serverURL,
          opts := if opts.length = 0 then ["WithTransportCredentials(insecure.NewCredentials())"]
            else opts },
        (List.range' d (cfg.PoolSize.toNat + 1)).map (Event.dialOk (some cfg.DialTimeout)),
        d + cfg.PoolSize.toNat + 1⟩ := by
  have hpool := dialPool_all_ok dial cfg cfg.PoolSize.toNat 0 [] d rfl
    (fun j hj => hall j (by omega))
  have hs : dial (d + cfg.PoolSize.toNat) = none := hall _ (by omega)
  unfold NewWrapperClient
  simp only [List.nil_append] at hpool
  simp only [not_lt.mpr hn, if_false, hpool, hs]
  simp [List.range'_concat]

/-- A constructor call that returns a client made `PoolSize + 1` successful dials. -/
theorem NewWrapperClient_ok_inv (dial : Dialer) (d : Nat) (serverURL : String) (cfg : Config)
    (opts : List DialOption) (c : WrapperClient)
    (h : (NewWrapperClient dial d serverURL cfg opts).result = Result.ok c) :
    0 ≤ cfg.PoolSize ∧ ∀ j, j < cfg.PoolSize.toNat + 1 → dial (d + j) = none := by
  unfold NewWrapperClient at h
  by_cases hn : cfg.PoolSize < 0
  · simp [hn] at h
  · simp only [hn, if_false] at h
    refine ⟨not_lt.mp hn, ?_⟩
    rcases hp : dialPool dial cfg cfg.PoolSize.toNat 0 (List.replicate cfg.PoolSize.toNat none) d
      with ⟨_ | pool1, evs, d1⟩
    · simp [hp] at h
    · have hall := dialPool_ok_inv dial cfg _ _ _ _ _ _ _ hp
      have hd1 : d1 = d + cfg.PoolSize.toNat := by
        have := dialPool_all_ok dial cfg cfg.PoolSize.toNat 0 [] d rfl hall
        simp only [List.nil_append] at this
        rw [this] at hp
        simp at hp
        exact hp.2.2.symm
      cases hs : dial d1 with
      | some err => simp [hp, hs] at h
      | none =>
        intro j hj
        by_cases hj2 : j < cfg.PoolSize.toNat
        · exact hall j hj2
        · have : j = cfg.PoolSize.toNat := by omega
          rw [this, ← hd1]
          exact hs

/-- The client returned by a successful constructor call. -/
theorem NewWrapperClient_ok_client (dial : Dialer) (d : Nat) (serverURL : String) (cfg : Config)
    (opts : List DialOption) (c : WrapperClient)
    (h : (NewWrapperClient dial d serverURL cfg opts).result = Result.ok c) :
    c.pool = (List.range' d cfg.PoolSize.toNat).map some ∧ c.poolCfg = cfg ∧
      c.streamConn = some (d + cfg.PoolSize.toNat) ∧ c.next = 0 ∧
      (NewWrapperClient dial d serverURL cfg opts).events =
        (List.range' d (cfg.PoolSize.toNat + 1)).map (Event.dialOk (some cfg.DialTimeout)) ∧
      (NewWrapperClient dial d serverURL cfg opts).dials = d + cfg.PoolSize.toNat + 1 := by
  obtain ⟨hn, hall⟩ := NewWrapperClient_ok_inv dial d serverURL cfg opts c h
  rw [NewWrapperClient_all_ok dial d serverURL cfg opts hn hall] at h ⊢
  simp only [Result.ok.injEq] at h
  subst h
  simp

/-! ## Round robin -/

theorem advance_pool (c : WrapperClient) : (advance c).pool = c.pool := rfl

theorem advance_poolCfg (c : WrapperClient) : (advance c).poolCfg = c.poolCfg := rfl

theorem advance_streamConn (c : WrapperClient) : (advance c).streamConn = c.streamConn := rfl

theorem advance_next_toNat (c : WrapperClient) (h : InRange c) :
    (advance c).next.toNat = (c.next.toNat + 1) % c.pool.length := by
  obtain ⟨h0, h1⟩ := h
  unfold advance
  simp only
  have hc : c.next = (c.next.toNat : Int) := (Int.toNat_of_nonneg h0).symm
  rw [hc]
  norm_cast

theorem getPoolConn_slot (c : WrapperClient) (h : InRange c) :
    getPoolConn c = some (slotAt c 0, advance c) := by
  obtain ⟨conn, hget, hg⟩ := getPoolConn_of_inRange c h
  have hlt : c.next.toNat < c.pool.length := by
    have := h.1
    have := h.2
    omega
  rw [hg]
  congr 2
  unfold slotAt
  rw [Nat.add_zero, Nat.mod_eq_of_lt hlt, List.getD_eq_getElem?_getD, ← List.get?_eq_getElem?, hget]
  rfl

theorem slotAt_advance (c : WrapperClient) (h : InRange c) (i : Nat) :
    slotAt (advance c) i = slotAt c (i + 1) := by
  unfold slotAt
  rw [advance_next_toNat c h, advance_pool, Nat.mod_add_mod, Nat.add_assoc, Nat.add_comm 1 i]

theorem iterate_advance_inRange (c : WrapperClient) (h : InRange c) (m : Nat) :
    InRange (advance^[m] c) := by
  induction m generalizing c with
  | zero => exact h
  | succ m ih =>
    rw [Function.iterate_succ_apply]
    exact ih _ (inRange_advance c h)

/-- A run of the loop whose caller logic fails retryably `j` times and then
succeeds: result, connections used, sleeps and final client. -/
theorem shortLoop_failsThenSucceeds {ρ σ : Type} (rpcFunc : ShortLogic ρ σ) (v : ρ) (j : Nat) :
    ∀ (n : Nat) (c : WrapperClient) (s : σ) (lastErr : Option GoError) (backoff : Duration),
      InRange c → FailsThenSucceeds rpcFunc v j s → j < n →
      (shortLoop rpcFunc n c s lastErr backoff).result = Result.ok v ∧
      callConns (shortLoop rpcFunc n c s lastErr backoff).events =
        (List.range (j + 1)).map (slotAt c) ∧
      sleeps (shortLoop rpcFunc n c s lastErr backoff).events =
        (List.range j).map
          (fun i => (fun b => scaleBackoff b c.poolCfg.BackoffFactor)^[i] backoff) ∧
      (shortLoop rpcFunc n c s lastErr backoff).client = advance^[j + 1] c := by
  induction j with
  | zero =>
    intro n c s lastErr backoff hc hf hn
    obtain ⟨n, rfl⟩ : ∃ k, n = k + 1 := ⟨n - 1, by omega⟩
    have hg := getPoolConn_slot c hc
    unfold FailsThenSucceeds at hf
    have hr : rpcFunc s c.poolCfg.CallTimeout (slotAt c 0) =
        ((v, none), (rpcFunc s c.poolCfg.CallTimeout (slotAt c 0)).2) :=
      Prod.ext (hf _ _) rfl
    rw [shortLoop_step_ok rpcFunc n c _ s _ lastErr backoff _ v hg hr]
    simp [callConns, sleeps, List.range_succ]
  | succ j ih =>
    intro n c s lastErr backoff hc hf hn
    obtain ⟨n, rfl⟩ : ∃ k, n = k + 1 := ⟨n - 1, by omega⟩
    have hg := getPoolConn_slot c hc
    unfold FailsThenSucceeds at hf
    obtain ⟨⟨e, he, hre⟩, hnext⟩ := hf c.poolCfg.CallTimeout (slotAt c 0)
    have hr : rpcFunc s c.poolCfg.CallTimeout (slotAt c 0) =
        (((rpcFunc s c.poolCfg.CallTimeout (slotAt c 0)).1.1, some e),
          (rpcFunc s c.poolCfg.CallTimeout (slotAt c 0)).2) :=
      Prod.ext (Prod.ext rfl he) rfl
    have hb := (breaksLoop_eq_false_iff e).mpr hre
    rw [shortLoop_step_retry rpcFunc n c _ s _ lastErr backoff _ _ e hg hr hb]
    obtain ⟨h1, h2, h3, h4⟩ := ih n (advance c) _ (some (GoError.ext e))
      (scaleBackoff backoff c.poolCfg.BackoffFactor) (inRange_advance c hc) hnext (by omega)
    refine ⟨h1, ?_, ?_, ?_⟩
    · simp only [callConns, sleeps]
      rw [h2, List.range_succ_eq_map (j + 1)]
      simp [Function.comp_def, slotAt_advance c hc]
    · simp only [callConns, sleeps]
      rw [h3, List.range_succ_eq_map j]
      simp [Function.comp_def, advance_poolCfg]
    · rw [h4]
      rfl

/-- A `ShortCall` whose caller logic succeeds at once uses the slot under the
cursor and advances the cursor by one. -/
theorem ShortCall_first_success {ρ σ : Type} (rpcFunc : ShortLogic ρ σ) (c : WrapperClient)
    (s : σ) (hk : 0 ≤ c.poolCfg.MaxRetries) (hc : InRange c)
    (hr : (rpcFunc s c.poolCfg.CallTimeout (slotAt c 0)).1.2 = none) :
    ShortCall c rpcFunc s =
      ⟨Result.ok (rpcFunc s c.poolCfg.CallTimeout (slotAt c 0)).1.1, advance c,
        (rpcFunc s c.poolCfg.CallTimeout (slotAt c 0)).2,
        [Event.call c.poolCfg.CallTimeout (slotAt c 0) none]⟩ := by
  unfold ShortCall
  rw [toNat_succ_of_nonneg _ hk]
  exact shortLoop_step_ok rpcFunc _ c _ s _ none _ _ _ (getPoolConn_slot c hc)
    (Prod.ext (Prod.ext rfl hr) rfl)

theorem shortCallSeq_alwaysSucceeds {ρ σ : Type} (rpcFunc : ShortLogic ρ σ)
    (hok : AlwaysSucceeds rpcFunc) (m : Nat) :
    ∀ (c : WrapperClient) (s : σ), 0 ≤ c.poolCfg.MaxRetries → InRange c →
      callConns (shortCallSeq rpcFunc m c s).1 = (List.range m).map (slotAt c) ∧
      callErrs (shortCallSeq rpcFunc m c s).1 = List.replicate m none ∧
      (shortCallSeq rpcFunc m c s).2.1 = advance^[m] c := by
  induction m with
  | zero =>
    intro c s _ _
    simp [shortCallSeq, callConns, callErrs]
  | succ m ih =>
    intro c s hk hc
    have hfirst := ShortCall_first_success rpcFunc c s hk hc (hok _ _ _)
    obtain ⟨h1, h2, h3⟩ := ih (advance c) (rpcFunc s c.poolCfg.CallTimeout (slotAt c 0)).2
      (by rw [advance_poolCfg]; exact hk) (inRange_advance c hc)
    rw [shortCallSeq]
    simp only [hfirst]
    refine ⟨?_, ?_, ?_⟩
    · show callConns ([Event.call c.poolCfg.CallTimeout (slotAt c 0) none] ++ _) = _
      rw [List.singleton_append]
      simp only [callConns]
      rw [h1, List.range_succ_eq_map m]
      simp [Function.comp_def, slotAt_advance c hc]
    · show callErrs ([Event.call c.poolCfg.CallTimeout (slotAt c 0) none] ++ _) = _
      rw [List.singleton_append]
      simp only [callErrs]
      rw [h2, List.replicate_succ]
    · rw [h3]
      rfl

/-- The slots of a client that has connections `d, d+1, ..` in its pool and
cursor 0. -/
theorem slotAt_fresh (c : WrapperClient) (d n : Nat) (hpool : c.pool = (List.range' d n).map some)
    (hnext : c.next = 0) (hn : 0 < n) (i : Nat) : slotAt c i = some (d + i % n) := by
  unfold slotAt
  have hlen : c.pool.length = n := by simp [hpool]
  rw [hnext, hlen, hpool]
  have hlt : i % n < n := Nat.mod_lt _ hn
  simp [List.getD_eq_getElem?_getD, hlt]

theorem fresh_inRange (c : WrapperClient) (d n : Nat) (hpool : c.pool = (List.range' d n).map some)
    (hnext : c.next = 0) (hn : 0 < n) : InRange c := by
  unfold InRange
  rw [hnext, hpool]
  simp
  exact hn

/-- C3 fails when the retry bound is negative: a freshly constructed client
with three connections and `MaxRetries = -1` passes no connection at all to
caller logic that would always succeed, in two consecutive `ShortCall`s. -/
theorem C3_counterexample_negative_retries :
    (NewWrapperClient dialAlwaysOk 0 "localhost:50051" (sampleConfig (-1) 3 two) []).result =
      Result.ok (sampleClient (-1) 3 two) ∧
    AlwaysSucceeds rpcOk ∧
    callConns (shortCallSeq rpcOk 2 (sampleClient (-1) 3 two) ()).1 = [] ∧
    callConns (shortCallSeq rpcOk 2 (sampleClient (-1) 3 two) ()).1 ≠ [some 0, some 1] := by
  refine ⟨by decide, fun _ _ _ => rfl, by decide, by decide⟩

/-- C3 (amended): round robin.  For every pool size `n >= 1`, every
`MaxRetries >= 0` and every `m`, on a freshly constructed client (whose pool
slot `i` holds the connection of the `i`-th dial), `m` consecutive `ShortCall`s
whose caller logic always succeeds invoke it `m` times and pass the connection
of slot `i mod n` to the `i`-th invocation. -/
theorem C3_round_robin {ρ σ : Type} (dial : Dialer) (d : Nat) (serverURL : String) (cfg : Config)
    (opts : List DialOption) (c : WrapperClient) (rpcFunc : ShortLogic ρ σ) (s : σ) (m : Nat)
    (hn : 1 ≤ cfg.PoolSize) (hk : 0 ≤ cfg.MaxRetries)
    (hnew : (NewWrapperClient dial d serverURL cfg opts).result = Result.ok c)
    (hok : AlwaysSucceeds rpcFunc) :
    c.pool = (List.range cfg.PoolSize.toNat).map (fun i => some (d + i)) ∧
    callErrs (shortCallSeq rpcFunc m c s).1 = List.replicate m none ∧
    callConns (shortCallSeq rpcFunc m c s).1 =
      (List.range m).map (fun i => some (d + i % cfg.PoolSize.toNat)) := by
  obtain ⟨hpool, hcfg, -, hnext, -, -⟩ :=
    NewWrapperClient_ok_client dial d serverURL cfg opts c hnew
  have hpos : 0 < cfg.PoolSize.toNat := by omega
  have hc := fresh_inRange c d _ hpool hnext hpos
  obtain ⟨h1, h2, -⟩ := shortCallSeq_alwaysSucceeds rpcFunc hok m c s (by rw [hcfg]; exact hk) hc
  refine ⟨?_, h2, ?_⟩
  · rw [hpool, List.range'_eq_map_range]
    simp [Function.comp_def]
  · rw [h1]
    exact List.map_congr_left (fun i _ => slotAt_fresh c d _ hpool hnext hpos i)

/-- C3, instance: five calls on a fresh pool of three connections. -/
theorem C3_witness :
    (sampleClient 2 3 two).pool = (List.range (3 : Int).toNat).map (fun i => some (0 + i)) ∧
    callErrs (shortCallSeq rpcOk 5 (sampleClient 2 3 two) ()).1 = List.replicate 5 none ∧
    callConns (shortCallSeq rpcOk 5 (sampleClient 2 3 two) ()).1 =
      (List.range 5).map (fun i => some (0 + i % (3 : Int).toNat)) :=
  C3_round_robin dialAlwaysOk 0 "localhost:50051" (sampleConfig 2 3 two) [] (sampleClient 2 3 two)
    rpcOk () 5 (by decide) (by decide) (by decide) (fun _ _ _ => rfl)

/-- C5: for every pool size `n >= 1`, every `MaxRetries = k` and every `j` with
`0 <= j <= k`, on a freshly constructed client, caller logic that returns
retryable errors on its first `j` invocations and then succeeds with `v` makes
`ShortCall` return `(v, nil)` after exactly `j + 1` invocations, the `i`-th on
the connection of pool slot `i mod n`, with the `j` backoff sleeps in between. -/
theorem C5_retry_then_success {ρ σ : Type} (dial : Dialer) (d : Nat) (serverURL : String)
    (cfg : Config) (opts : List DialOption) (c : WrapperClient) (rpcFunc : ShortLogic ρ σ)
    (s : σ) (v : ρ) (j : Nat)
    (hn : 1 ≤ cfg.PoolSize) (hj : (j : Int) ≤ cfg.MaxRetries)
    (hnew : (NewWrapperClient dial d serverURL cfg opts).result = Result.ok c)
    (hf : FailsThenSucceeds rpcFunc v j s) :
    (ShortCall c rpcFunc s).result = Result.ok v ∧
    (callErrs (ShortCall c rpcFunc s).events).length = j + 1 ∧
    callConns (ShortCall c rpcFunc s).events =
      (List.range (j + 1)).map (fun i => some (d + i % cfg.PoolSize.toNat)) ∧
    sleeps (ShortCall c rpcFunc s).events = (List.range j).map (backoffAt cfg.BackoffFactor) := by
  obtain ⟨hpool, hcfg, -, hnext, -, -⟩ :=
    NewWrapperClient_ok_client dial d serverURL cfg opts c hnew
  have hpos : 0 < cfg.PoolSize.toNat := by omega
  have hc := fresh_inRange c d _ hpool hnext hpos
  obtain ⟨h1, h2, h3, -⟩ := shortLoop_failsThenSucceeds rpcFunc v j
    (c.poolCfg.MaxRetries + 1).toNat c s none (100 * Millisecond) hc hf (by rw [hcfg]; omega)
  have hconns : callConns (ShortCall c rpcFunc s).events =
      (List.range (j + 1)).map (fun i => some (d + i % cfg.PoolSize.toNat)) := by
    unfold ShortCall
    rw [h2]
    exact List.map_congr_left (fun i _ => slotAt_fresh c d _ hpool hnext hpos i)
  refine ⟨h1, ?_, hconns, ?_⟩
  · have hlen : ∀ evs : List Event, (callErrs evs).length = (callConns evs).length := by
      intro evs
      induction evs with
      | nil => rfl
      | cons x xs ih => cases x <;> simp [callErrs, callConns, ih]
    rw [hlen, hconns]
    simp
  · unfold ShortCall
    rw [h3, hcfg]
    rfl

theorem rpcFailsFirst_two : FailsThenSucceeds (rpcFailsFirst 2) 7 2 0 := by
  have hr : Retryable errUnavailable := Or.inl rfl
  intro t conn
  refine ⟨⟨errUnavailable, rfl, hr⟩, ?_⟩
  intro t1 conn1
  refine ⟨⟨errUnavailable, rfl, hr⟩, ?_⟩
  intro t2 conn2
  rfl

/-- C5, the scenario of the specification: `PoolSize = 3`, `MaxRetries = 2`,
`BackoffFactor = 2.0`, two retryable failures and then success give success on
the connections 0, 1, 2 with sleeps of 100ms and 200ms. -/
theorem C5_witness :
    ((ShortCall (sampleClient 2 3 two) (rpcFailsFirst 2) 0).result = Result.ok 7 ∧
      (callErrs (ShortCall (sampleClient 2 3 two) (rpcFailsFirst 2) 0).events).length = 2 + 1 ∧
      callConns (ShortCall (sampleClient 2 3 two) (rpcFailsFirst 2) 0).events =
        (List.range (2 + 1)).map (fun i => some (0 + i % (3 : Int).toNat)) ∧
      sleeps (ShortCall (sampleClient 2 3 two) (rpcFailsFirst 2) 0).events =
        (List.range 2).map (backoffAt two)) ∧
    callConns (ShortCall (sampleClient 2 3 two) (rpcFailsFirst 2) 0).events =
      [some 0, some 1, some 2] ∧
    sleeps (ShortCall (sampleClient 2 3 two) (rpcFailsFirst 2) 0).events =
      [100 * Millisecond, 200 * Millisecond] :=
  ⟨C5_retry_then_success dialAlwaysOk 0 "localhost:50051" (sampleConfig 2 3 two) []
      (sampleClient 2 3 two) (rpcFailsFirst 2) 0 7 2 (by decide) (by decide) (by decide)
      rpcFailsFirst_two,
    by decide, by decide⟩

/-! ## The managed stream -/

theorem streamLoop_step_ok {σ : Type} (dial : Dialer) (rpcFunc : StreamLogic σ) (n : Nat)
    (c : WrapperClient) (s s1 : σ) (err : Option GoError) (d : Nat)
    (hr : rpcFunc s c.streamConn = (none, s1)) :
    streamLoop dial rpcFunc (n + 1) c s err d =
      ⟨Result.ok (), c, s1, [Event.stream c.streamConn none], d⟩ := by
  rw [streamLoop]
  simp [hr]

theorem streamLoop_step_dialFail {σ : Type} (dial : Dialer) (rpcFunc : StreamLogic σ) (n : Nat)
    (c : WrapperClient) (s s1 : σ) (err : Option GoError) (d : Nat) (e dialErr : ExtError)
    (hr : rpcFunc s c.streamConn = (some e, s1)) (hd : dial d = some dialErr) :
    streamLoop dial rpcFunc (n + 1) c s err d =
      { streamLoop dial rpcFunc n c s1
          (some (GoError.errorf "stream reconnect failed: %w" (GoError.ext dialErr))) (d + 1) with
        events := Event.stream c.streamConn (some e) :: Event.sleep c.poolCfg.StreamBackoff ::
          Event.dialFail none dialErr ::
          (streamLoop dial rpcFunc n c s1
            (some (GoError.errorf "stream reconnect failed: %w" (GoError.ext dialErr)))
            (d + 1)).events } := by
  rw [streamLoop]
  simp [hr, hd, Errorf]

theorem streamLoop_step_swap {σ : Type} (dial : Dialer) (rpcFunc : StreamLogic σ) (n : Nat)
    (c : WrapperClient) (s s1 : σ) (err : Option GoError) (d : Nat) (e : ExtError) (old : Conn)
    (hr : rpcFunc s c.streamConn = (some e, s1)) (hd : dial d = none)
    (hold : c.streamConn = some old) :
    streamLoop dial rpcFunc (n + 1) c s err d =
      { streamLoop dial rpcFunc n { c with streamConn := some d } s1 (some (GoError.ext e))
          (d + 1) with
        events := Event.stream c.streamConn (some e) :: Event.sleep c.poolCfg.StreamBackoff ::
          Event.dialOk none d :: Event.close old ::
          (streamLoop dial rpcFunc n { c with streamConn := some d } s1 (some (GoError.ext e))
            (d + 1)).events } := by
  rw [streamLoop]
  simp only [hr, hd]
  simp [hold]

/-- Counts of a `StreamCall` loop whose caller logic always fails, on a client
with a stream connection: one invocation, one sleep and one dial per cycle, as
many closes as successful dials, and an exhaustion error that wraps a cause. -/
theorem streamLoop_alwaysErrors {σ : Type} (dial : Dialer) (rpcFunc : StreamLogic σ)
    (hall : AlwaysErrors rpcFunc) (n : Nat) :
    ∀ (c : WrapperClient) (s : σ) (err : Option GoError) (d : Nat) (h : Conn),
      c.streamConn = some h →
      (streamConns (streamLoop dial rpcFunc n c s err d).events).length = n ∧
      dialCount (streamLoop dial rpcFunc n c s err d).events = n ∧
      (streamLoop dial rpcFunc n c s err d).dials = d + n ∧
      sleeps (streamLoop dial rpcFunc n c s err d).events =
        List.replicate n c.poolCfg.StreamBackoff ∧
      (closes (streamLoop dial rpcFunc n c s err d).events).length =
        (dialed (streamLoop dial rpcFunc n c s err d).events).length ∧
      ((0 < n ∨ err ≠ none) → ∃ cause, (streamLoop dial rpcFunc n c s err d).result =
        Result.fail (GoError.errorf "StreamCall failed after reconnects: %w" cause)) := by
  induction n with
  | zero =>
    intro c s err d h _
    refine ⟨by simp [streamLoop, streamConns], by simp [streamLoop, dialCount],
      by simp [streamLoop], by simp [streamLoop, sleeps], by simp [streamLoop, closes, dialed], ?_⟩
    intro hne
    cases err with
    | none => simp at hne
    | some cause => exact ⟨cause, by simp [streamLoop, streamCallExit, Errorf]⟩
  | succ n ih =>
    intro c s err d h hconn
    obtain ⟨e, he⟩ := hall s c.streamConn
    have hr : rpcFunc s c.streamConn = (some e, (rpcFunc s c.streamConn).2) := Prod.ext he rfl
    cases hd : dial d with
    | some dialErr =>
      rw [streamLoop_step_dialFail dial rpcFunc n c s _ err d e dialErr hr hd]
      obtain ⟨h1, h2, h3, h4, h5, h6⟩ := ih c (rpcFunc s c.streamConn).2
        (some (GoError.errorf "stream reconnect failed: %w" (GoError.ext dialErr))) (d + 1) h hconn
      refine ⟨?_, ?_, ?_, ?_, ?_, fun _ => h6 (Or.inr (by simp))⟩
      · simp [streamConns, h1]
      · simp [dialCount, h2]
      · simp only [h3]; omega
      · simp [sleeps, h4, List.replicate_succ]
      · simpa [closes, dialed] using h5
    | none =>
      rw [streamLoop_step_swap dial rpcFunc n c s _ err d e h hr hd hconn]
      obtain ⟨h1, h2, h3, h4, h5, h6⟩ := ih { c with streamConn := some d }
        (rpcFunc s c.streamConn).2 (some (GoError.ext e)) (d + 1) d rfl
      refine ⟨?_, ?_, ?_, ?_, ?_, fun _ => h6 (Or.inr (by simp))⟩
      · simp [streamConns, h1]
      · simp [dialCount, h2]
      · simp only [h3]; omega
      · simp [sleeps, h4, List.replicate_succ]
      · simpa [closes, dialed] using h5

/-- When moreover every reconnect dial succeeds, every cycle swaps the handle:
the handles closed are the initial one and all dialed ones but the last, which
is the managed handle at the end. -/
theorem streamLoop_alwaysErrors_swaps {σ : Type} (dial : Dialer) (rpcFunc : StreamLogic σ)
    (hall : AlwaysErrors rpcFunc) (n : Nat) :
    ∀ (c : WrapperClient) (s : σ) (err : Option GoError) (d : Nat) (h : Conn),
      c.streamConn = some h → (∀ j, j < n → dial (d + j) = none) →
      dialed (streamLoop dial rpcFunc n c s err d).events = List.range' d n ∧
      closes (streamLoop dial rpcFunc n c s err d).events = (h :: List.range' d n).take n ∧
      streamConns (streamLoop dial rpcFunc n c s err d).events =
        ((h :: List.range' d n).take n).map some ∧
      (streamLoop dial rpcFunc n c s err d).client.streamConn = (h :: List.range' d n).get? n := by
  induction n with
  | zero =>
    intro c s err d h hconn _
    simp [streamLoop, dialed, closes, streamConns, hconn]
  | succ n ih =>
    intro c s err d h hconn hdial
    obtain ⟨e, he⟩ := hall s c.streamConn
    have hr : rpcFunc s c.streamConn = (some e, (rpcFunc s c.streamConn).2) := Prod.ext he rfl
    have hd : dial d = none := by simpa using hdial 0 (Nat.succ_pos n)
    rw [streamLoop_step_swap dial rpcFunc n c s _ err d e h hr hd hconn]
    obtain ⟨h1, h2, h3, h4⟩ := ih { c with streamConn := some d } (rpcFunc s c.streamConn).2
      (some (GoError.ext e)) (d + 1) d rfl
      (fun j hj => by rw [Nat.add_assoc, Nat.add_comm 1 j]; exact hdial (j + 1) (by omega))
    refine ⟨?_, ?_, ?_, ?_⟩
    · simp [dialed, h1, List.range'_succ]
    · simp [closes, h2, List.range'_succ]
    · simp only [streamConns, h3, List.range'_succ, List.take_succ_cons, List.map_cons]
      rw [hconn]
    · simp only [h4]
      simp [List.range'_succ]

/-- C6 fails: with `StreamRetry = 0` and caller logic that always fails, the
single cycle is still followed by a sleep, a dial attempt and a swap of the
managed handle, so one dial and one swap happen where the claim counts zero. -/
theorem C6_counterexample_last_cycle_reconnects :
    AlwaysErrors streamAlwaysFails ∧
    (StreamCall dialAlwaysOk 4 (sampleStreamClient 0) streamAlwaysFails ()).events =
      [Event.stream (some 3) (some errPlain), Event.sleep (50 * Millisecond),
        Event.dialOk none 4, Event.close 3] ∧
    (dialCount (StreamCall dialAlwaysOk 4 (sampleStreamClient 0) streamAlwaysFails ()).events : Int)
      ≠ (sampleStreamClient 0).poolCfg.StreamRetry ∧
    ((closes (StreamCall dialAlwaysOk 4 (sampleStreamClient 0) streamAlwaysFails ()).events).length
      : Int) ≠ (sampleStreamClient 0).poolCfg.StreamRetry ∧
    (StreamCall dialAlwaysOk 4 (sampleStreamClient 0) streamAlwaysFails ()).client.streamConn =
      some 4 := by
  refine ⟨fun _ _ => ⟨errPlain, rfl⟩, by decide, by decide, by decide, by decide⟩

/-- C6 (amended): for every `StreamRetry = r >= 0`, a `StreamCall` whose caller
logic always returns an error performs exactly `r + 1` cycles (invocations of
caller logic), each followed by a sleep and a dial attempt, hence exactly
`r + 1` dial attempts, and terminates with the error "StreamCall failed after
reconnects"; if all dials succeed there are exactly `r + 1` swaps of the
managed handle: the initial handle and the first `r` dialed ones are closed in
turn and the last dialed one is left installed. -/
theorem C6_streamCall_exhausts_reconnects {σ : Type} (dial : Dialer) (d : Nat)
    (c : WrapperClient) (rpcFunc : StreamLogic σ) (s : σ) (h : Conn)
    (hr : 0 ≤ c.poolCfg.StreamRetry) (hconn : c.streamConn = some h)
    (hall : AlwaysErrors rpcFunc) :
    ((streamConns (StreamCall dial d c rpcFunc s).events).length : Int) =
      c.poolCfg.StreamRetry + 1 ∧
    (dialCount (StreamCall dial d c rpcFunc s).events : Int) = c.poolCfg.StreamRetry + 1 ∧
    sleeps (StreamCall dial d c rpcFunc s).events =
      List.replicate (c.poolCfg.StreamRetry.toNat + 1) c.poolCfg.StreamBackoff ∧
    (∃ cause, (StreamCall dial d c rpcFunc s).result =
      Result.fail (GoError.errorf "StreamCall failed after reconnects: %w" cause)) ∧
    ((∀ j, j < c.poolCfg.StreamRetry.toNat + 1 → dial (d + j) = none) →
      dialed (StreamCall dial d c rpcFunc s).events =
        List.range' d (c.poolCfg.StreamRetry.toNat + 1) ∧
      closes (StreamCall dial d c rpcFunc s).events = h :: List.range' d c.poolCfg.StreamRetry.toNat ∧
      (StreamCall dial d c rpcFunc s).client.streamConn =
        some (d + c.poolCfg.StreamRetry.toNat)) := by
  unfold StreamCall
  rw [toNat_succ_of_nonneg _ hr]
  obtain ⟨h1, h2, -, h4, -, h6⟩ :=
    streamLoop_alwaysErrors dial rpcFunc hall (c.poolCfg.StreamRetry.toNat + 1) c s none d h hconn
  refine ⟨by rw [h1]; omega, by rw [h2]; omega, h4, h6 (Or.inl (Nat.succ_pos _)), ?_⟩
  intro hdial
  obtain ⟨g1, g2, -, g4⟩ := streamLoop_alwaysErrors_swaps dial rpcFunc hall
    (c.poolCfg.StreamRetry.toNat + 1) c s none d h hconn hdial
  refine ⟨g1, ?_, ?_⟩
  · rw [g2, List.take_succ_cons, List.range'_concat, List.take_left']
    simp
  · rw [g4]
    simp [List.range'_concat, List.get?_eq_getElem?]

/-- C6, instance: `StreamRetry = 2`, all reconnect dials succeed. -/
theorem C6_witness :
    ((streamConns (StreamCall dialAlwaysOk 4 (sampleStreamClient 2) streamAlwaysFails ()).events).length
      : Int) = (sampleStreamClient 2).poolCfg.StreamRetry + 1 ∧
    (dialCount (StreamCall dialAlwaysOk 4 (sampleStreamClient 2) streamAlwaysFails ()).events : Int)
      = (sampleStreamClient 2).poolCfg.StreamRetry + 1 ∧
    sleeps (StreamCall dialAlwaysOk 4 (sampleStreamClient 2) streamAlwaysFails ()).events =
      List.replicate ((sampleStreamClient 2).poolCfg.StreamRetry.toNat + 1)
        (sampleStreamClient 2).poolCfg.StreamBackoff ∧
    (∃ cause, (StreamCall dialAlwaysOk 4 (sampleStreamClient 2) streamAlwaysFails ()).result =
      Result.fail (GoError.errorf "StreamCall failed after reconnects: %w" cause)) ∧
    dialed (StreamCall dialAlwaysOk 4 (sampleStreamClient 2) streamAlwaysFails ()).events =
      List.range' 4 ((sampleStreamClient 2).poolCfg.StreamRetry.toNat + 1) ∧
    closes (StreamCall dialAlwaysOk 4 (sampleStreamClient 2) streamAlwaysFails ()).events =
      3 :: List.range' 4 (sampleStreamClient 2).poolCfg.StreamRetry.toNat ∧
    (StreamCall dialAlwaysOk 4 (sampleStreamClient 2) streamAlwaysFails ()).client.streamConn =
      some (4 + (sampleStreamClient 2).poolCfg.StreamRetry.toNat) :=
  have hthm := C6_streamCall_exhausts_reconnects dialAlwaysOk 4 (sampleStreamClient 2)
    streamAlwaysFails () 3 (by decide) rfl (fun _ _ => ⟨errPlain, rfl⟩)
  ⟨hthm.1, hthm.2.1, hthm.2.2.1, hthm.2.2.2.1, hthm.2.2.2.2 (fun _ _ => rfl)⟩

/-- C7: for every `StreamRetry >= 0`, a `StreamCall` whose caller logic returns
no error on its first invocation returns no error after exactly that one
invocation, made with the currently managed stream handle, and does nothing
else: no sleep, no dial, no close, and the client (its managed stream handle
included) is unchanged. -/
theorem C7_streamCall_immediate_success {σ : Type} (dial : Dialer) (d : Nat) (c : WrapperClient)
    (rpcFunc : StreamLogic σ) (s : σ) (hr : 0 ≤ c.poolCfg.StreamRetry)
    (hok : (rpcFunc s c.streamConn).1 = none) :
    (StreamCall dial d c rpcFunc s).result = Result.ok () ∧
    (StreamCall dial d c rpcFunc s).events = [Event.stream c.streamConn none] ∧
    sleeps (StreamCall dial d c rpcFunc s).events = [] ∧
    dialCount (StreamCall dial d c rpcFunc s).events = 0 ∧
    (StreamCall dial d c rpcFunc s).dials = d ∧
    closes (StreamCall dial d c rpcFunc s).events = [] ∧
    (StreamCall dial d c rpcFunc s).client = c := by
  unfold StreamCall
  rw [toNat_succ_of_nonneg _ hr,
    streamLoop_step_ok dial rpcFunc _ c s (rpcFunc s c.streamConn).2 none d (Prod.ext hok rfl)]
  simp [sleeps, dialCount, closes]

/-- C7, instance: the sample client with `StreamRetry = 2`. -/
theorem C7_witness :
    (StreamCall dialAlwaysOk 4 (sampleStreamClient 2) streamOk ()).result = Result.ok () ∧
    (StreamCall dialAlwaysOk 4 (sampleStreamClient 2) streamOk ()).events =
      [Event.stream (sampleStreamClient 2).streamConn none] ∧
    sleeps (StreamCall dialAlwaysOk 4 (sampleStreamClient 2) streamOk ()).events = [] ∧
    dialCount (StreamCall dialAlwaysOk 4 (sampleStreamClient 2) streamOk ()).events = 0 ∧
    (StreamCall dialAlwaysOk 4 (sampleStreamClient 2) streamOk ()).dials = 4 ∧
    closes (StreamCall dialAlwaysOk 4 (sampleStreamClient 2) streamOk ()).events = [] ∧
    (StreamCall dialAlwaysOk 4 (sampleStreamClient 2) streamOk ()).client = sampleStreamClient 2 :=
  C7_streamCall_immediate_success dialAlwaysOk 4 (sampleStreamClient 2) streamOk () (by decide) rfl

/-! ## Shutdown -/

theorem closePool_map_some (l : List Conn) : closePool (l.map some) = l.map Event.close := by
  induction l with
  | nil => rfl
  | cons x xs ih => simp [closePool, ih]

theorem closes_map_close (l : List Conn) : closes (l.map Event.close) = l := by
  induction l with
  | nil => rfl
  | cons x xs ih => simp [closes, ih]

theorem dialed_map_dialOk (t : Option Duration) (l : List Conn) :
    dialed (l.map (Event.dialOk t)) = l := by
  induction l with
  | nil => rfl
  | cons x xs ih => simp [dialed, ih]

/-- C8: for every `PoolSize = n >= 0`, `Close()` called once on a client right
after its successful construction does nothing but close connections, and the
connections it closes are exactly the `n + 1` connections dialed by the
constructor (the `n` of the pool, then the stream connection), each one once. -/
theorem C8_close_after_construction (dial : Dialer) (d : Nat) (serverURL : String) (cfg : Config)
    (opts : List DialOption) (c : WrapperClient) (hn : 0 ≤ cfg.PoolSize)
    (hnew : (NewWrapperClient dial d serverURL cfg opts).result = Result.ok c) :
    Close c = (closes (Close c)).map Event.close ∧
    closes (Close c) = dialed (NewWrapperClient dial d serverURL cfg opts).events ∧
    (closes (Close c)).Nodup ∧
    ((closes (Close c)).length : Int) = cfg.PoolSize + 1 ∧
    (∀ h, h ∈ closes (Close c) ↔ (some h ∈ c.pool ∨ c.streamConn = some h)) ∧
    (c.pool.length : Int) = cfg.PoolSize ∧ (∀ slot, slot ∈ c.pool → slot ≠ none) := by
  obtain ⟨hpool, -, hstream, -, hev, -⟩ :=
    NewWrapperClient_ok_client dial d serverURL cfg opts c hnew
  have hclose : Close c = (List.range' d (cfg.PoolSize.toNat + 1)).map Event.close := by
    unfold Close
    rw [hpool, hstream, closePool_map_some, List.range'_concat]
    simp
  have hcl : closes (Close c) = List.range' d (cfg.PoolSize.toNat + 1) := by
    rw [hclose, closes_map_close]
  have hlenp : (c.pool.length : Int) = cfg.PoolSize := by
    rw [hpool, List.length_map, List.length_range']
    exact Int.toNat_of_nonneg hn
  have hlenc : ((closes (Close c)).length : Int) = cfg.PoolSize + 1 := by
    rw [hcl, List.length_range']
    push_cast
    rw [Int.toNat_of_nonneg hn]
  have hslots : ∀ slot, slot ∈ c.pool → slot ≠ none := by
    intro slot hs
    rw [hpool, List.mem_map] at hs
    obtain ⟨x, -, rfl⟩ := hs
    exact Option.some_ne_none x
  refine ⟨by rw [hcl, hclose], by rw [hcl, hev, dialed_map_dialOk], by
    rw [hcl]; exact List.nodup_range' d _, hlenc, ?_, hlenp, hslots⟩
  intro h
  rw [hcl, hpool, hstream, List.mem_range'_1,
    List.mem_map_of_injective (Option.some_injective _), List.mem_range'_1, Option.some.injEq]
  omega

/-- C8, instance: a pool of three connections and the stream connection. -/
theorem C8_witness :
    Close (sampleClient 2 3 two) = (closes (Close (sampleClient 2 3 two))).map Event.close ∧
    closes (Close (sampleClient 2 3 two)) =
      dialed (NewWrapperClient dialAlwaysOk 0 "localhost:50051" (sampleConfig 2 3 two) []).events ∧
    (closes (Close (sampleClient 2 3 two))).Nodup ∧
    ((closes (Close (sampleClient 2 3 two))).length : Int) = (sampleConfig 2 3 two).PoolSize + 1 ∧
    (∀ h, h ∈ closes (Close (sampleClient 2 3 two)) ↔
      (some h ∈ (sampleClient 2 3 two).pool ∨ (sampleClient 2 3 two).streamConn = some h)) ∧
    ((sampleClient 2 3 two).pool.length : Int) = (sampleConfig 2 3 two).PoolSize ∧
    (∀ slot, slot ∈ (sampleClient 2 3 two).pool → slot ≠ none) :=
  C8_close_after_construction dialAlwaysOk 0 "localhost:50051" (sampleConfig 2 3 two) []
    (sampleClient 2 3 two) (by decide) (by decide)

/-! ## The backoff sequence -/

theorem excessBits_le (fuel : Nat) : ∀ (n k : Nat), n / 2 ^ k < 2 ^ 53 → excessBits fuel n ≤ k := by
  induction fuel with
  | zero =>
    intro n k _
    simp [excessBits]
  | succ fuel ih =>
    intro n k h
    rw [excessBits]
    split
    · exact Nat.zero_le k
    · rename_i hn
      cases k with
      | zero => simp at h; omega
      | succ k =>
        have h2 : n / 2 / 2 ^ k < 2 ^ 53 := by
          rw [Nat.div_div_eq_div_mul, ← Nat.pow_succ']
          exact h
        have := ih (n / 2) k h2
        omega

/-- Rounding to 53 significant bits leaves `N * 2 ^ k` unchanged when `N < 2 ^ 53`. -/
theorem roundSig53_exact (N k : Nat) (hN : N < 2 ^ 53) : roundSig53 (N * 2 ^ k) = N * 2 ^ k := by
  have hs : excessBits (N * 2 ^ k) (N * 2 ^ k) ≤ k :=
    excessBits_le _ _ k (by rw [Nat.mul_div_cancel _ (Nat.two_pow_pos k)]; exact hN)
  unfold roundSig53
  simp only
  split
  · rfl
  · rename_i hne
    have hdvd : 2 ^ excessBits (N * 2 ^ k) (N * 2 ^ k) ∣ N * 2 ^ k :=
      Dvd.dvd.mul_left (Nat.pow_dvd_pow 2 hs) N
    have hmod : N * 2 ^ k % 2 ^ excessBits (N * 2 ^ k) (N * 2 ^ k) = 0 :=
      Nat.mod_eq_zero_of_dvd hdvd
    have hhalf : 0 < 2 ^ (excessBits (N * 2 ^ k) (N * 2 ^ k) - 1) := Nat.two_pow_pos _
    rw [hmod]
    have hcond : ¬ (2 ^ (excessBits (N * 2 ^ k) (N * 2 ^ k) - 1) < 0 ∨
        (0 = 2 ^ (excessBits (N * 2 ^ k) (N * 2 ^ k) - 1) ∧
          N * 2 ^ k / 2 ^ excessBits (N * 2 ^ k) (N * 2 ^ k) % 2 = 1)) := by
      omega
    rw [if_neg hcond]
    exact Nat.div_mul_cancel hdvd

theorem roundInt_exact (N k : Nat) (hN : N < 2 ^ 53) :
    roundInt ((N : Int) * 2 ^ k) = (N : Int) * 2 ^ k := by
  have hz : ((N : Int) * 2 ^ k).natAbs = N * 2 ^ k := by
    have : ((N : Int) * 2 ^ k) = ((N * 2 ^ k : Nat) : Int) := by push_cast; rfl
    rw [this, Int.natAbs_ofNat]
  unfold roundInt
  rw [hz, roundSig53_exact N k hN, ← hz]
  exact Int.sign_mul_natAbs _

theorem roundInt_small (B : Nat) (hB : B < 2 ^ 53) : roundInt (B : Int) = (B : Int) := by
  have := roundInt_exact B 0 hB
  simpa using this

/-- One exact scaling step: if the backoff `B` and the product `B * (m * 2 ^ e)`
are whole numbers below `2 ^ 53`, the new backoff is that product. -/
theorem scaleBackoff_exact (B N : Nat) (m e : Int) (hB : B < 2 ^ 53) (hN : N < 2 ^ 53)
    (hprod : (N : ℚ) = (B : ℚ) * ((m : ℚ) * (2 : ℚ) ^ e)) :
    scaleBackoff (B : Int) (Float64.finite m e) = (N : Int) := by
  have hN63 : (N : Int) < 2 ^ 63 := by
    have : (N : Int) < 2 ^ 53 := by exact_mod_cast hN
    omega
  have hN0 : (0 : Int) ≤ (N : Int) := Int.natCast_nonneg N
  simp only [scaleBackoff]
  rw [roundInt_small B hB]
  by_cases he : 0 ≤ e
  · obtain ⟨k, rfl⟩ := Int.eq_ofNat_of_zero_le he
    rw [zpow_natCast] at hprod
    have hint : (N : Int) = (B : Int) * m * 2 ^ k := by
      have : ((N : Int) : ℚ) = (((B : Int) * m * 2 ^ k : Int) : ℚ) := by
        push_cast
        rw [hprod]
        ring
      exact_mod_cast this
    have hpow : (1 : Int) ≤ 2 ^ k := by
      have : (0 : Int) < 2 ^ k := by positivity
      omega
    have hP0 : 0 ≤ (B : Int) * m := by
      by_contra hneg
      push_neg at hneg
      have : (B : Int) * m * 2 ^ k < 0 := Int.mul_neg_of_neg_of_pos hneg (by omega)
      omega
    have hPle : (B : Int) * m ≤ N := by
      rw [hint]
      exact le_mul_of_one_le_right hP0 hpow
    obtain ⟨P, hP⟩ := Int.eq_ofNat_of_zero_le hP0
    have hPlt : P < 2 ^ 53 := by
      have h1 : (P : Int) < 2 ^ 53 := by
        have : (N : Int) < 2 ^ 53 := by exact_mod_cast hN
        omega
      exact_mod_cast h1
    rw [hP, roundInt_small P hPlt, ← hP]
    unfold truncToInt64
    simp only [Int.natCast_nonneg, if_true, Int.toNat_ofNat]
    rw [← hint]
    rw [if_pos ⟨by omega, hN63⟩]
  · push_neg at he
    obtain ⟨k, hk⟩ : ∃ k : Nat, e = -(k : Int) := ⟨(-e).toNat, by omega⟩
    subst hk
    rw [zpow_neg, zpow_natCast] at hprod
    have hint : (B : Int) * m = (N : Int) * 2 ^ k := by
      have h2 : ((2 : ℚ) ^ k) ≠ 0 := pow_ne_zero _ (by norm_num)
      have : (((B : Int) * m : Int) : ℚ) = (((N : Int) * 2 ^ k : Int) : ℚ) := by
        push_cast
        rw [hprod]
        field_simp
      exact_mod_cast this
    rw [hint, roundInt_exact N k hN]
    unfold truncToInt64
    have hneg : ¬ (0 ≤ -(k : Int)) := by omega
    simp only [hneg, if_false, neg_neg, Int.toNat_ofNat]
    have hpos : (0 : Int) < 2 ^ k := by positivity
    rw [Int.tdiv_eq_ediv (by positivity) (by positivity), Int.mul_ediv_cancel _ (ne_of_gt hpos)]
    rw [if_pos ⟨by omega, hN63⟩]

theorem backoffAt_zero (f : Float64) : backoffAt f 0 = 100 * Millisecond := rfl

theorem backoffAt_succ (f : Float64) (i : Nat) :
    backoffAt f (i + 1) = scaleBackoff (backoffAt f i) f := by
  unfold backoffAt
  rw [Function.iterate_succ_apply']

/-- As long as the products `100ms * f ^ j` are whole numbers below `2 ^ 53`, the
backoff follows the geometric sequence exactly. -/
theorem backoffAt_exact (m e : Int) (i : Nat)
    (hgeo : ∀ j, j ≤ i → ∃ N : Nat, N < 2 ^ 53 ∧
      (N : ℚ) = ((100 * Millisecond : Int) : ℚ) * ((m : ℚ) * (2 : ℚ) ^ e) ^ j) :
    ∃ N : Nat, N < 2 ^ 53 ∧ backoffAt (Float64.finite m e) i = (N : Int) ∧
      (N : ℚ) = ((100 * Millisecond : Int) : ℚ) * ((m : ℚ) * (2 : ℚ) ^ e) ^ i := by
  induction i with
  | zero =>
    refine ⟨100000000, by norm_num, rfl, ?_⟩
    simp [Millisecond]
  | succ i ih =>
    obtain ⟨B, hB, hBeq, hBq⟩ := ih (fun j hj => hgeo j (by omega))
    obtain ⟨N, hN, hNq⟩ := hgeo (i + 1) (le_refl _)
    refine ⟨N, hN, ?_, hNq⟩
    rw [backoffAt_succ, hBeq]
    apply scaleBackoff_exact B N m e hB hN
    rw [hNq, hBq, pow_succ]
    ring

theorem getPoolConn_poolCfg (c c1 : WrapperClient) (conn : Option Conn)
    (h : getPoolConn c = some (conn, c1)) : c1.poolCfg = c.poolCfg := by
  unfold getPoolConn at h
  split at h
  · split at h
    · cases h
    · simp only [Option.some.injEq, Prod.mk.injEq] at h
      rw [← h.2]
  · cases h

/-- The sleeps of the loop: one per retryable failure, each the previous one
scaled by the backoff factor. -/
theorem shortLoop_sleeps {ρ σ : Type} (rpcFunc : ShortLogic ρ σ) (n : Nat) :
    ∀ (c : WrapperClient) (s : σ) (lastErr : Option GoError) (backoff : Duration),
      sleeps (shortLoop rpcFunc n c s lastErr backoff).events =
        (List.range (retryableFailures (shortLoop rpcFunc n c s lastErr backoff).events)).map
          (fun i => (fun b => scaleBackoff b c.poolCfg.BackoffFactor)^[i] backoff) := by
  induction n with
  | zero =>
    intro c s lastErr backoff
    simp [shortLoop, sleeps, retryableFailures]
  | succ n ih =>
    intro c s lastErr backoff
    cases hg : getPoolConn c with
    | none =>
      rw [shortLoop_step_panic rpcFunc n c s lastErr backoff hg]
      simp [sleeps, retryableFailures]
    | some p =>
      obtain ⟨conn1, c1⟩ := p
      have hcfg := getPoolConn_poolCfg c c1 conn1 hg
      rcases hr : rpcFunc s c.poolCfg.CallTimeout conn1 with ⟨⟨resp, _ | err⟩, s1⟩
      · rw [shortLoop_step_ok rpcFunc n c c1 s s1 lastErr backoff conn1 resp hg hr]
        simp [sleeps, retryableFailures]
      · by_cases hb : breaksLoop err = true
        · rw [shortLoop_step_break rpcFunc n c c1 s s1 lastErr backoff conn1 resp err hg hr hb]
          have hnr : ¬ Retryable err :=
            (nonRetryable_iff_not_retryable err).mp ((breaksLoop_iff_nonRetryable err).mp hb)
          simp [sleeps, retryableFailures, hnr]
        · have hb2 : breaksLoop err = false := by simpa using hb
          rw [shortLoop_step_retry rpcFunc n c c1 s s1 lastErr backoff conn1 resp err hg hr hb2]
          have hre : Retryable err := (breaksLoop_eq_false_iff err).mp hb2
          simp only [sleeps, retryableFailures, hre, if_true]
          rw [ih, hcfg, Nat.add_comm 1, List.range_succ_eq_map]
          simp [Function.comp_def]

/-- C4 fails: with `BackoffFactor = 1.5`, `MaxRetries = 10` and caller logic
that always fails with `Unavailable`, the sleeps are whole numbers of
nanoseconds obtained by truncation; the sleep of index 10 lasts 5766503905ns
whereas `100ms * 1.5 ^ 10` is 5766503906.25ns. -/
theorem C4_counterexample_truncation :
    sleeps (ShortCall (sampleClient 10 3 oneAndHalf) rpcUnavailable ()).events =
      [100000000, 150000000, 225000000, 337500000, 506250000, 759375000, 1139062500,
        1708593750, 2562890625, 3844335937, 5766503905] ∧
    ((5766503905 : Int) : ℚ) ≠
      ((100 * Millisecond : Int) : ℚ) * (((3 : Int) : ℚ) * (2 : ℚ) ^ (-1 : Int)) ^ 10 := by
  constructor
  · decide
  · simp [Millisecond]
    norm_num

/-- C4 (amended): in every run of `ShortCall` there is one sleep per retryable
failure; the first sleep lasts 100ms whatever the configuration (so
independently of `CallTimeout`) and each later sleep is the previous one
multiplied by `BackoffFactor` in `float64` and converted back to whole
nanoseconds (truncation), i.e. the `i`-th sleep is `backoffAt f i`.  It equals
`100ms * f ^ i` exactly for a finite factor `f = m * 2 ^ e` as long as the
values `100ms * f ^ j`, `j <= i`, are whole numbers of nanoseconds below
`2 ^ 53`. -/
theorem C4_backoff_sequence {ρ σ : Type} (c : WrapperClient) (rpcFunc : ShortLogic ρ σ) (s : σ)
    (i : Nat) (dur : Duration)
    (h : (sleeps (ShortCall c rpcFunc s).events).get? i = some dur) :
    dur = backoffAt c.poolCfg.BackoffFactor i ∧
    (sleeps (ShortCall c rpcFunc s).events).length =
      retryableFailures (ShortCall c rpcFunc s).events ∧
    (i = 0 → dur = 100 * Millisecond) ∧
    (∀ m e : Int, c.poolCfg.BackoffFactor = Float64.finite m e →
      (∀ j, j ≤ i → ∃ N : Nat, N < 2 ^ 53 ∧
        (N : ℚ) = ((100 * Millisecond : Int) : ℚ) * ((m : ℚ) * (2 : ℚ) ^ e) ^ j) →
      (dur : ℚ) = ((100 * Millisecond : Int) : ℚ) * ((m : ℚ) * (2 : ℚ) ^ e) ^ i) := by
  have hs := shortLoop_sleeps rpcFunc (c.poolCfg.MaxRetries + 1).toNat c s none (100 * Millisecond)
  have hdur : dur = backoffAt c.poolCfg.BackoffFactor i := by
    unfold ShortCall at h
    rw [hs, List.get?_eq_getElem?, List.getElem?_map] at h
    cases hi : (List.range (retryableFailures (shortLoop rpcFunc (c.poolCfg.MaxRetries + 1).toNat
      c s none (100 * Millisecond)).events))[i]? with
    | none => simp [hi] at h
    | some k =>
      have hk : k = i := by
        rw [List.getElem?_eq_some_iff] at hi
        obtain ⟨hlt, hget⟩ := hi
        simpa using hget.symm
      subst hk
      simp only [hi, Option.map_some', Option.some.injEq] at h
      rw [← h]
      rfl
  refine ⟨hdur, ?_, ?_, ?_⟩
  · unfold ShortCall
    rw [hs]
    simp
  · intro hi
    rw [hdur, hi]
    rfl
  · intro m e hf hgeo
    obtain ⟨N, -, hN, hNq⟩ := backoffAt_exact m e i hgeo
    rw [hdur, hf, hN, ← hNq]
    norm_cast

/-- C4, instance: with factor `2.0` the sleep of index 2 lasts 400ms. -/
theorem C4_witness :
    (400000000 : Int) = backoffAt two 2 ∧
    (sleeps (ShortCall (sampleClient 2 3 two) rpcUnavailable ()).events).length =
      retryableFailures (ShortCall (sampleClient 2 3 two) rpcUnavailable ()).events ∧
    (((400000000 : Int) : ℚ) =
      ((100 * Millisecond : Int) : ℚ) * (((2 : Int) : ℚ) * (2 : ℚ) ^ (0 : Int)) ^ 2) :=
  have hthm := C4_backoff_sequence (sampleClient 2 3 two) rpcUnavailable () 2 400000000
    (by decide)
  ⟨hthm.1, hthm.2.1, hthm.2.2.2 2 0 rfl (fun j hj => by
    have hcases : j = 0 ∨ j = 1 ∨ j = 2 := by omega
    rcases hcases with rfl | rfl | rfl
    · exact ⟨100000000, by norm_num, by simp [Millisecond]⟩
    · exact ⟨200000000, by norm_num, by simp [Millisecond]; norm_num⟩
    · exact ⟨400000000, by norm_num, by simp [Millisecond]; norm_num⟩)⟩

/-! ## Aborted construction -/

theorem dialCount_map_dialOk (t : Option Duration) (l : List Conn) :
    dialCount (l.map (Event.dialOk t)) = l.length := by
  induction l with
  | nil => rfl
  | cons x xs ih => simp [dialCount, ih]

theorem dialCount_append (a b : List Event) : dialCount (a ++ b) = dialCount a + dialCount b := by
  induction a with
  | nil => simp [dialCount]
  | cons x xs ih => cases x <;> simp [dialCount, ih] <;> omega

theorem closes_append (a b : List Event) : closes (a ++ b) = closes a ++ closes b := by
  induction a with
  | nil => simp [closes]
  | cons x xs ih => cases x <;> simp [closes, ih]

theorem dialed_append (a b : List Event) : dialed (a ++ b) = dialed a ++ dialed b := by
  induction a with
  | nil => simp [dialed]
  | cons x xs ih => cases x <;> simp [dialed, ih]

theorem closes_map_dialOk (t : Option Duration) (l : List Conn) :
    closes (l.map (Event.dialOk t)) = [] := by
  induction l with
  | nil => rfl
  | cons x xs ih => simp [closes, ih]

/-- The pool loop when the dial of index `j` (counted from the first pool dial)
is the first to fail. -/
theorem dialPool_first_fail (dial : Dialer) (cfg : Config) (n : Nat) :
    ∀ (i : Nat) (pool : List (Option Conn)) (d j : Nat) (err : ExtError), j < n →
      (∀ k, k < j → dial (d + k) = none) → dial (d + j) = some err →
      dialPool dial cfg n i pool d =
        (Except.error err,
          (List.range' d j).map (Event.dialOk (some cfg.DialTimeout)) ++
            [Event.dialFail (some cfg.DialTimeout) err], d + j + 1) := by
  induction n with
  | zero =>
    intro i pool d j err hj _ _
    omega
  | succ n ih =>
    intro i pool d j err hj hok hfail
    cases j with
    | zero =>
      rw [dialPool]
      simp only [Nat.add_zero] at hfail
      simp [hfail]
    | succ j =>
      have h0 : dial d = none := by simpa using hok 0 (Nat.succ_pos j)
      have hrec := ih (i + 1) (pool.set i (some d)) (d + 1) j err (by omega)
        (fun k hk => by rw [Nat.add_assoc, Nat.add_comm 1 k]; exact hok (k + 1) (by omega))
        (by rw [Nat.add_assoc, Nat.add_comm 1 j]; exact hfail)
      rw [dialPool]
      simp only [h0, hrec]
      simp [List.range'_succ]
      omega

/-- The constructor when the dial of index `j` (counted from its first dial, so
`j < PoolSize` is a pool dial and `j = PoolSize` the stream dial) is the first
to fail. -/
theorem NewWrapperClient_first_fail (dial : Dialer) (d : Nat) (serverURL : String) (cfg : Config)
    (opts : List DialOption) (j : Nat) (err : ExtError) (hn : 0 ≤ cfg.PoolSize)
    (hj : j < cfg.PoolSize.toNat + 1) (hok : ∀ k, k < j → dial (d + k) = none)
    (hfail : dial (d + j) = some err) :
    NewWrapperClient dial d serverURL cfg opts =
      ⟨Result.fail (GoError.errorf
          (if j < cfg.PoolSize.toNat then "failed to dial short RPC connection: %w"
           else "failed to dial streaming connection: %w") (GoError.ext err)),
        (List.range' d j).map (Event.dialOk (some cfg.DialTimeout)) ++
          [Event.dialFail (some cfg.DialTimeout) err],
        d + j + 1⟩ := by
  unfold NewWrapperClient
  simp only [not_lt.mpr hn, if_false]
  by_cases hjn : j < cfg.PoolSize.toNat
  · rw [dialPool_first_fail dial cfg _ 0 _ d j err hjn hok hfail]
    simp [hjn, Errorf]
  · have hjeq : j = cfg.PoolSize.toNat := by omega
    subst hjeq
    have hpool := dialPool_all_ok dial cfg cfg.PoolSize.toNat 0 [] d rfl hok
    simp only [List.nil_append] at hpool
    rw [hpool]
    simp [hfail, Errorf]

/-- C11: construction is fail-fast.  For every `PoolSize = n >= 0` the
constructor dials the `n` pool connections and then the stream connection, in
this order; if all dials succeed exactly `n + 1` dials are made and a client is
returned; if the `(j+1)`-th dial (`j <= n`, counted from 0 here) is the first to
fail, exactly `j + 1` dials are made (the `j` successful ones, then the failed
one, none repeated) and the result is no client together with an error built
with `%w` that wraps the dial error. -/
theorem C11_construction_fail_fast (dial : Dialer) (d : Nat) (serverURL : String) (cfg : Config)
    (opts : List DialOption) (hn : 0 ≤ cfg.PoolSize) :
    ((∀ k, k < cfg.PoolSize.toNat + 1 → dial (d + k) = none) →
      (∃ c, (NewWrapperClient dial d serverURL cfg opts).result = Result.ok c) ∧
      (NewWrapperClient dial d serverURL cfg opts).events =
        (List.range' d (cfg.PoolSize.toNat + 1)).map (Event.dialOk (some cfg.DialTimeout)) ∧
      (dialCount (NewWrapperClient dial d serverURL cfg opts).events : Int) = cfg.PoolSize + 1) ∧
    (∀ (j : Nat) (err : ExtError), j < cfg.PoolSize.toNat + 1 →
      (∀ k, k < j → dial (d + k) = none) → dial (d + j) = some err →
      (NewWrapperClient dial d serverURL cfg opts).events =
        (List.range' d j).map (Event.dialOk (some cfg.DialTimeout)) ++
          [Event.dialFail (some cfg.DialTimeout) err] ∧
      dialCount (NewWrapperClient dial d serverURL cfg opts).events = j + 1 ∧
      (NewWrapperClient dial d serverURL cfg opts).dials = d + j + 1 ∧
      ∃ wrapper, (NewWrapperClient dial d serverURL cfg opts).result = Result.fail wrapper ∧
        wrapper.unwrap = some (GoError.ext err)) := by
  constructor
  · intro hall
    rw [NewWrapperClient_all_ok dial d serverURL cfg opts hn hall]
    refine ⟨⟨_, rfl⟩, rfl, ?_⟩
    simp only [dialCount_map_dialOk, List.length_range']
    push_cast
    rw [Int.toNat_of_nonneg hn]
  · intro j err hj hok hfail
    rw [NewWrapperClient_first_fail dial d serverURL cfg opts j err hn hj hok hfail]
    refine ⟨rfl, ?_, rfl, _, rfl, rfl⟩
    simp [dialCount_append, dialCount_map_dialOk, dialCount]

/-- C11, instance: pool of three, all dials succeed; and the third dial fails. -/
theorem C11_witness :
    ((∃ c, (NewWrapperClient dialAlwaysOk 0 "localhost:50051" (sampleConfig 2 3 two) []).result =
        Result.ok c) ∧
      (NewWrapperClient dialAlwaysOk 0 "localhost:50051" (sampleConfig 2 3 two) []).events =
        (List.range' 0 ((sampleConfig 2 3 two).PoolSize.toNat + 1)).map
          (Event.dialOk (some (sampleConfig 2 3 two).DialTimeout)) ∧
      (dialCount (NewWrapperClient dialAlwaysOk 0 "localhost:50051" (sampleConfig 2 3 two)
        []).events : Int) = (sampleConfig 2 3 two).PoolSize + 1) ∧
    ((NewWrapperClient (dialFailsAt 2) 0 "localhost:50051" (sampleConfig 2 3 two) []).events =
        (List.range' 0 2).map (Event.dialOk (some (sampleConfig 2 3 two).DialTimeout)) ++
          [Event.dialFail (some (sampleConfig 2 3 two).DialTimeout) errDial] ∧
      dialCount (NewWrapperClient (dialFailsAt 2) 0 "localhost:50051" (sampleConfig 2 3 two)
        []).events = 2 + 1 ∧
      (NewWrapperClient (dialFailsAt 2) 0 "localhost:50051" (sampleConfig 2 3 two) []).dials =
        0 + 2 + 1 ∧
      ∃ wrapper, (NewWrapperClient (dialFailsAt 2) 0 "localhost:50051" (sampleConfig 2 3 two)
          []).result = Result.fail wrapper ∧
        wrapper.unwrap = some (GoError.ext errDial)) :=
  ⟨(C11_construction_fail_fast dialAlwaysOk 0 "localhost:50051" (sampleConfig 2 3 two) []
      (by decide)).1 (fun _ _ => rfl),
    (C11_construction_fail_fast (dialFailsAt 2) 0 "localhost:50051" (sampleConfig 2 3 two) []
      (by decide)).2 2 errDial (by decide) (by decide) (by decide)⟩

/-! ## Failed reconnect dials and the error returned by `StreamCall` -/

theorem streamLoop_step_panic {σ : Type} (dial : Dialer) (rpcFunc : StreamLogic σ) (n : Nat)
    (c : WrapperClient) (s s1 : σ) (err : Option GoError) (d : Nat) (e : ExtError)
    (hr : rpcFunc s c.streamConn = (some e, s1)) (hd : dial d = none)
    (hnil : c.streamConn = none) :
    streamLoop dial rpcFunc (n + 1) c s err d =
      ⟨Result.panic "nil pointer dereference", c, s1,
        [Event.stream c.streamConn (some e), Event.sleep c.poolCfg.StreamBackoff,
          Event.dialOk none d], d + 1⟩ := by
  rw [streamLoop]
  simp only [hr, hd]
  simp [hnil]

/-- How a run of the loop starts: with no attempt left it returns the
exhaustion error at once, otherwise it invokes the caller logic on the
managed handle. -/
theorem streamLoop_head {σ : Type} (dial : Dialer) (rpcFunc : StreamLogic σ) (n : Nat)
    (c : WrapperClient) (s : σ) (err : Option GoError) (d : Nat) :
    (n = 0 ∧ (streamLoop dial rpcFunc n c s err d).events = [] ∧
        (streamLoop dial rpcFunc n c s err d).result = Result.fail (streamCallExit err) ∧
        (streamLoop dial rpcFunc n c s err d).client = c) ∨
      (0 < n ∧ ∃ e rest,
        (streamLoop dial rpcFunc n c s err d).events = Event.stream c.streamConn e :: rest) := by
  cases n with
  | zero => exact Or.inl ⟨rfl, rfl, rfl, rfl⟩
  | succ n =>
    refine Or.inr ⟨Nat.succ_pos n, ?_⟩
    rcases hr : rpcFunc s c.streamConn with ⟨_ | e, s1⟩
    · rw [streamLoop_step_ok dial rpcFunc n c s s1 err d hr]
      exact ⟨_, _, rfl⟩
    · cases hd : dial d with
      | some dialErr =>
        rw [streamLoop_step_dialFail dial rpcFunc n c s s1 err d e dialErr hr hd]
        exact ⟨_, _, rfl⟩
      | none =>
        cases hc : c.streamConn with
        | none =>
          rw [streamLoop_step_panic dial rpcFunc n c s s1 err d e hr hd hc, hc]
          exact ⟨_, _, rfl⟩
        | some old =>
          rw [streamLoop_step_swap dial rpcFunc n c s s1 err d e old hr hd hc, hc]
          exact ⟨_, _, rfl⟩

/-- Around a failed reconnect dial: it is made without deadline, after a failed
invocation on a handle and the backoff sleep, and nothing is closed.  Counting
the invocations made so far (that of this cycle included): while fewer than
the number of attempts of the loop have been made, the next event is the next
invocation of the caller logic, on that same handle; when all attempts have
been made the run is over, with the exhaustion error wrapping the wrapped dial
error and that same handle still managed. -/
theorem streamLoop_after_dialFail {σ : Type} (dial : Dialer) (rpcFunc : StreamLogic σ)
    (n : Nat) :
    ∀ (c : WrapperClient) (s : σ) (err : Option GoError) (d : Nat) (pre post : List Event)
      (t : Option Duration) (dialErr : ExtError),
      (streamLoop dial rpcFunc n c s err d).events = pre ++ Event.dialFail t dialErr :: post →
      t = none ∧ ∃ pre0 conn e,
        pre = pre0 ++ [Event.stream conn (some e), Event.sleep c.poolCfg.StreamBackoff] ∧
        (streamConns pre).length ≤ n ∧
        ((streamConns pre).length < n → ∃ e1 rest, post = Event.stream conn e1 :: rest) ∧
        ((streamConns pre).length = n →
          post = [] ∧
          (streamLoop dial rpcFunc n c s err d).result =
            Result.fail (GoError.errorf "StreamCall failed after reconnects: %w"
              (GoError.errorf "stream reconnect failed: %w" (GoError.ext dialErr))) ∧
          (streamLoop dial rpcFunc n c s err d).client.streamConn = conn) := by
  induction n with
  | zero =>
    intro c s err d pre post t dialErr h
    simp [streamLoop] at h
  | succ n ih =>
    intro c s err d pre post t dialErr h
    rcases hr : rpcFunc s c.streamConn with ⟨_ | e, s1⟩
    · rw [streamLoop_step_ok dial rpcFunc n c s s1 err d hr] at h
      cases pre with
      | nil => simp at h
      | cons x pre => simp at h
    · cases hd : dial d with
      | some dialErr0 =>
        rw [streamLoop_step_dialFail dial rpcFunc n c s s1 err d e dialErr0 hr hd] at h ⊢
        simp only at h ⊢
        rcases pre with _ | ⟨x, _ | ⟨y, _ | ⟨z, pre⟩⟩⟩
        · simp at h
        · simp at h
        · simp only [List.cons_append, List.nil_append, List.cons.injEq, Event.dialFail.injEq]
            at h
          obtain ⟨rfl, rfl, ⟨rfl, rfl⟩, hpost⟩ := h
          refine ⟨rfl, [], c.streamConn, e, rfl, ?_, ?_, ?_⟩
          · simp [streamConns]
          · intro hlt
            rcases streamLoop_head dial rpcFunc n c s1
              (some (GoError.errorf "stream reconnect failed: %w" (GoError.ext dialErr0))) (d + 1)
              with ⟨h0, -, -, -⟩ | ⟨-, e1, rest, h1⟩
            · simp [streamConns, h0] at hlt
            · exact ⟨e1, rest, by rw [← hpost, h1]⟩
          · intro heq
            rcases streamLoop_head dial rpcFunc n c s1
              (some (GoError.errorf "stream reconnect failed: %w" (GoError.ext dialErr0))) (d + 1)
              with ⟨-, h1, h2, h3⟩ | ⟨hpos, -, -, -⟩
            · exact ⟨by rw [← hpost, h1], by rw [h2]; rfl, by rw [h3]⟩
            · simp [streamConns] at heq
              omega
        · simp only [List.cons_append, List.cons.injEq] at h
          obtain ⟨rfl, rfl, rfl, hrest⟩ := h
          obtain ⟨ht, pre0, conn, e2, hpre, hle, hnext, hend⟩ :=
            ih c s1 _ (d + 1) pre post t dialErr hrest
          refine ⟨ht, Event.stream c.streamConn (some e) :: Event.sleep c.poolCfg.StreamBackoff ::
            Event.dialFail none dialErr0 :: pre0, conn, e2, by rw [hpre]; rfl, ?_, ?_, ?_⟩
          · simp only [streamConns, List.length_cons]
            omega
          · intro hlt
            simp only [streamConns, List.length_cons] at hlt
            exact hnext (by omega)
          · intro heq
            simp only [streamConns, List.length_cons] at heq
            exact hend (by omega)
      | none =>
        cases hc : c.streamConn with
        | none =>
          rw [streamLoop_step_panic dial rpcFunc n c s s1 err d e hr hd hc] at h
          rcases pre with _ | ⟨x, _ | ⟨y, _ | ⟨z, pre⟩⟩⟩ <;> simp at h
        | some old =>
          rw [streamLoop_step_swap dial rpcFunc n c s s1 err d e old hr hd hc] at h ⊢
          simp only at h ⊢
          rcases pre with _ | ⟨x, _ | ⟨y, _ | ⟨z, _ | ⟨w, pre⟩⟩⟩⟩
          · simp at h
          · simp at h
          · simp at h
          · simp at h
          · simp only [List.cons_append, List.cons.injEq] at h
            obtain ⟨rfl, rfl, rfl, rfl, hrest⟩ := h
            obtain ⟨ht, pre0, conn, e2, hpre, hle, hnext, hend⟩ :=
              ih { c with streamConn := some d } s1 _ (d + 1) pre post t dialErr hrest
            refine ⟨ht, Event.stream c.streamConn (some e) ::
              Event.sleep c.poolCfg.StreamBackoff :: Event.dialOk none d :: Event.close old ::
                pre0, conn, e2, by rw [hpre]; rfl, ?_, ?_, ?_⟩
            · simp only [streamConns, List.length_cons]
              omega
            · intro hlt
              simp only [streamConns, List.length_cons] at hlt
              exact hnext (by omega)
            · intro heq
              simp only [streamConns, List.length_cons] at heq
              exact hend (by omega)

theorem streamLoop_cycles_le {σ : Type} (dial : Dialer) (rpcFunc : StreamLogic σ) (n : Nat) :
    ∀ (c : WrapperClient) (s : σ) (err : Option GoError) (d : Nat),
      (streamConns (streamLoop dial rpcFunc n c s err d).events).length ≤ n := by
  induction n with
  | zero =>
    intro c s err d
    simp [streamLoop, streamConns]
  | succ n ih =>
    intro c s err d
    rcases hr : rpcFunc s c.streamConn with ⟨_ | e, s1⟩
    · rw [streamLoop_step_ok dial rpcFunc n c s s1 err d hr]
      simp [streamConns]
    · cases hd : dial d with
      | some dialErr =>
        rw [streamLoop_step_dialFail dial rpcFunc n c s s1 err d e dialErr hr hd]
        simpa [streamConns] using ih c s1 _ (d + 1)
      | none =>
        cases hc : c.streamConn with
        | none =>
          rw [streamLoop_step_panic dial rpcFunc n c s s1 err d e hr hd hc]
          simp [streamConns]
        | some old =>
          rw [streamLoop_step_swap dial rpcFunc n c s s1 err d e old hr hd hc]
          simpa [streamConns] using ih { c with streamConn := some d } s1 _ (d + 1)

/-- C12: in `StreamCall`, a reconnect dial that fails (it is made without
deadline, after a failed invocation on the managed handle and the backoff
sleep) closes nothing and leaves the managed handle unchanged, and the cycle
has used up one attempt.  With `k` the number of invocations of the caller
logic made so far (this cycle included): if attempts remain
(`k < StreamRetry + 1`) the caller logic is invoked again, and this next
invocation receives the same handle; if none remains (`k = StreamRetry + 1`)
the run ends there with that handle still managed and the exhaustion error
wraps, through the error "stream reconnect failed", that dial error. -/
theorem C12_failed_reconnect_keeps_handle {σ : Type} (dial : Dialer) (d : Nat)
    (c : WrapperClient) (rpcFunc : StreamLogic σ) (s : σ) (pre post : List Event)
    (t : Option Duration) (dialErr : ExtError)
    (h : (StreamCall dial d c rpcFunc s).events = pre ++ Event.dialFail t dialErr :: post) :
    (∃ pre0 conn e,
      pre = pre0 ++ [Event.stream conn (some e), Event.sleep c.poolCfg.StreamBackoff] ∧
      (streamConns pre).length ≤ (c.poolCfg.StreamRetry + 1).toNat ∧
      ((streamConns pre).length < (c.poolCfg.StreamRetry + 1).toNat →
        ∃ e1 rest, post = Event.stream conn e1 :: rest) ∧
      ((streamConns pre).length = (c.poolCfg.StreamRetry + 1).toNat →
        post = [] ∧
        (StreamCall dial d c rpcFunc s).result =
          Result.fail (GoError.errorf "StreamCall failed after reconnects: %w"
            (GoError.errorf "stream reconnect failed: %w" (GoError.ext dialErr))) ∧
        (StreamCall dial d c rpcFunc s).client.streamConn = conn)) ∧
    (streamConns (StreamCall dial d c rpcFunc s).events).length ≤
      (c.poolCfg.StreamRetry + 1).toNat := by
  obtain ⟨-, hshape⟩ := streamLoop_after_dialFail dial rpcFunc _ c s none d pre post t dialErr h
  exact ⟨hshape, streamLoop_cycles_le dial rpcFunc _ c s none d⟩

/-- C12, instance: `StreamRetry = 1`, the first reconnect dial fails after the
first of two attempts and the second invocation is made on the same handle 3. -/
theorem C12_witness :
    (∃ pre0 conn e,
      [Event.stream (some 3) (some errPlain), Event.sleep (50 * Millisecond)] =
        pre0 ++ [Event.stream conn (some e),
          Event.sleep (sampleStreamClient 1).poolCfg.StreamBackoff] ∧
      (streamConns [Event.stream (some 3) (some errPlain),
        Event.sleep (50 * Millisecond)]).length ≤
          ((sampleStreamClient 1).poolCfg.StreamRetry + 1).toNat ∧
      ((streamConns [Event.stream (some 3) (some errPlain),
          Event.sleep (50 * Millisecond)]).length <
            ((sampleStreamClient 1).poolCfg.StreamRetry + 1).toNat →
        ∃ e1 rest, [Event.stream (some 3) (some errPlain), Event.sleep (50 * Millisecond),
            Event.dialOk none 5, Event.close 3] = Event.stream conn e1 :: rest) ∧
      ((streamConns [Event.stream (some 3) (some errPlain),
          Event.sleep (50 * Millisecond)]).length =
            ((sampleStreamClient 1).poolCfg.StreamRetry + 1).toNat →
        [Event.stream (some 3) (some errPlain), Event.sleep (50 * Millisecond),
            Event.dialOk none 5, Event.close 3] = [] ∧
        (StreamCall (dialFailsAt 4) 4 (sampleStreamClient 1) streamAlwaysFails ()).result =
          Result.fail (GoError.errorf "StreamCall failed after reconnects: %w"
            (GoError.errorf "stream reconnect failed: %w" (GoError.ext errDial))) ∧
        (StreamCall (dialFailsAt 4) 4 (sampleStreamClient 1) streamAlwaysFails ()).client.streamConn
          = conn)) ∧
    (streamConns (StreamCall (dialFailsAt 4) 4 (sampleStreamClient 1) streamAlwaysFails
      ()).events).length ≤ ((sampleStreamClient 1).poolCfg.StreamRetry + 1).toNat :=
  C12_failed_reconnect_keeps_handle (dialFailsAt 4) 4 (sampleStreamClient 1) streamAlwaysFails ()
    [Event.stream (some 3) (some errPlain), Event.sleep (50 * Millisecond)]
    [Event.stream (some 3) (some errPlain), Event.sleep (50 * Millisecond),
      Event.dialOk none 5, Event.close 3]
    none errDial (by decide)

/-! ## The errors returned by `ShortCall` and `StreamCall` -/

/-- When the loop of `ShortCall` returns an error: either no attempt was left
at all, or the error wraps the error of the last invocation, which is the last
event but for a possible backoff sleep. -/
theorem shortLoop_fail_shape {ρ σ : Type} (rpcFunc : ShortLogic ρ σ) (n : Nat) :
    ∀ (c : WrapperClient) (s : σ) (lastErr : Option GoError) (backoff : Duration)
      (err : GoError),
      (shortLoop rpcFunc n c s lastErr backoff).result = Result.fail err →
      (n = 0 ∧ err = shortCallExit lastErr) ∨
        ∃ pre t conn e tail,
          (shortLoop rpcFunc n c s lastErr backoff).events =
            pre ++ Event.call t conn (some e) :: tail ∧
          (tail = [] ∨ ∃ dur, tail = [Event.sleep dur]) ∧
          err = GoError.errorf "ShortCall failed after retries: %w" (GoError.ext e) := by
  induction n with
  | zero =>
    intro c s lastErr backoff err h
    left
    simp only [shortLoop, Result.fail.injEq] at h
    exact ⟨rfl, h.symm⟩
  | succ n ih =>
    intro c s lastErr backoff err h
    right
    cases hg : getPoolConn c with
    | none =>
      rw [shortLoop_step_panic rpcFunc n c s lastErr backoff hg] at h
      cases h
    | some p =>
      obtain ⟨conn1, c1⟩ := p
      rcases hr : rpcFunc s c.poolCfg.CallTimeout conn1 with ⟨⟨resp, _ | e⟩, s1⟩
      · rw [shortLoop_step_ok rpcFunc n c c1 s s1 lastErr backoff conn1 resp hg hr] at h
        cases h
      · by_cases hb : breaksLoop e = true
        · rw [shortLoop_step_break rpcFunc n c c1 s s1 lastErr backoff conn1 resp e hg hr hb]
            at h ⊢
          simp only [Result.fail.injEq] at h
          exact ⟨[], _, _, e, [], rfl, Or.inl rfl, h.symm⟩
        · have hb2 : breaksLoop e = false := by simpa using hb
          rw [shortLoop_step_retry rpcFunc n c c1 s s1 lastErr backoff conn1 resp e hg hr hb2]
            at h ⊢
          simp only at h ⊢
          rcases ih c1 s1 _ _ err h with ⟨hn, herr⟩ | ⟨pre, t, conn, e2, tail, hev, htail, herr⟩
          · subst hn
            exact ⟨[], c.poolCfg.CallTimeout, conn1, e, [Event.sleep backoff], by simp [shortLoop],
              Or.inr ⟨backoff, rfl⟩, herr⟩
          · exact ⟨Event.call c.poolCfg.CallTimeout conn1 (some e) :: Event.sleep backoff :: pre,
              t, conn, e2, tail, by rw [hev]; rfl, htail, herr⟩

/-- When the loop of `StreamCall` returns an error: either no attempt was left
at all, or the run ends with a cycle whose reconnect dial succeeded and the
error wraps the error of its invocation, or it ends with a cycle whose
reconnect dial failed and the error wraps the wrapped dial error. -/
theorem streamLoop_fail_shape {σ : Type} (dial : Dialer) (rpcFunc : StreamLogic σ) (n : Nat) :
    ∀ (c : WrapperClient) (s : σ) (err0 : Option GoError) (d : Nat) (err : GoError),
      (streamLoop dial rpcFunc n c s err0 d).result = Result.fail err →
      (n = 0 ∧ err = streamCallExit err0) ∨
        ∃ pre conn e,
          (∃ h old, (streamLoop dial rpcFunc n c s err0 d).events =
              pre ++ [Event.stream conn (some e), Event.sleep c.poolCfg.StreamBackoff,
                Event.dialOk none h, Event.close old] ∧
            err = GoError.errorf "StreamCall failed after reconnects: %w" (GoError.ext e)) ∨
          (∃ dialErr, (streamLoop dial rpcFunc n c s err0 d).events =
              pre ++ [Event.stream conn (some e), Event.sleep c.poolCfg.StreamBackoff,
                Event.dialFail none dialErr] ∧
            err = GoError.errorf "StreamCall failed after reconnects: %w"
              (GoError.errorf "stream reconnect failed: %w" (GoError.ext dialErr))) := by
  induction n with
  | zero =>
    intro c s err0 d err h
    left
    simp only [streamLoop, Result.fail.injEq] at h
    exact ⟨rfl, h.symm⟩
  | succ n ih =>
    intro c s err0 d err h
    right
    rcases hr : rpcFunc s c.streamConn with ⟨_ | e, s1⟩
    · rw [streamLoop_step_ok dial rpcFunc n c s s1 err0 d hr] at h
      cases h
    · cases hd : dial d with
      | some dialErr =>
        rw [streamLoop_step_dialFail dial rpcFunc n c s s1 err0 d e dialErr hr hd] at h ⊢
        simp only at h ⊢
        rcases ih c s1 _ (d + 1) err h with ⟨hn, herr⟩ | ⟨pre, conn, e2, hcases⟩
        · subst hn
          exact ⟨[], c.streamConn, e, Or.inr ⟨dialErr, by simp [streamLoop], herr⟩⟩
        · refine ⟨Event.stream c.streamConn (some e) :: Event.sleep c.poolCfg.StreamBackoff ::
            Event.dialFail none dialErr :: pre, conn, e2, ?_⟩
          rcases hcases with ⟨h1, old, hev, herr⟩ | ⟨dialErr2, hev, herr⟩
          · exact Or.inl ⟨h1, old, by rw [hev]; rfl, herr⟩
          · exact Or.inr ⟨dialErr2, by rw [hev]; rfl, herr⟩
      | none =>
        cases hc : c.streamConn with
        | none =>
          rw [streamLoop_step_panic dial rpcFunc n c s s1 err0 d e hr hd hc] at h
          cases h
        | some old =>
          rw [streamLoop_step_swap dial rpcFunc n c s s1 err0 d e old hr hd hc] at h ⊢
          simp only at h ⊢
          rcases ih { c with streamConn := some d } s1 _ (d + 1) err h with
            ⟨hn, herr⟩ | ⟨pre, conn, e2, hcases⟩
          · subst hn
            exact ⟨[], c.streamConn, e, Or.inl ⟨d, old, by simp [streamLoop], herr⟩⟩
          · refine ⟨Event.stream c.streamConn (some e) :: Event.sleep c.poolCfg.StreamBackoff ::
              Event.dialOk none d :: Event.close old :: pre, conn, e2, ?_⟩
            rcases hcases with ⟨h1, old1, hev, herr⟩ | ⟨dialErr2, hev, herr⟩
            · exact Or.inl ⟨h1, old1, by rw [hev]; rfl, herr⟩
            · exact Or.inr ⟨dialErr2, by rw [hev]; rfl, herr⟩

/-- C13 fails for negative bounds: with `MaxRetries = -1` the error returned by
`ShortCall`, and with `StreamRetry = -1` the error returned by `StreamCall`,
is built from a nil error: it wraps nothing (`errors.Unwrap` gives nil). -/
theorem C13_counterexample_no_cause :
    (ShortCall (sampleClient (-1) 3 two) rpcUnavailable ()).result =
      Result.fail (GoError.errorfNil "ShortCall failed after retries: %w") ∧
    (GoError.errorfNil "ShortCall failed after retries: %w").unwrap = none ∧
    (StreamCall dialAlwaysOk 4 (sampleStreamClient (-1)) streamAlwaysFails ()).result =
      Result.fail (GoError.errorfNil "StreamCall failed after reconnects: %w") ∧
    (GoError.errorfNil "StreamCall failed after reconnects: %w").unwrap = none := by
  refine ⟨by decide, rfl, by decide, rfl⟩

/-- C13 (amended): for every configuration with `MaxRetries >= 0` and
`StreamRetry >= 0` and every caller logic, whenever `ShortCall` or
`StreamCall` returns an error, that error is a wrapper ("ShortCall failed
after retries" / "StreamCall failed after reconnects") whose cause is the last
error observed: for `ShortCall` the error of the last invocation of the caller
logic; for `StreamCall` the error of the last invocation when the last
reconnect dial succeeded, and the wrapped error of the last reconnect dial
when that dial failed. -/
theorem C13_errors_wrap_last_error (c : WrapperClient) (hk : 0 ≤ c.poolCfg.MaxRetries)
    (hr : 0 ≤ c.poolCfg.StreamRetry) :
    (∀ {ρ σ : Type} (rpcFunc : ShortLogic ρ σ) (s : σ) (err : GoError),
      (ShortCall c rpcFunc s).result = Result.fail err →
      ∃ pre t conn e tail,
        (ShortCall c rpcFunc s).events = pre ++ Event.call t conn (some e) :: tail ∧
        (tail = [] ∨ ∃ dur, tail = [Event.sleep dur]) ∧
        err = GoError.errorf "ShortCall failed after retries: %w" (GoError.ext e) ∧
        err.unwrap = some (GoError.ext e)) ∧
    (∀ {σ : Type} (dial : Dialer) (d : Nat) (rpcFunc : StreamLogic σ) (s : σ) (err : GoError),
      (StreamCall dial d c rpcFunc s).result = Result.fail err →
      ∃ pre conn e cause,
        err = GoError.errorf "StreamCall failed after reconnects: %w" cause ∧
        err.unwrap = some cause ∧
        ((∃ h old, (StreamCall dial d c rpcFunc s).events =
              pre ++ [Event.stream conn (some e), Event.sleep c.poolCfg.StreamBackoff,
                Event.dialOk none h, Event.close old] ∧
            cause = GoError.ext e) ∨
          (∃ dialErr, (StreamCall dial d c rpcFunc s).events =
              pre ++ [Event.stream conn (some e), Event.sleep c.poolCfg.StreamBackoff,
                Event.dialFail none dialErr] ∧
            cause = GoError.errorf "stream reconnect failed: %w" (GoError.ext dialErr)))) := by
  constructor
  · intro ρ σ rpcFunc s err h
    unfold ShortCall at h ⊢
    rw [toNat_succ_of_nonneg _ hk] at h ⊢
    rcases shortLoop_fail_shape rpcFunc _ c s none _ err h with
      ⟨hn, -⟩ | ⟨pre, t, conn, e, tail, hev, htail, herr⟩
    · omega
    · exact ⟨pre, t, conn, e, tail, hev, htail, herr, by rw [herr]; rfl⟩
  · intro σ dial d rpcFunc s err h
    unfold StreamCall at h ⊢
    rw [toNat_succ_of_nonneg _ hr] at h ⊢
    rcases streamLoop_fail_shape dial rpcFunc _ c s none d err h with
      ⟨hn, -⟩ | ⟨pre, conn, e, hcases⟩
    · omega
    · rcases hcases with ⟨h1, old, hev, herr⟩ | ⟨dialErr, hev, herr⟩
      · exact ⟨pre, conn, e, _, herr, by rw [herr]; rfl, Or.inl ⟨h1, old, hev, rfl⟩⟩
      · exact ⟨pre, conn, e, _, herr, by rw [herr]; rfl, Or.inr ⟨dialErr, hev, rfl⟩⟩

/-- C13, instance: a `ShortCall` ended by a `NotFound` error and a `StreamCall`
that exhausts `StreamRetry = 2` with successful reconnect dials. -/
theorem C13_witness :
    (∃ pre t conn e tail,
      (ShortCall (sampleClient 2 3 two) rpcNotFound ()).events =
        pre ++ Event.call t conn (some e) :: tail ∧
      (tail = [] ∨ ∃ dur, tail = [Event.sleep dur]) ∧
      GoError.errorf "ShortCall failed after retries: %w" (GoError.ext errNotFound) =
        GoError.errorf "ShortCall failed after retries: %w" (GoError.ext e) ∧
      (GoError.errorf "ShortCall failed after retries: %w" (GoError.ext errNotFound)).unwrap =
        some (GoError.ext e)) ∧
    (∃ pre conn e cause,
      GoError.errorf "StreamCall failed after reconnects: %w" (GoError.ext errPlain) =
        GoError.errorf "StreamCall failed after reconnects: %w" cause ∧
      (GoError.errorf "StreamCall failed after reconnects: %w" (GoError.ext errPlain)).unwrap =
        some cause ∧
      ((∃ h old, (StreamCall dialAlwaysOk 4 (sampleClient 2 3 two) streamAlwaysFails ()).events =
            pre ++ [Event.stream conn (some e),
              Event.sleep (sampleClient 2 3 two).poolCfg.StreamBackoff,
              Event.dialOk none h, Event.close old] ∧
          cause = GoError.ext e) ∨
        (∃ dialErr, (StreamCall dialAlwaysOk 4 (sampleClient 2 3 two) streamAlwaysFails ()).events =
            pre ++ [Event.stream conn (some e),
              Event.sleep (sampleClient 2 3 two).poolCfg.StreamBackoff,
              Event.dialFail none dialErr] ∧
          cause = GoError.errorf "stream reconnect failed: %w" (GoError.ext dialErr)))) :=
  have hthm := C13_errors_wrap_last_error (sampleClient 2 3 two) (by decide) (by decide)
  ⟨hthm.1 rpcNotFound ()
      (GoError.errorf "ShortCall failed after retries: %w" (GoError.ext errNotFound)) (by decide),
    hthm.2 dialAlwaysOk 4 streamAlwaysFails ()
      (GoError.errorf "StreamCall failed after reconnects: %w" (GoError.ext errPlain))
      (by decide)⟩

/-! ## The deadline of reconnect dials -/

/-- Every dial made by the loop of `StreamCall` uses a context without deadline. -/
theorem streamLoop_dialTimeouts {σ : Type} (dial : Dialer) (rpcFunc : StreamLogic σ) (n : Nat) :
    ∀ (c : WrapperClient) (s : σ) (err : Option GoError) (d : Nat) (t : Option Duration),
      t ∈ dialTimeouts (streamLoop dial rpcFunc n c s err d).events → t = none := by
  induction n with
  | zero =>
    intro c s err d t h
    simp [streamLoop, dialTimeouts] at h
  | succ n ih =>
    intro c s err d t h
    rcases hr : rpcFunc s c.streamConn with ⟨_ | e, s1⟩
    · rw [streamLoop_step_ok dial rpcFunc n c s s1 err d hr] at h
      simp [dialTimeouts] at h
    · cases hd : dial d with
      | some dialErr =>
        rw [streamLoop_step_dialFail dial rpcFunc n c s s1 err d e dialErr hr hd] at h
        simp only [dialTimeouts, List.mem_cons] at h
        rcases h with h | h
        · exact h
        · exact ih c s1 _ (d + 1) t h
      | none =>
        cases hc : c.streamConn with
        | none =>
          rw [streamLoop_step_panic dial rpcFunc n c s s1 err d e hr hd hc] at h
          simpa [dialTimeouts] using h
        | some old =>
          rw [streamLoop_step_swap dial rpcFunc n c s s1 err d e old hr hd hc] at h
          simp only [dialTimeouts, List.mem_cons] at h
          rcases h with h | h
          · exact h
          · exact ih { c with streamConn := some d } s1 _ (d + 1) t h

/-- C14, the code at a failing input: the constructor dials its four
connections under the deadline `DialTimeout` (5s), whereas the reconnect dials
of a `StreamCall` on the client it returns are made with `context.Background()`,
that is without any deadline. -/
theorem C14_reconnect_dial_has_no_deadline :
    (NewWrapperClient dialAlwaysOk 0 "localhost:50051" (sampleConfig 2 3 two) []).result =
      Result.ok (sampleClient 2 3 two) ∧
    dialTimeouts (NewWrapperClient dialAlwaysOk 0 "localhost:50051" (sampleConfig 2 3 two)
      []).events =
      [some (5000 * Millisecond), some (5000 * Millisecond), some (5000 * Millisecond),
        some (5000 * Millisecond)] ∧
    (sampleClient 2 3 two).poolCfg.DialTimeout = 5000 * Millisecond ∧
    (StreamCall dialAlwaysOk 4 (sampleClient 2 3 two) streamAlwaysFails ()).events =
      [Event.stream (some 3) (some errPlain), Event.sleep (50 * Millisecond),
        Event.dialOk none 4, Event.close 3,
        Event.stream (some 4) (some errPlain), Event.sleep (50 * Millisecond),
        Event.dialOk none 5, Event.close 4,
        Event.stream (some 5) (some errPlain), Event.sleep (50 * Millisecond),
        Event.dialOk none 6, Event.close 5] ∧
    dialTimeouts (StreamCall dialAlwaysOk 4 (sampleClient 2 3 two) streamAlwaysFails ()).events =
      [none, none, none] := by
  refine ⟨by decide, by decide, by decide, by decide, by decide⟩

/-! ## Monotonicity of the backoff -/

theorem excessBits_lower (fuel : Nat) :
    ∀ n : Nat, 0 < excessBits fuel n → 2 ^ 52 ≤ n / 2 ^ excessBits fuel n := by
  induction fuel with
  | zero =>
    intro n h
    simp [excessBits] at h
  | succ fuel ih =>
    intro n h
    rw [excessBits] at h ⊢
    split at h
    · omega
    · rename_i hn
      rw [if_neg hn]
      by_cases hs : 0 < excessBits fuel (n / 2)
      · have hdiv : n / 2 ^ (excessBits fuel (n / 2) + 1) =
            n / 2 / 2 ^ excessBits fuel (n / 2) := by
          rw [Nat.div_div_eq_div_mul, ← Nat.pow_succ']
        rw [hdiv]
        exact ih (n / 2) hs
      · have hz : excessBits fuel (n / 2) = 0 := by omega
        rw [hz]
        simp only [Nat.zero_add, Nat.pow_one]
        omega

/-- Rounding to 53 significant bits never goes below a lower bound of the form
`b * 2 ^ k` with `b < 2 ^ 53` (such a bound is itself representable). -/
theorem roundSig53_ge (P b k : Nat) (hb : b < 2 ^ 53) (hP : b * 2 ^ k ≤ P) :
    b * 2 ^ k ≤ roundSig53 P := by
  unfold roundSig53
  simp only
  split
  · exact hP
  · rename_i hne
    have hpos : 0 < excessBits P P := Nat.pos_of_ne_zero hne
    have hq := excessBits_lower P P hpos
    have hlow : b * 2 ^ k ≤ P / 2 ^ excessBits P P * 2 ^ excessBits P P := by
      by_cases hsk : excessBits P P ≤ k
      · obtain ⟨r, hr⟩ := Nat.exists_eq_add_of_le hsk
        have hle : b * 2 ^ r ≤ P / 2 ^ excessBits P P := by
          rw [Nat.le_div_iff_mul_le (Nat.two_pow_pos _)]
          calc b * 2 ^ r * 2 ^ excessBits P P = b * 2 ^ k := by
                rw [hr, Nat.pow_add, Nat.mul_assoc, Nat.mul_comm (2 ^ r)]
            _ ≤ P := hP
        calc b * 2 ^ k = b * 2 ^ r * 2 ^ excessBits P P := by
              rw [hr, Nat.pow_add, Nat.mul_assoc, Nat.mul_comm (2 ^ r)]
          _ ≤ P / 2 ^ excessBits P P * 2 ^ excessBits P P := Nat.mul_le_mul_right _ hle
      · push_neg at hsk
        obtain ⟨r, hr⟩ := Nat.exists_eq_add_of_lt hsk
        have h1 : b * 2 ^ k ≤ 2 ^ 52 * 2 ^ (k + 1) := by
          have : 2 ^ 52 * 2 ^ (k + 1) = 2 ^ 53 * 2 ^ k := by
            rw [Nat.pow_succ]
            ring
          rw [this]
          exact Nat.mul_le_mul_right _ (le_of_lt hb)
        have h2 : 2 ^ 52 * 2 ^ (k + 1) ≤ 2 ^ 52 * 2 ^ excessBits P P :=
          Nat.mul_le_mul_left _ (Nat.pow_le_pow_right (by norm_num) (by omega))
        have h3 : 2 ^ 52 * 2 ^ excessBits P P ≤ P / 2 ^ excessBits P P * 2 ^ excessBits P P :=
          Nat.mul_le_mul_right _ hq
        exact le_trans h1 (le_trans h2 h3)
    split
    · calc b * 2 ^ k ≤ P / 2 ^ excessBits P P * 2 ^ excessBits P P := hlow
        _ ≤ (P / 2 ^ excessBits P P + 1) * 2 ^ excessBits P P :=
          Nat.mul_le_mul_right _ (Nat.le_succ _)
    · exact hlow

theorem roundSig53_zero : roundSig53 0 = 0 := by
  simp [roundSig53, excessBits]

theorem roundInt_natCast (n : Nat) : roundInt (n : Int) = (roundSig53 n : Int) := by
  unfold roundInt
  cases n with
  | zero => simp [roundSig53_zero]
  | succ n =>
    rw [Int.natAbs_ofNat]
    have : ((n + 1 : Nat) : Int).sign = 1 := Int.sign_of_add_one n
    rw [this, one_mul]

/-- One scaling step by a finite factor of at least one does not decrease a
backoff below `2 ^ 53`, unless the conversion to `int64` overflows (the result
is then negative). -/
theorem scaleBackoff_ge (b : Nat) (m e : Int) (hb : b < 2 ^ 53)
    (hf : (1 : ℚ) ≤ (m : ℚ) * (2 : ℚ) ^ e)
    (hres : 0 ≤ scaleBackoff (b : Int) (Float64.finite m e)) :
    (b : Int) ≤ scaleBackoff (b : Int) (Float64.finite m e) := by
  have hmpos : 0 < m := by
    by_contra hneg
    push_neg at hneg
    have h1 : (m : ℚ) ≤ 0 := by exact_mod_cast hneg
    have h2 : (0 : ℚ) < (2 : ℚ) ^ e := by positivity
    have : (m : ℚ) * (2 : ℚ) ^ e ≤ 0 := mul_nonpos_of_nonpos_of_nonneg h1 (le_of_lt h2)
    linarith
  obtain ⟨M, rfl⟩ := Int.eq_ofNat_of_zero_le (le_of_lt hmpos)
  simp only [scaleBackoff] at hres ⊢
  rw [roundInt_small b hb] at hres ⊢
  have hcast : (b : Int) * (M : Int) = ((b * M : Nat) : Int) := by push_cast; rfl
  rw [hcast, roundInt_natCast] at hres ⊢
  unfold truncToInt64 at hres ⊢
  by_cases he : 0 ≤ e
  · obtain ⟨k, rfl⟩ := Int.eq_ofNat_of_zero_le he
    have hM : 1 ≤ M := by exact_mod_cast hmpos
    have hR : b * 2 ^ 0 ≤ roundSig53 (b * M) :=
      roundSig53_ge (b * M) b 0 hb (by simpa using Nat.le_mul_of_pos_right b hM)
    simp only [Int.natCast_nonneg, if_true, Int.toNat_ofNat] at hres ⊢
    have hv : (b : Int) ≤ (roundSig53 (b * M) : Int) * 2 ^ k := by
      have h1 : (b : Int) ≤ (roundSig53 (b * M) : Int) := by
        have : b ≤ roundSig53 (b * M) := by simpa using hR
        exact_mod_cast this
      have h2 : (1 : Int) ≤ 2 ^ k := by
        have : (0 : Int) < 2 ^ k := by positivity
        omega
      calc (b : Int) ≤ (roundSig53 (b * M) : Int) := h1
        _ ≤ (roundSig53 (b * M) : Int) * 2 ^ k :=
          le_mul_of_one_le_right (Int.natCast_nonneg _) h2
    split at hres
    · rw [if_pos (by assumption)]
      exact hv
    · norm_num at hres
  · push_neg at he
    obtain ⟨k, hk⟩ : ∃ k : Nat, e = -(k : Int) := ⟨(-e).toNat, by omega⟩
    subst hk
    have hM : 2 ^ k ≤ M := by
      rw [zpow_neg, zpow_natCast] at hf
      have h2 : (0 : ℚ) < (2 : ℚ) ^ k := by positivity
      have h3 : (2 : ℚ) ^ k ≤ (M : ℚ) := by
        have := (le_mul_inv_iff₀ h2).mp hf
        simpa using this
      exact_mod_cast h3
    have hR : b * 2 ^ k ≤ roundSig53 (b * M) :=
      roundSig53_ge (b * M) b k hb (Nat.mul_le_mul_left b hM)
    have hneg : ¬ (0 ≤ -(k : Int)) := by omega
    simp only [hneg, if_false, neg_neg, Int.toNat_ofNat] at hres ⊢
    have hv : (b : Int) ≤ Int.tdiv (roundSig53 (b * M) : Int) (2 ^ k) := by
      rw [Int.tdiv_eq_ediv (Int.natCast_nonneg _) (by positivity)]
      have : b ≤ roundSig53 (b * M) / 2 ^ k := by
        rw [Nat.le_div_iff_mul_le (Nat.two_pow_pos _)]
        exact hR
      exact_mod_cast this
    split at hres
    · rw [if_pos (by assumption)]
      exact hv
    · norm_num at hres

/-- The sleep of index `i` of a `ShortCall` is the backoff in force at step `i`. -/
theorem ShortCall_sleep_eq {ρ σ : Type} (c : WrapperClient) (rpcFunc : ShortLogic ρ σ) (s : σ)
    (i : Nat) (dur : Duration)
    (h : (sleeps (ShortCall c rpcFunc s).events).get? i = some dur) :
    dur = backoffAt c.poolCfg.BackoffFactor i := by
  have hs := shortLoop_sleeps rpcFunc (c.poolCfg.MaxRetries + 1).toNat c s none (100 * Millisecond)
  unfold ShortCall at h
  rw [hs, List.get?_eq_getElem?, List.getElem?_map] at h
  cases hi : (List.range (retryableFailures (shortLoop rpcFunc (c.poolCfg.MaxRetries + 1).toNat
    c s none (100 * Millisecond)).events))[i]? with
  | none => simp [hi] at h
  | some k =>
    have hk : k = i := by
      rw [List.getElem?_eq_some_iff] at hi
      obtain ⟨hlt, hget⟩ := hi
      simpa using hget.symm
    subst hk
    simp only [hi, Option.map_some', Option.some.injEq] at h
    rw [← h]
    rfl

/-- C15 fails: with `BackoffFactor = 0.5` the sleeps of a `ShortCall` whose
caller logic keeps failing with `Unavailable` decrease: 100ms, 50ms, 25ms. -/
theorem C15_counterexample_factor_below_one :
    sleeps (ShortCall (sampleClient 2 3 half) rpcUnavailable ()).events =
      [100000000, 50000000, 25000000] ∧
    ¬ ((100000000 : Int) ≤ 50000000) := by
  refine ⟨by decide, by decide⟩

/-- C15 (amended): for every configuration whose `BackoffFactor` is a finite
number `f = m * 2 ^ e` with `f >= 1` and every run of `ShortCall`, the backoff
is non-decreasing as long as it stays in range: a sleep is greater than or
equal to the one before it whenever the earlier one lies in `[0, 2 ^ 53)`
nanoseconds and the later one has not overflowed `int64` (is not negative). -/
theorem C15_backoff_non_decreasing {ρ σ : Type} (c : WrapperClient) (rpcFunc : ShortLogic ρ σ)
    (s : σ) (i : Nat) (d1 d2 : Duration) (m e : Int)
    (hf : c.poolCfg.BackoffFactor = Float64.finite m e)
    (hge : (1 : ℚ) ≤ (m : ℚ) * (2 : ℚ) ^ e)
    (h1 : (sleeps (ShortCall c rpcFunc s).events).get? i = some d1)
    (h2 : (sleeps (ShortCall c rpcFunc s).events).get? (i + 1) = some d2)
    (hd1 : 0 ≤ d1 ∧ d1 < 2 ^ 53) (hd2 : 0 ≤ d2) :
    d1 ≤ d2 := by
  have e1 := ShortCall_sleep_eq c rpcFunc s i d1 h1
  have e2 := ShortCall_sleep_eq c rpcFunc s (i + 1) d2 h2
  rw [backoffAt_succ, ← e1, hf] at e2
  obtain ⟨b, hb⟩ := Int.eq_ofNat_of_zero_le hd1.1
  have hblt : b < 2 ^ 53 := by
    have : (b : Int) < 2 ^ 53 := by rw [← hb]; exact hd1.2
    exact_mod_cast this
  rw [hb] at e2 ⊢
  rw [e2] at hd2 ⊢
  exact scaleBackoff_ge b m e hblt hge hd2

/-- C15, instance: with factor `1.5` the first two sleeps are 100ms and 150ms. -/
theorem C15_witness : (100000000 : Int) ≤ 150000000 :=
  C15_backoff_non_decreasing (sampleClient 2 3 oneAndHalf) rpcUnavailable () 0
    100000000 150000000 3 (-1) rfl (by norm_num) (by decide) (by decide)
    (by decide) (by decide)

/-! ## Invariants of a client in single-threaded use -/

theorem getPoolConn_fields (c c1 : WrapperClient) (conn : Option Conn)
    (h : getPoolConn c = some (conn, c1)) :
    c1.pool = c.pool ∧ c1.poolCfg = c.poolCfg ∧ c1.streamConn = c.streamConn := by
  unfold getPoolConn at h
  split at h
  · split at h
    · cases h
    · simp only [Option.some.injEq, Prod.mk.injEq] at h
      rw [← h.2]
      exact ⟨rfl, rfl, rfl⟩
  · cases h

theorem getPoolConn_inRange (c c1 : WrapperClient) (conn : Option Conn)
    (h : getPoolConn c = some (conn, c1)) (hc : InRange c) : InRange c1 := by
  obtain ⟨conn2, -, hg⟩ := getPoolConn_of_inRange c hc
  rw [hg] at h
  simp only [Option.some.injEq, Prod.mk.injEq] at h
  rw [← h.2]
  exact inRange_advance c hc

/-- What the loop of `ShortCall` does to the client and which events it never
produces: pool, configuration and stream handle are untouched, the cursor keeps
indexing the pool, nothing is dialed and nothing is closed. -/
theorem shortLoop_client {ρ σ : Type} (rpcFunc : ShortLogic ρ σ) (n : Nat) :
    ∀ (c : WrapperClient) (s : σ) (lastErr : Option GoError) (backoff : Duration),
      (shortLoop rpcFunc n c s lastErr backoff).client.pool = c.pool ∧
      (shortLoop rpcFunc n c s lastErr backoff).client.poolCfg = c.poolCfg ∧
      (shortLoop rpcFunc n c s lastErr backoff).client.streamConn = c.streamConn ∧
      (InRange c → InRange (shortLoop rpcFunc n c s lastErr backoff).client) ∧
      closes (shortLoop rpcFunc n c s lastErr backoff).events = [] ∧
      dialed (shortLoop rpcFunc n c s lastErr backoff).events = [] := by
  induction n with
  | zero =>
    intro c s lastErr backoff
    simp [shortLoop, closes, dialed]
  | succ n ih =>
    intro c s lastErr backoff
    cases hg : getPoolConn c with
    | none =>
      rw [shortLoop_step_panic rpcFunc n c s lastErr backoff hg]
      simp [closes, dialed]
    | some p =>
      obtain ⟨conn1, c1⟩ := p
      obtain ⟨f1, f2, f3⟩ := getPoolConn_fields c c1 conn1 hg
      have f4 : InRange c → InRange c1 := getPoolConn_inRange c c1 conn1 hg
      rcases hr : rpcFunc s c.poolCfg.CallTimeout conn1 with ⟨⟨resp, _ | e⟩, s1⟩
      · rw [shortLoop_step_ok rpcFunc n c c1 s s1 lastErr backoff conn1 resp hg hr]
        exact ⟨f1, f2, f3, f4, rfl, rfl⟩
      · by_cases hb : breaksLoop e = true
        · rw [shortLoop_step_break rpcFunc n c c1 s s1 lastErr backoff conn1 resp e hg hr hb]
          exact ⟨f1, f2, f3, f4, rfl, rfl⟩
        · have hb2 : breaksLoop e = false := by simpa using hb
          rw [shortLoop_step_retry rpcFunc n c c1 s s1 lastErr backoff conn1 resp e hg hr hb2]
          obtain ⟨g1, g2, g3, g4, g5, g6⟩ := ih c1 s1 (some (GoError.ext e))
            (scaleBackoff backoff c.poolCfg.BackoffFactor)
          refine ⟨g1.trans f1, g2.trans f2, g3.trans f3, fun hc => g4 (f4 hc), ?_, ?_⟩
          · simpa [closes] using g5
          · simpa [dialed] using g6

/-- The loop of `StreamCall` leaves pool, cursor and configuration untouched. -/
theorem streamLoop_client {σ : Type} (dial : Dialer) (rpcFunc : StreamLogic σ) (n : Nat) :
    ∀ (c : WrapperClient) (s : σ) (err : Option GoError) (d : Nat),
      (streamLoop dial rpcFunc n c s err d).client.pool = c.pool ∧
      (streamLoop dial rpcFunc n c s err d).client.next = c.next ∧
      (streamLoop dial rpcFunc n c s err d).client.poolCfg = c.poolCfg := by
  induction n with
  | zero =>
    intro c s err d
    simp [streamLoop]
  | succ n ih =>
    intro c s err d
    rcases hr : rpcFunc s c.streamConn with ⟨_ | e, s1⟩
    · rw [streamLoop_step_ok dial rpcFunc n c s s1 err d hr]
      exact ⟨rfl, rfl, rfl⟩
    · cases hd : dial d with
      | some dialErr =>
        rw [streamLoop_step_dialFail dial rpcFunc n c s s1 err d e dialErr hr hd]
        exact ih c s1 _ (d + 1)
      | none =>
        cases hc : c.streamConn with
        | none =>
          rw [streamLoop_step_panic dial rpcFunc n c s s1 err d e hr hd hc]
          exact ⟨rfl, rfl, rfl⟩
        | some old =>
          rw [streamLoop_step_swap dial rpcFunc n c s s1 err d e old hr hd hc]
          exact ih { c with streamConn := some d } s1 _ (d + 1)

/-- The stream handles of a run of the loop of `StreamCall` started with the
managed handle `h`: a handle is still managed at the end, and the handles
closed, followed by it, are `h` followed by the handles dialed, in order; the
handles dialed are fresh (numbered from `d`) and increasing. -/
theorem streamLoop_handles {σ : Type} (dial : Dialer) (rpcFunc : StreamLogic σ) (n : Nat) :
    ∀ (c : WrapperClient) (s : σ) (err : Option GoError) (d : Nat) (h : Conn),
      c.streamConn = some h →
      (∃ h1, (streamLoop dial rpcFunc n c s err d).client.streamConn = some h1 ∧
        closes (streamLoop dial rpcFunc n c s err d).events ++ [h1] =
          h :: dialed (streamLoop dial rpcFunc n c s err d).events) ∧
      (∀ x, x ∈ dialed (streamLoop dial rpcFunc n c s err d).events →
        d ≤ x ∧ x < (streamLoop dial rpcFunc n c s err d).dials) ∧
      (dialed (streamLoop dial rpcFunc n c s err d).events).Pairwise (· < ·) ∧
      d ≤ (streamLoop dial rpcFunc n c s err d).dials := by
  induction n with
  | zero =>
    intro c s err d h hc
    simp [streamLoop, closes, dialed, hc]
  | succ n ih =>
    intro c s err d h hc
    rcases hr : rpcFunc s c.streamConn with ⟨_ | e, s1⟩
    · rw [streamLoop_step_ok dial rpcFunc n c s s1 err d hr]
      simp [closes, dialed, hc]
    · cases hd : dial d with
      | some dialErr =>
        rw [streamLoop_step_dialFail dial rpcFunc n c s s1 err d e dialErr hr hd]
        obtain ⟨⟨h1, g1, g2⟩, g3, g4, g5⟩ := ih c s1
          (some (GoError.errorf "stream reconnect failed: %w" (GoError.ext dialErr))) (d + 1) h hc
        refine ⟨⟨h1, g1, by simpa [closes, dialed] using g2⟩, ?_, by simpa [dialed] using g4,
          le_trans (Nat.le_succ d) g5⟩
        intro x hx
        have hx2 := g3 x (by simpa [dialed] using hx)
        exact ⟨le_trans (Nat.le_succ d) hx2.1, hx2.2⟩
      | none =>
        rw [streamLoop_step_swap dial rpcFunc n c s s1 err d e h hr hd hc]
        obtain ⟨⟨h1, g1, g2⟩, g3, g4, g5⟩ := ih { c with streamConn := some d } s1
          (some (GoError.ext e)) (d + 1) d rfl
        refine ⟨⟨h1, g1, ?_⟩, ?_, ?_, le_trans (Nat.le_succ d) g5⟩
        · simp only [closes, dialed, List.cons_append]
          rw [g2]
        · intro x hx
          simp only [dialed, List.mem_cons] at hx
          rcases hx with hx | hx
          · rw [hx]
            exact ⟨le_refl d, g5⟩
          · have hx2 := g3 x hx
            exact ⟨le_trans (Nat.le_succ d) hx2.1, hx2.2⟩
        · simp only [dialed, List.pairwise_cons]
          exact ⟨fun x hx => (g3 x hx).1, g4⟩

/-- Pool, configuration and validity of the cursor are the same in every state
reached by `ShortCall`s and `StreamCall`s. -/
theorem reach_pool (dial : Dialer) (c0 : WrapperClient) (evs0 : List Event) (d0 : Nat)
    (c : WrapperClient) (evs : List Event) (d : Nat) (hreach : Reach dial c0 evs0 d0 c evs d) :
    c.pool = c0.pool ∧ c.poolCfg = c0.poolCfg ∧ (InRange c0 → InRange c) := by
  induction hreach with
  | start => exact ⟨rfl, rfl, fun h => h⟩
  | shortCall c1 evs1 d1 rpcFunc s _ ih =>
    obtain ⟨g1, g2, -, g4, -, -⟩ := shortLoop_client rpcFunc (c1.poolCfg.MaxRetries + 1).toNat c1 s
      none (100 * Millisecond)
    exact ⟨g1.trans ih.1, g2.trans ih.2.1, fun h => g4 (ih.2.2 h)⟩
  | streamCall c1 evs1 d1 rpcFunc s _ ih =>
    obtain ⟨g1, g2, g3⟩ := streamLoop_client dial rpcFunc (c1.poolCfg.StreamRetry + 1).toNat c1 s
      none d1
    refine ⟨g1.trans ih.1, g3.trans ih.2.1, fun h => ?_⟩
    have hc1 := ih.2.2 h
    unfold InRange at hc1 ⊢
    unfold StreamCall
    rw [g1, g2]
    exact hc1

/-- The stream handles in every state reached by `ShortCall`s and
`StreamCall`s, when the first `n` handles dialed are those of the pool: a
handle is managed, and the handles closed so far, followed by it, are the
handles dialed after the first `n`, in order; handles are fresh. -/
theorem reach_stream (n : Nat) (dial : Dialer) (c0 : WrapperClient) (evs0 : List Event) (d0 : Nat)
    (c : WrapperClient) (evs : List Event) (d : Nat) (hreach : Reach dial c0 evs0 d0 c evs d)
    (h0 : ∃ h, c0.streamConn = some h ∧ closes evs0 ++ [h] = (dialed evs0).drop n)
    (hp0 : (dialed evs0).Pairwise (· < ·)) (hlt0 : ∀ x, x ∈ dialed evs0 → x < d0) :
    (∃ h, c.streamConn = some h ∧ closes evs ++ [h] = (dialed evs).drop n) ∧
      (dialed evs).Pairwise (· < ·) ∧ (∀ x, x ∈ dialed evs → x < d) := by
  induction hreach with
  | start => exact ⟨h0, hp0, hlt0⟩
  | shortCall c1 evs1 d1 rpcFunc s _ ih =>
    obtain ⟨⟨h, hs, heq⟩, hp, hlt⟩ := ih
    obtain ⟨-, -, g3, -, g5, g6⟩ := shortLoop_client rpcFunc (c1.poolCfg.MaxRetries + 1).toNat
      c1 s none (100 * Millisecond)
    have e5 : closes (ShortCall c1 rpcFunc s).events = [] := g5
    have e6 : dialed (ShortCall c1 rpcFunc s).events = [] := g6
    refine ⟨⟨h, g3.trans hs, ?_⟩, ?_, ?_⟩
    · rw [closes_append, dialed_append, e5, e6, List.append_nil, List.append_nil]
      exact heq
    · rw [dialed_append, e6, List.append_nil]
      exact hp
    · rw [dialed_append, e6, List.append_nil]
      exact hlt
  | streamCall c1 evs1 d1 rpcFunc s _ ih =>
    obtain ⟨⟨h, hs, heq⟩, hp, hlt⟩ := ih
    obtain ⟨⟨h1, g1, g2⟩, g3, g4, g5⟩ := streamLoop_handles dial rpcFunc
      (c1.poolCfg.StreamRetry + 1).toNat c1 s none d1 h hs
    have hlen : n ≤ (dialed evs1).length := by
      have hl := congrArg List.length heq
      simp only [List.length_append, List.length_singleton, List.length_drop] at hl
      omega
    refine ⟨⟨h1, g1, ?_⟩, ?_, ?_⟩
    · rw [closes_append, dialed_append, List.drop_append_of_le_length hlen, ← heq,
        List.append_assoc, List.append_assoc]
      congr 1
    · rw [dialed_append, List.pairwise_append]
      refine ⟨hp, g4, fun a ha b hb => ?_⟩
      exact lt_of_lt_of_le (hlt a ha) (g3 b hb).1
    · intro x hx
      rw [dialed_append, List.mem_append] at hx
      rcases hx with hx | hx
      · exact lt_of_lt_of_le (hlt x hx) g5
      · exact (g3 x hx).2

/-- C16: pool invariant.  For every `PoolSize = n >= 1`, in every state reached
from a successful construction by any sequence of `ShortCall`s and
`StreamCall`s, the cursor satisfies `0 <= next < n`, the pool has exactly `n`
slots and every slot holds a non-nil handle; and `getPoolConn` returns the
handle at the cursor and sets the cursor to `(next + 1) mod n`. -/
theorem C16_pool_invariant (dial : Dialer) (d0 : Nat) (serverURL : String) (cfg : Config)
    (opts : List DialOption) (c0 c : WrapperClient) (evs : List Event) (d : Nat)
    (hn : 1 ≤ cfg.PoolSize)
    (hnew : (NewWrapperClient dial d0 serverURL cfg opts).result = Result.ok c0)
    (hreach : Reach dial c0 (NewWrapperClient dial d0 serverURL cfg opts).events
      (NewWrapperClient dial d0 serverURL cfg opts).dials c evs d) :
    (0 ≤ c.next ∧ c.next < cfg.PoolSize) ∧
    (c.pool.length : Int) = cfg.PoolSize ∧
    (∀ slot, slot ∈ c.pool → slot ≠ none) ∧
    ∃ h, c.pool.get? c.next.toNat = some (some h) ∧
      getPoolConn c = some (some h, { c with next := (c.next + 1) % cfg.PoolSize }) := by
  obtain ⟨hpool, -, -, hnext, -, -⟩ :=
    NewWrapperClient_ok_client dial d0 serverURL cfg opts c0 hnew
  have hpos : 0 < cfg.PoolSize.toNat := by omega
  have hc0 : InRange c0 := fresh_inRange c0 d0 _ hpool hnext hpos
  obtain ⟨hp, -, hin⟩ := reach_pool dial c0 _ _ c evs d hreach
  have hc := hin hc0
  have hlen : (c.pool.length : Int) = cfg.PoolSize := by
    rw [hp, hpool, List.length_map, List.length_range']
    exact Int.toNat_of_nonneg (by omega)
  have hslots : ∀ slot, slot ∈ c.pool → slot ≠ none := by
    intro slot hs
    rw [hp, hpool, List.mem_map] at hs
    obtain ⟨x, -, rfl⟩ := hs
    exact Option.some_ne_none x
  obtain ⟨conn, hget, hg⟩ := getPoolConn_of_inRange c hc
  refine ⟨⟨hc.1, by rw [← hlen]; exact hc.2⟩, hlen, hslots, ?_⟩
  cases conn with
  | none =>
    have hmem : (none : Option Conn) ∈ c.pool := List.get?_mem hget
    exact absurd rfl (hslots none hmem)
  | some h =>
    refine ⟨h, hget, ?_⟩
    rw [hg]
    unfold advance
    rw [hlen]

/-- C16, instance: the fresh sample client after one `ShortCall`. -/
theorem C16_witness :
    (0 ≤ (ShortCall (sampleClient 2 3 two) rpcOk ()).client.next ∧
      (ShortCall (sampleClient 2 3 two) rpcOk ()).client.next < (sampleConfig 2 3 two).PoolSize) ∧
    ((ShortCall (sampleClient 2 3 two) rpcOk ()).client.pool.length : Int) =
      (sampleConfig 2 3 two).PoolSize ∧
    (∀ slot, slot ∈ (ShortCall (sampleClient 2 3 two) rpcOk ()).client.pool → slot ≠ none) ∧
    ∃ h, (ShortCall (sampleClient 2 3 two) rpcOk ()).client.pool.get?
        (ShortCall (sampleClient 2 3 two) rpcOk ()).client.next.toNat = some (some h) ∧
      getPoolConn (ShortCall (sampleClient 2 3 two) rpcOk ()).client =
        some (some h, { (ShortCall (sampleClient 2 3 two) rpcOk ()).client with
          next := ((ShortCall (sampleClient 2 3 two) rpcOk ()).client.next + 1) %
            (sampleConfig 2 3 two).PoolSize }) :=
  C16_pool_invariant dialAlwaysOk 0 "localhost:50051" (sampleConfig 2 3 two) []
    (sampleClient 2 3 two) _ _ _ (by decide) (by decide)
    (Reach.shortCall (sampleClient 2 3 two) _ _ rpcOk () Reach.start)

/-! ## The pool with its mutex -/

theorem callErrs_append (a b : List Event) : callErrs (a ++ b) = callErrs a ++ callErrs b := by
  induction a with
  | nil => simp [callErrs]
  | cons x xs ih => cases x <;> simp [callErrs, ih]

theorem callErrs_map_dialOk (t : Option Duration) (l : List Conn) :
    callErrs (l.map (Event.dialOk t)) = [] := by
  induction l with
  | nil => rfl
  | cons x xs ih => simp [callErrs, ih]

/-- The loop of `StreamCall` never invokes the caller logic of `ShortCall`. -/
theorem streamLoop_callErrs {σ : Type} (dial : Dialer) (rpcFunc : StreamLogic σ) (n : Nat) :
    ∀ (c : WrapperClient) (s : σ) (err : Option GoError) (d : Nat),
      callErrs (streamLoop dial rpcFunc n c s err d).events = [] := by
  induction n with
  | zero =>
    intro c s err d
    simp [streamLoop, callErrs]
  | succ n ih =>
    intro c s err d
    rcases hr : rpcFunc s c.streamConn with ⟨_ | e, s1⟩
    · rw [streamLoop_step_ok dial rpcFunc n c s s1 err d hr]
      simp [callErrs]
    · cases hd : dial d with
      | some dialErr =>
        rw [streamLoop_step_dialFail dial rpcFunc n c s s1 err d e dialErr hr hd]
        simpa [callErrs] using ih c s1 _ (d + 1)
      | none =>
        cases hc : c.streamConn with
        | none =>
          rw [streamLoop_step_panic dial rpcFunc n c s s1 err d e hr hd hc]
          simp [callErrs]
        | some old =>
          rw [streamLoop_step_swap dial rpcFunc n c s s1 err d e old hr hd hc]
          simpa [callErrs] using ih { c with streamConn := some d } s1 _ (d + 1)

/-- With `poolMu` free and the cursor inside the pool, the loop with the mutex
made explicit does what `shortLoop` does and leaves `poolMu` free. -/
theorem shortLoopMu_of_inRange {ρ σ : Type} (rpcFunc : ShortLogic ρ σ) (n : Nat) :
    ∀ (c : WrapperClient) (s : σ) (lastErr : Option GoError) (backoff : Duration), InRange c →
      shortLoopMu rpcFunc n false c s lastErr backoff =
        ⟨some (shortLoop rpcFunc n c s lastErr backoff).result,
          (shortLoop rpcFunc n c s lastErr backoff).client,
          (shortLoop rpcFunc n c s lastErr backoff).user,
          (shortLoop rpcFunc n c s lastErr backoff).events, false⟩ := by
  induction n with
  | zero =>
    intro c s lastErr backoff _
    rfl
  | succ n ih =>
    intro c s lastErr backoff hc
    obtain ⟨conn, -, hg⟩ := getPoolConn_of_inRange c hc
    have hmu : getPoolConnMu false c = PoolConnOutcome.returned conn (advance c) := by
      simp [getPoolConnMu, hg]
    rcases hr : rpcFunc s c.poolCfg.CallTimeout conn with ⟨⟨resp, _ | e⟩, s1⟩
    · rw [shortLoop_step_ok rpcFunc n c _ s s1 lastErr backoff conn resp hg hr, shortLoopMu]
      simp [hmu, hr]
    · by_cases hb : breaksLoop e = true
      · rw [shortLoop_step_break rpcFunc n c _ s s1 lastErr backoff conn resp e hg hr hb,
          shortLoopMu]
        simp [hmu, hr, hb]
      · have hb2 : breaksLoop e = false := by simpa using hb
        rw [shortLoop_step_retry rpcFunc n c _ s s1 lastErr backoff conn resp e hg hr hb2,
          shortLoopMu]
        simp only [hmu, hr, hb2]
        rw [ih (advance c) s1 _ _ (inRange_advance c hc)]
        simp

/-- On an empty pool the loop never invokes the caller logic and leaves the
client as it is: with no attempt it returns the exhaustion error; otherwise
its first `getPoolConn` blocks when `poolMu` is held and panics, leaving
`poolMu` held, when it is free. -/
theorem shortLoopMu_empty_pool {ρ σ : Type} (rpcFunc : ShortLogic ρ σ) (n : Nat) (locked : Bool)
    (c : WrapperClient) (s : σ) (lastErr : Option GoError) (backoff : Duration)
    (hpool : c.pool = []) :
    (shortLoopMu rpcFunc n locked c s lastErr backoff).client = c ∧
    (shortLoopMu rpcFunc n locked c s lastErr backoff).events = [] ∧
    (n = 0 → (shortLoopMu rpcFunc n locked c s lastErr backoff).locked = locked) ∧
    (0 < n →
      (shortLoopMu rpcFunc n locked c s lastErr backoff).locked = true ∧
      (shortLoopMu rpcFunc n locked c s lastErr backoff).outcome =
        if locked then none else some (Result.panic "index out of range")) := by
  have hg : getPoolConn c = none := by
    unfold getPoolConn
    rw [hpool]
    split <;> rfl
  cases n with
  | zero => exact ⟨rfl, rfl, fun _ => rfl, fun h => absurd h (Nat.lt_irrefl 0)⟩
  | succ n =>
    cases locked with
    | true =>
      have hmu : getPoolConnMu true c = PoolConnOutcome.blocked := by simp [getPoolConnMu]
      rw [shortLoopMu]
      simp [hmu]
    | false =>
      have hmu : getPoolConnMu false c = PoolConnOutcome.panicked := by
        simp [getPoolConnMu, hg]
      rw [shortLoopMu]
      simp [hmu]

/-- With a non-empty pool, `poolMu` is free and the cursor indexes the pool in
every state reached. -/
theorem reachMu_non_empty (dial : Dialer) (c0 : WrapperClient) (evs0 : List Event) (d0 : Nat)
    (c : WrapperClient) (evs : List Event) (d : Nat) (locked : Bool)
    (hreach : ReachMu dial c0 evs0 d0 c evs d locked) (hc0 : InRange c0) :
    locked = false ∧ c.pool = c0.pool ∧ InRange c := by
  induction hreach with
  | start => exact ⟨rfl, rfl, hc0⟩
  | shortCall c1 evs1 d1 locked1 rpcFunc s res _ _ ih =>
    obtain ⟨hl, hp, hin⟩ := ih
    subst hl
    have hrun := shortLoopMu_of_inRange rpcFunc (c1.poolCfg.MaxRetries + 1).toNat c1 s none
      (100 * Millisecond) hin
    obtain ⟨g1, -, -, g4, -, -⟩ := shortLoop_client rpcFunc (c1.poolCfg.MaxRetries + 1).toNat c1 s
      none (100 * Millisecond)
    unfold ShortCallMu
    rw [hrun]
    exact ⟨rfl, g1.trans hp, g4 hin⟩
  | streamCall c1 evs1 d1 locked1 rpcFunc s _ ih =>
    obtain ⟨hl, hp, hin⟩ := ih
    obtain ⟨g1, g2, -⟩ := streamLoop_client dial rpcFunc (c1.poolCfg.StreamRetry + 1).toNat c1 s
      none d1
    refine ⟨hl, g1.trans hp, ?_⟩
    unfold InRange at hin ⊢
    unfold StreamCall
    rw [g1, g2]
    exact hin

/-- With an empty pool, the pool stays empty and the caller logic of
`ShortCall` has never been invoked in any state reached. -/
theorem reachMu_empty (dial : Dialer) (c0 : WrapperClient) (evs0 : List Event) (d0 : Nat)
    (c : WrapperClient) (evs : List Event) (d : Nat) (locked : Bool)
    (hreach : ReachMu dial c0 evs0 d0 c evs d locked) (hc0 : c0.pool = [])
    (he0 : callErrs evs0 = []) :
    c.pool = [] ∧ callErrs evs = [] := by
  induction hreach with
  | start => exact ⟨hc0, he0⟩
  | shortCall c1 evs1 d1 locked1 rpcFunc s res _ _ ih =>
    obtain ⟨hp, he⟩ := ih
    obtain ⟨g1, g2, -, -⟩ := shortLoopMu_empty_pool rpcFunc (c1.poolCfg.MaxRetries + 1).toNat
      locked1 c1 s none (100 * Millisecond) hp
    unfold ShortCallMu
    rw [g1, g2, List.append_nil]
    exact ⟨hp, he⟩
  | streamCall c1 evs1 d1 locked1 rpcFunc s _ ih =>
    obtain ⟨hp, he⟩ := ih
    obtain ⟨g1, -, -⟩ := streamLoop_client dial rpcFunc (c1.poolCfg.StreamRetry + 1).toNat c1 s
      none d1
    refine ⟨?_, ?_⟩
    · unfold StreamCall
      rw [g1]
      exact hp
    · unfold StreamCall
      rw [callErrs_append, he, streamLoop_callErrs, List.append_nil]

/-- C17 fails for the `ShortCall`s that follow the first one.  On the client
that the constructor returns for `PoolSize = 0`, the first `ShortCall` panics
in `getPoolConn` (index out of range) and leaves `poolMu` locked; a later
`ShortCall` (after the caller recovered the panic, a state reached with
`poolMu` locked) does not fault: it blocks forever in `getPoolConn` on
`poolMu.Lock()`. -/
theorem C17_counterexample_later_call_blocks :
    (NewWrapperClient dialAlwaysOk 0 "localhost:50051" (sampleConfig 2 0 two) []).result =
      Result.ok (sampleClient 2 0 two) ∧
    (ShortCallMu false (sampleClient 2 0 two) rpcOk ()).outcome =
      some (Result.panic "index out of range") ∧
    (ShortCallMu false (sampleClient 2 0 two) rpcOk ()).locked = true ∧
    (ShortCallMu false (sampleClient 2 0 two) rpcOk ()).client = sampleClient 2 0 two ∧
    getPoolConnMu true (sampleClient 2 0 two) = PoolConnOutcome.blocked ∧
    (ShortCallMu true (sampleClient 2 0 two) rpcOk ()).outcome = none ∧
    (ShortCallMu true (sampleClient 2 0 two) rpcOk ()).outcome ≠
      some (Result.panic "index out of range") ∧
    (ShortCallMu true (sampleClient 2 0 two) rpcOk ()).events = [] ∧
    ReachMu dialAlwaysOk (sampleClient 2 0 two)
      (NewWrapperClient dialAlwaysOk 0 "localhost:50051" (sampleConfig 2 0 two) []).events
      (NewWrapperClient dialAlwaysOk 0 "localhost:50051" (sampleConfig 2 0 two) []).dials
      (ShortCallMu false (sampleClient 2 0 two) rpcOk ()).client
      ((NewWrapperClient dialAlwaysOk 0 "localhost:50051" (sampleConfig 2 0 two) []).events ++
        (ShortCallMu false (sampleClient 2 0 two) rpcOk ()).events)
      (NewWrapperClient dialAlwaysOk 0 "localhost:50051" (sampleConfig 2 0 two) []).dials
      (ShortCallMu false (sampleClient 2 0 two) rpcOk ()).locked := by
  refine ⟨by decide, by decide, by decide, by decide, by decide, by decide, by decide,
    by decide, ?_⟩
  exact ReachMu.shortCall (sampleClient 2 0 two) _ _ false rpcOk ()
    (Result.panic "index out of range") ReachMu.start (by decide)

/-- C17 (amended): `getPoolConn` yields a connection exactly when the pool is
non-empty.  For `PoolSize >= 1`, in every state reached from a successful
construction, `poolMu` is free and `getPoolConn` does not fault and returns a
handle.  For `PoolSize = 0` construction succeeds as soon as the stream dial
does, and in every state reached from it the caller logic of `ShortCall` has
never been invoked and `getPoolConn` yields nothing: a `ShortCall` with
`MaxRetries >= 0` panics in `getPoolConn` (index out of range), before any
invocation of the caller logic and leaving `poolMu` locked, when `poolMu` is
free, that is for the first one; and it blocks forever in `getPoolConn` on
`poolMu.Lock()`, again before any invocation, when `poolMu` is locked, that is
for every later one. -/
theorem C17_pool_yields_only_when_non_empty (dial : Dialer) (d0 : Nat) (serverURL : String)
    (cfg : Config) (opts : List DialOption) :
    (1 ≤ cfg.PoolSize → ∀ (c0 c : WrapperClient) (evs : List Event) (d : Nat) (locked : Bool),
      (NewWrapperClient dial d0 serverURL cfg opts).result = Result.ok c0 →
      ReachMu dial c0 (NewWrapperClient dial d0 serverURL cfg opts).events
        (NewWrapperClient dial d0 serverURL cfg opts).dials c evs d locked →
      locked = false ∧ ∃ h c1, getPoolConnMu locked c = PoolConnOutcome.returned (some h) c1) ∧
    (cfg.PoolSize = 0 → dial d0 = none →
      ∃ c0, (NewWrapperClient dial d0 serverURL cfg opts).result = Result.ok c0 ∧ c0.pool = [] ∧
        ∀ (c : WrapperClient) (evs : List Event) (d : Nat) (locked : Bool),
          ReachMu dial c0 (NewWrapperClient dial d0 serverURL cfg opts).events
            (NewWrapperClient dial d0 serverURL cfg opts).dials c evs d locked →
          callErrs evs = [] ∧
          getPoolConnMu locked c =
            (if locked then PoolConnOutcome.blocked else PoolConnOutcome.panicked) ∧
          ∀ {ρ σ : Type} (rpcFunc : ShortLogic ρ σ) (s : σ), 0 ≤ c.poolCfg.MaxRetries →
            (ShortCallMu locked c rpcFunc s).events = [] ∧
            (ShortCallMu locked c rpcFunc s).outcome =
              (if locked then none else some (Result.panic "index out of range")) ∧
            (ShortCallMu locked c rpcFunc s).locked = true) := by
  constructor
  · intro hn c0 c evs d locked hnew hreach
    obtain ⟨hpool, -, -, hnext, -, -⟩ :=
      NewWrapperClient_ok_client dial d0 serverURL cfg opts c0 hnew
    have hpos : 0 < cfg.PoolSize.toNat := by omega
    have hc0 : InRange c0 := fresh_inRange c0 d0 _ hpool hnext hpos
    obtain ⟨hl, hp, hin⟩ := reachMu_non_empty dial c0 _ _ c evs d locked hreach hc0
    refine ⟨hl, ?_⟩
    subst hl
    obtain ⟨conn, hget, hg⟩ := getPoolConn_of_inRange c hin
    cases conn with
    | none =>
      have hmem : (none : Option Conn) ∈ c.pool := List.get?_mem hget
      rw [hp, hpool, List.mem_map] at hmem
      obtain ⟨x, -, hx⟩ := hmem
      cases hx
    | some h => exact ⟨h, advance c, by simp [getPoolConnMu, hg]⟩
  · intro hz hdial
    have hall : ∀ j, j < cfg.PoolSize.toNat + 1 → dial (d0 + j) = none := by
      intro j hj
      have : j = 0 := by omega
      rw [this]
      exact hdial
    have hrun := NewWrapperClient_all_ok dial d0 serverURL cfg opts (by omega) hall
    refine ⟨_, by rw [hrun], by rw [hz]; rfl, ?_⟩
    intro c evs d locked hreach
    rw [hrun] at hreach
    obtain ⟨hp, he⟩ := reachMu_empty dial _ _ _ c evs d locked hreach (by rw [hz]; rfl)
      (callErrs_map_dialOk _ _)
    have hg : getPoolConn c = none := by
      unfold getPoolConn
      rw [hp]
      split <;> rfl
    refine ⟨he, ?_, ?_⟩
    · cases locked <;> simp [getPoolConnMu, hg]
    · intro ρ σ rpcFunc s hk
      obtain ⟨-, g2, -, g4⟩ := shortLoopMu_empty_pool rpcFunc (c.poolCfg.MaxRetries + 1).toNat
        locked c s none (100 * Millisecond) hp
      have hpos : 0 < (c.poolCfg.MaxRetries + 1).toNat := by omega
      exact ⟨g2, (g4 hpos).2, (g4 hpos).1⟩

/-- C17, instance: a fresh pool of three yields handle 0 with `poolMu` free;
with `PoolSize = 0` the constructor succeeds and, on the client it returns,
the first `ShortCall` panics without any event and leaves `poolMu` locked. -/
theorem C17_witness :
    (false = false ∧
      ∃ h c1, getPoolConnMu false (sampleClient 2 3 two) = PoolConnOutcome.returned (some h) c1) ∧
    (∃ c0, (NewWrapperClient dialAlwaysOk 0 "localhost:50051" (sampleConfig 2 0 two) []).result =
        Result.ok c0 ∧ c0.pool = [] ∧
      getPoolConnMu false c0 = PoolConnOutcome.panicked ∧
      (ShortCallMu false c0 rpcOk ()).events = [] ∧
      (ShortCallMu false c0 rpcOk ()).outcome = some (Result.panic "index out of range") ∧
      (ShortCallMu false c0 rpcOk ()).locked = true) := by
  have hthm3 := C17_pool_yields_only_when_non_empty dialAlwaysOk 0 "localhost:50051"
    (sampleConfig 2 3 two) []
  have hthm0 := C17_pool_yields_only_when_non_empty dialAlwaysOk 0 "localhost:50051"
    (sampleConfig 2 0 two) []
  refine ⟨hthm3.1 (by decide) (sampleClient 2 3 two) (sampleClient 2 3 two) _ _ false (by decide)
    ReachMu.start, ?_⟩
  obtain ⟨c0, hres, hpool, hall⟩ := hthm0.2 rfl rfl
  have hr := hall c0 _ _ false ReachMu.start
  have hk : 0 ≤ c0.poolCfg.MaxRetries := by
    rw [(NewWrapperClient_ok_client dialAlwaysOk 0 "localhost:50051" (sampleConfig 2 0 two) [] c0
      hres).2.1]
    decide
  exact ⟨c0, hres, hpool, hr.2.1, hr.2.2 rpcOk () hk⟩

/-- C18: stream-slot invariant.  In every state reached from a successful
construction by any sequence of `ShortCall`s and `StreamCall`s (before
`Close`), the client references exactly one stream handle `h`; `h` has never
been closed; the handles closed so far are pairwise distinct and, followed by
`h`, they are exactly the stream handles dialed so far in order (the handles
dialed after the `PoolSize` pool handles: the initial stream handle, then the
handle of each successful reconnect dial).  Hence each formerly managed handle
has been closed exactly once and each handle from a successful reconnect dial
has become the managed handle. -/
theorem C18_stream_slot_invariant (dial : Dialer) (d0 : Nat) (serverURL : String) (cfg : Config)
    (opts : List DialOption) (c0 c : WrapperClient) (evs : List Event) (d : Nat)
    (hnew : (NewWrapperClient dial d0 serverURL cfg opts).result = Result.ok c0)
    (hreach : Reach dial c0 (NewWrapperClient dial d0 serverURL cfg opts).events
      (NewWrapperClient dial d0 serverURL cfg opts).dials c evs d) :
    ∃ h, c.streamConn = some h ∧ h ∉ closes evs ∧ (closes evs).Nodup ∧
      closes evs ++ [h] = (dialed evs).drop cfg.PoolSize.toNat ∧ (dialed evs).Nodup := by
  obtain ⟨-, -, hstream, -, hev, hdials⟩ :=
    NewWrapperClient_ok_client dial d0 serverURL cfg opts c0 hnew
  have hd0 : dialed (NewWrapperClient dial d0 serverURL cfg opts).events =
      List.range' d0 (cfg.PoolSize.toNat + 1) := by
    rw [hev, dialed_map_dialOk]
  have hc0 : closes (NewWrapperClient dial d0 serverURL cfg opts).events = [] := by
    rw [hev, closes_map_dialOk]
  have hinit : ∃ h, c0.streamConn = some h ∧
      closes (NewWrapperClient dial d0 serverURL cfg opts).events ++ [h] =
        (dialed (NewWrapperClient dial d0 serverURL cfg opts).events).drop cfg.PoolSize.toNat := by
    refine ⟨d0 + cfg.PoolSize.toNat, hstream, ?_⟩
    rw [hc0, hd0, List.range'_concat, List.drop_left']
    · simp
    · simp
  have hp0 : (dialed (NewWrapperClient dial d0 serverURL cfg opts).events).Pairwise (· < ·) := by
    rw [hd0]
    exact List.pairwise_lt_range' d0 _
  have hlt0 : ∀ x, x ∈ dialed (NewWrapperClient dial d0 serverURL cfg opts).events →
      x < (NewWrapperClient dial d0 serverURL cfg opts).dials := by
    intro x hx
    rw [hd0, List.mem_range'_1] at hx
    rw [hdials]
    exact hx.2
  obtain ⟨⟨h, hs, heq⟩, hp, -⟩ := reach_stream cfg.PoolSize.toNat dial c0 _ _ c evs d hreach
    hinit hp0 hlt0
  have hnd : (dialed evs).Nodup := hp.imp (fun hab => ne_of_lt hab)
  have hnd2 : (closes evs ++ [h]).Nodup := by
    rw [heq]
    exact hnd.sublist (List.drop_sublist _ _)
  rw [List.nodup_append] at hnd2
  refine ⟨h, hs, ?_, hnd2.1, heq, hnd⟩
  intro hmem
  exact hnd2.2.2 hmem (List.mem_singleton_self h)

/-- C18, instance: the fresh sample client after one `StreamCall` whose caller
logic always fails (three swaps): handle 6 is managed, 3, 4 and 5 are closed. -/
theorem C18_witness :
    ∃ h, (StreamCall dialAlwaysOk 4 (sampleClient 2 3 two) streamAlwaysFails ()).client.streamConn
        = some h ∧
      h ∉ closes
        ((NewWrapperClient dialAlwaysOk 0 "localhost:50051" (sampleConfig 2 3 two) []).events ++
          (StreamCall dialAlwaysOk 4 (sampleClient 2 3 two) streamAlwaysFails ()).events) ∧
      (closes
        ((NewWrapperClient dialAlwaysOk 0 "localhost:50051" (sampleConfig 2 3 two) []).events ++
          (StreamCall dialAlwaysOk 4 (sampleClient 2 3 two) streamAlwaysFails ()).events)).Nodup ∧
      closes
        ((NewWrapperClient dialAlwaysOk 0 "localhost:50051" (sampleConfig 2 3 two) []).events ++
          (StreamCall dialAlwaysOk 4 (sampleClient 2 3 two) streamAlwaysFails ()).events) ++ [h] =
        (dialed
          ((NewWrapperClient dialAlwaysOk 0 "localhost:50051" (sampleConfig 2 3 two) []).events ++
            (StreamCall dialAlwaysOk 4 (sampleClient 2 3 two) streamAlwaysFails ()).events)).drop
          (sampleConfig 2 3 two).PoolSize.toNat ∧
      (dialed
        ((NewWrapperClient dialAlwaysOk 0 "localhost:50051" (sampleConfig 2 3 two) []).events ++
          (StreamCall dialAlwaysOk 4 (sampleClient 2 3 two) streamAlwaysFails ()).events)).Nodup :=
  C18_stream_slot_invariant dialAlwaysOk 0 "localhost:50051" (sampleConfig 2 3 two) []
    (sampleClient 2 3 two) _ _ _ (by decide)
    (Reach.streamCall (sampleClient 2 3 two) _ _ streamAlwaysFails () Reach.start)

/-- C19 fails: when the third dial of the constructor fails, the two
connections already opened (0 and 1) are not closed: the constructor performs
no close at all and returns no client. -/
theorem C19_counterexample_no_cleanup :
    (NewWrapperClient (dialFailsAt 2) 0 "localhost:50051" (sampleConfig 2 3 two) []).events =
      [Event.dialOk (some (5000 * Millisecond)) 0, Event.dialOk (some (5000 * Millisecond)) 1,
        Event.dialFail (some (5000 * Millisecond)) errDial] ∧
    dialed (NewWrapperClient (dialFailsAt 2) 0 "localhost:50051" (sampleConfig 2 3 two) []).events =
      [0, 1] ∧
    closes (NewWrapperClient (dialFailsAt 2) 0 "localhost:50051" (sampleConfig 2 3 two) []).events =
      [] ∧
    (NewWrapperClient (dialFailsAt 2) 0 "localhost:50051" (sampleConfig 2 3 two) []).result =
      Result.fail (GoError.errorf "failed to dial short RPC connection: %w"
        (GoError.ext errDial)) := by
  refine ⟨by decide, by decide, by decide, by decide⟩

/-- C19 (amended): when `NewWrapperClient` aborts because a dial fails (the
dial of index `j`, after `j` successful ones), it returns no client together
with the wrapped dial error and performs no close: the `j` connections it had
already opened are left open. -/
theorem C19_aborted_construction_closes_nothing (dial : Dialer) (d : Nat) (serverURL : String)
    (cfg : Config) (opts : List DialOption) (j : Nat) (err : ExtError) (hn : 0 ≤ cfg.PoolSize)
    (hj : j < cfg.PoolSize.toNat + 1) (hok : ∀ k, k < j → dial (d + k) = none)
    (hfail : dial (d + j) = some err) :
    closes (NewWrapperClient dial d serverURL cfg opts).events = [] ∧
    dialed (NewWrapperClient dial d serverURL cfg opts).events = List.range' d j ∧
    ∃ wrapper, (NewWrapperClient dial d serverURL cfg opts).result = Result.fail wrapper ∧
      wrapper.unwrap = some (GoError.ext err) := by
  rw [NewWrapperClient_first_fail dial d serverURL cfg opts j err hn hj hok hfail]
  refine ⟨?_, ?_, _, rfl, rfl⟩
  · simp [closes_append, closes_map_dialOk, closes]
  · simp [dialed_append, dialed_map_dialOk, dialed]

/-- C19, instance: the third dial of a pool of three fails. -/
theorem C19_witness :
    closes (NewWrapperClient (dialFailsAt 2) 0 "localhost:50051" (sampleConfig 2 3 two) []).events =
      [] ∧
    dialed (NewWrapperClient (dialFailsAt 2) 0 "localhost:50051" (sampleConfig 2 3 two) []).events =
      List.range' 0 2 ∧
    ∃ wrapper, (NewWrapperClient (dialFailsAt 2) 0 "localhost:50051" (sampleConfig 2 3 two)
        []).result = Result.fail wrapper ∧
      wrapper.unwrap = some (GoError.ext errDial) :=
  C19_aborted_construction_closes_nothing (dialFailsAt 2) 0 "localhost:50051"
    (sampleConfig 2 3 two) [] 2 errDial (by decide) (by decide) (by decide) (by decide)

end GrpcClient
